import Mathlib

/-!
# Visual script property selector: the incremental search runner

A shallow embedding of `VisualScriptPropertySelector::SearchRunner`
(`editor/visual_script_property_selector.{h,cpp}`).

* Engine strings (`String`, `StringName`) are lists of characters; the engine
  string routines used by the runner are given in `GodotString`.
* `HashMap` is the engine's insertion-ordered hash map: an association list
  whose keys are unique and which is iterated in insertion order.
* Pointers into `combined_docs` (`ClassMatch::doc`, the member pointers) are
  held by value: a class doc is only rewritten by `_phase_match_classes` at
  the moment its match record is built and never afterwards.
* `int` bitmasks are integers; `flags & BIT` is `Int.land`.
* Collaborators of the host editor (class registry, feature profile, script
  loader, case table) are parameters, bundled in `Host`.
-/

set_option autoImplicit false

/-- Engine string: a sequence of code points. -/
abbrev Str := List Char

namespace GodotString

/-- The literal of the source text as an engine string. -/
def lit (s : String) : Str := s.toList

/-- Engine `String::to_lower`: every character goes through the case table. -/
def to_lower (lc : Char → Char) (s : Str) : Str := s.map lc

/-- Scan of `String::find`: the first position at which `p` starts, counted from `i`. -/
def find_loop (p : Str) : Str → Nat → Int
  | [], _ => -1
  | c :: cs, i => if p.isPrefixOf (c :: cs) then (i : Int) else find_loop p cs (i + 1)

/-- Engine `String::find`: position of the first occurrence of `p` in `s`, `-1` when
there is none; an empty needle or an empty subject is never found. -/
def find (s p : Str) : Int :=
  if p.length = 0 ∨ s.length = 0 then -1 else find_loop p s 0

/-- Engine `String::findn`: `find` comparing the case-table image of both characters
at every position. -/
def findn (lc : Char → Char) (s p : Str) : Int :=
  find (to_lower lc s) (to_lower lc p)

/-- Engine `String::begins_with`; the empty string begins every string. -/
def begins_with (s p : Str) : Bool := p.isPrefixOf s

/-- Engine `String::ends_with`; the empty string ends every string. -/
def ends_with (s p : Str) : Bool := p.isSuffixOf s

/-- Engine `String::substr(p_from, p_chars)`; `p_chars = -1` means up to the end. -/
def substr (s : Str) (p_from p_chars : Int) : Str :=
  let len : Int := s.length
  let chars : Int := if p_chars = -1 then len - p_from else p_chars
  if s.length = 0 ∨ p_from < 0 ∨ p_from ≥ len ∨ chars ≤ 0 then []
  else
    let chars2 : Int := if p_from + chars > len then len - p_from else chars
    (s.drop p_from.toNat).take chars2.toNat

/-- Engine `String::left(p_len)`. -/
def left (s : Str) (p_len : Int) : Str :=
  let len : Int := s.length
  let n : Int := if p_len < 0 then len + p_len else p_len
  if n ≤ 0 then [] else if n ≥ len then s else substr s 0 n

/-- Characters removed by `strip_edges`: code points up to 32. -/
def is_edge (c : Char) : Bool := decide (c.toNat ≤ 32)

/-- Engine `String::strip_edges()` with both sides enabled. -/
def strip_edges (s : Str) : Str :=
  ((s.dropWhile is_edge).reverse.dropWhile is_edge).reverse

/-- The double quote character. -/
def dq : Char := Char.ofNat 34

/-- The single quote character. -/
def sq : Char := Char.ofNat 39

/-- Engine `String::is_quoted`. -/
def is_quoted (s : Str) : Bool :=
  (begins_with s [dq] && ends_with s [dq]) || (begins_with s [sq] && ends_with s [sq])

/-- Engine `String::unquote`. -/
def unquote (s : Str) : Str :=
  if is_quoted s then substr s 1 ((s.length : Int) - 2) else s

/-- Engine `String::split("/")`, empty pieces kept: the pieces between the slashes;
the empty string has the one piece `""`. -/
def split_slash : Str → List Str
  | [] => [[]]
  | c :: cs =>
    match split_slash cs with
    | [] => [[c]]
    | piece :: pieces => if c = '/' then [] :: piece :: pieces else (c :: piece) :: pieces

/-- Engine `String::get_file`: what follows the last slash or backslash. -/
def get_file (s : Str) : Str :=
  (s.reverse.takeWhile (fun c => !(c == '/' || c == Char.ofNat 92))).reverse

end GodotString

open GodotString

/-- Engine `HashMap<String, V>`: entries in insertion order, keys unique. -/
abbrev HashMap (V : Type) := List (Str × V)

namespace HashMap

/-- The method `has`. -/
def has {V : Type} (m : HashMap V) (k : Str) : Bool := m.any (fun e => e.1 == k)

/-- Lookup of a key, `none` when absent. -/
def get? {V : Type} : HashMap V → Str → Option V
  | [], _ => none
  | (k1, v) :: rest, k => if k1 = k then some v else get? rest k

/-- Assignment `m[k] = v`: overwrites in place, or appends a new last entry. -/
def set {V : Type} : HashMap V → Str → V → HashMap V
  | [], k, v => [(k, v)]
  | (k1, v1) :: rest, k, v => if k1 = k then (k1, v) :: rest else (k1, v1) :: set rest k v

/-- The non-const `m[k]`: the value under `k`, inserting the default value `dflt`
as a new last entry when the key is absent. -/
def index {V : Type} (m : HashMap V) (k : Str) (dflt : V) : HashMap V × V :=
  match get? m k with
  | some v => (m, v)
  | none => (m ++ [(k, dflt)], dflt)

/-- The iterator `m.begin()`: the first entry, or the invalid iterator of an empty
map. An iterator is the position of the element it points to, or `none` when it is
invalid; entries are only ever appended, so a position keeps denoting the same
element, and an invalid iterator stays invalid when entries are added later. -/
def begin {V : Type} (m : HashMap V) : Option Nat :=
  match m with
  | [] => none
  | _ :: _ => some 0

/-- The increment `++it`: the next entry, or the invalid iterator after the last
one; an invalid iterator is left as it is. -/
def next {V : Type} (m : HashMap V) (it : Option Nat) : Option Nat :=
  match it with
  | none => none
  | some i => if i + 1 < m.length then some (i + 1) else none

/-- The entry an iterator refers to; `none` for the invalid iterator. -/
def entry {V : Type} (m : HashMap V) (it : Option Nat) : Option (Str × V) :=
  match it with
  | none => none
  | some i => List.get? m i

/-- Writing through a reference to the value of the entry an iterator refers to. -/
def put_value {V : Type} (m : HashMap V) (it : Option Nat) (v : V) : HashMap V :=
  match it with
  | none => m
  | some i =>
    match List.get? m i with
    | none => m
    | some (k, _) => List.set m i (k, v)

end HashMap

/-! ## Flags (`visual_script_property_selector.h`) -/

def SEARCH_CLASSES : Int := 2 ^ 0
def SEARCH_CONSTRUCTORS : Int := 2 ^ 1
def SEARCH_METHODS : Int := 2 ^ 2
def SEARCH_OPERATORS : Int := 2 ^ 3
def SEARCH_SIGNALS : Int := 2 ^ 4
def SEARCH_CONSTANTS : Int := 2 ^ 5
def SEARCH_PROPERTIES : Int := 2 ^ 6
def SEARCH_THEME_ITEMS : Int := 2 ^ 7
def SEARCH_VISUAL_SCRIPT_NODES : Int := 2 ^ 8
def SEARCH_CASE_SENSITIVE : Int := 2 ^ 29
def SEARCH_SHOW_HIERARCHY : Int := 2 ^ 30

def SCOPE_BASE : Int := 2 ^ 0
def SCOPE_INHERITERS : Int := 2 ^ 1
def SCOPE_UNRELATED : Int := 2 ^ 2
def SCOPE_GLOBAL : Int := 2 ^ 3
def SCOPE_RELATED : Int := Int.lor SCOPE_BASE SCOPE_INHERITERS
def SCOPE_ALL : Int := Int.lor (Int.lor SCOPE_BASE SCOPE_INHERITERS) SCOPE_UNRELATED

/-- The test `flags & BIT` read as a condition. -/
def flag_set (flags bit : Int) : Bool := Int.land flags bit != 0

/-- The editor translation lookups `TTR`, `TTRC`, `TTRGET`, in the source locale. -/
def TTR (s : Str) : Str := s

/-! ## Documentation records (`DocData`) -/

namespace DocData

structure ArgumentDoc where
  name : Str
  type : Str
  default_value : Str
  deriving DecidableEq, Repr

structure MethodDoc where
  name : Str
  return_type : Str
  description : Str
  arguments : List ArgumentDoc
  deriving DecidableEq, Repr

structure ConstantDoc where
  name : Str
  description : Str
  deriving DecidableEq, Repr

structure PropertyDoc where
  name : Str
  type : Str
  description : Str
  setter : Str
  getter : Str
  deriving DecidableEq, Repr

structure ThemeItemDoc where
  name : Str
  type : Str
  description : Str
  deriving DecidableEq, Repr

structure ClassDoc where
  name : Str
  inherits : Str
  brief_description : Str
  description : Str
  script_path : Str
  constructors : List MethodDoc
  methods : List MethodDoc
  operators : List MethodDoc
  signals : List MethodDoc
  constants : List ConstantDoc
  enums : List (Str × Str)
  properties : List PropertyDoc
  theme_properties : List ThemeItemDoc
  deriving DecidableEq, Repr

/-- A default constructed `DocData::ClassDoc`. -/
def ClassDoc.empty : ClassDoc :=
  { name := [], inherits := [], brief_description := [], description := [], script_path := [],
    constructors := [], methods := [], operators := [], signals := [], constants := [],
    enums := [], properties := [], theme_properties := [] }

end DocData

open DocData

/-! ## Host collaborators -/

/-- The engine class registry `ClassDB`, as far as the runner consults it. Parent
links of registered classes descend in `rank`: the registry has no inheritance
cycle. -/
structure ClassDB where
  class_exists : Str → Bool
  get_parent_class : Str → Str
  is_parent_class : Str → Str → Bool
  get_inheriters_from_class : Str → List Str
  rank : Str → Nat
  rank_parent : ∀ c, class_exists c = true → rank (get_parent_class c) < rank c

/-- What a loaded custom node script reports about itself. -/
structure CustomNodeInfo where
  caption : Str
  category : Str

/-- Engine `PropertyInfo`, with `type` already printed by `Variant::get_type_name`. -/
structure PropertyInfo where
  name : Str
  type : Str

/-- Engine `MethodInfo`, with the return type already printed by
`Variant::get_type_name`. -/
structure MethodInfo where
  name : Str
  return_type : Str
  arguments : List PropertyInfo

/-- The member lists a live `Script` object reports. -/
structure ScriptLists where
  methods : List MethodInfo
  signals : List MethodInfo
  properties : List PropertyInfo

/-- A script resource as `_phase_match_classes_init` sees it; `lists` is `none` when
the instance behind the script is not a `Script` object. -/
structure ScriptInfo where
  instance_base_type : Str
  lists : Option ScriptLists

/-- The host editor seen from the runner. -/
structure Host where
  classdb : ClassDB
  /-- The current `EditorFeatureProfile`: `none` is the null reference, otherwise
  its `is_class_disabled`. -/
  current_profile : Option (Str → Bool)
  /-- Loading `script_path` into a fresh `VisualScriptCustomNode`. -/
  custom_node : Str → CustomNodeInfo
  /-- The case table behind `to_lower` and `findn`. -/
  find_lower : Char → Char
  /-- The Document Source: `EditorHelp::get_doc_data()->class_list`. -/
  class_list : HashMap ClassDoc
  /-- The call `ResourceLoader::load(file_path)` read as a script; `none` is the null
  reference. -/
  load_script : Str → Option ScriptInfo
  /-- The names `VisualScriptLanguage::get_registered_node_names` reports. -/
  registered_node_names : List Str
  /-- The theme query `has_theme_icon(name, "EditorIcons")`. -/
  has_theme_icon : Str → Bool

/-- Fields of the dialog `VisualScriptPropertySelector` read by the runner; the
toggles and the combo start as the dialog's constructor leaves them. -/
structure Selector where
  base_type : Str
  base_script : Str
  search_box_text : Str := []
  search_visual_script_nodes : Bool := true
  search_classes : Bool := true
  search_methods : Bool := true
  search_operators : Bool := true
  search_signals : Bool := true
  search_constants : Bool := true
  search_properties : Bool := true
  search_theme_items : Bool := true
  case_sensitive_button : Bool := false
  hierarchy_button : Bool := true
  /-- The id of the selected item of `scope_combo`. -/
  scope_combo_selected_id : Int := SCOPE_RELATED

/-! ## Result tree (`Tree`, `TreeItem`) -/

/-- A row of the result tree. A `TreeItem *` is the position of the row in
`ResultsTree.items`, which lists the rows in creation order. -/
structure TreeItem where
  parent : Option Nat
  icon : Str
  text0 : Str
  text1 : Str
  tooltip : Str
  metadata0 : Str
  metadata1 : Str
  /-- The meta entry `description`, absent on class rows. -/
  description : Option Str
  /-- Whether the custom (disabled) colour was set. -/
  gray : Bool
  selected : Bool
  /-- Book-keeping of the model, not a cell of the engine row: the text with which
  `_match_item` was called for this row (empty for the root, which is not scored). -/
  scored_name : Str
  deriving DecidableEq, Repr

structure ResultsTree where
  items : List TreeItem
  root : Option Nat
  deriving DecidableEq, Repr

namespace ResultsTree

/-- The method `Tree::clear`. -/
def clear (_t : ResultsTree) : ResultsTree := { items := [], root := none }

/-- The method `Tree::create_item(p_parent)`: a null parent makes the root when there
is none and a child of the root otherwise. The new row is returned with its
position; its cells are those of `cells`. -/
def create_item (t : ResultsTree) (p_parent : Option Nat) (cells : TreeItem) : ResultsTree × Nat :=
  let id := t.items.length
  match p_parent with
  | some p => ({ t with items := t.items ++ [{ cells with parent := some p }] }, id)
  | none =>
    match t.root with
    | none => ({ items := t.items ++ [{ cells with parent := none }], root := some id }, id)
    | some r => ({ t with items := t.items ++ [{ cells with parent := some r }] }, id)

end ResultsTree

/-- A fresh row before any setter is called. -/
def TreeItem.blank : TreeItem :=
  { parent := none, icon := [], text0 := [], text1 := [], tooltip := [], metadata0 := [],
    metadata1 := [], description := none, gray := false, selected := false,
    scored_name := [] }

/-! ## Scores

A `float` value is a finite rational (one of the binary32 values), or one of the two
values a division by a zero length produces. -/

inductive Score where
  | finite (q : ℚ)
  | pos_inf
  | nan
  deriving DecidableEq

namespace Score

/-- The comparison `x == 0`. -/
def is_zero : Score → Bool
  | finite q => decide (q = 0)
  | _ => false

/-- The comparison `a > b`. -/
def gt : Score → Score → Bool
  | finite a, finite b => decide (a > b)
  | pos_inf, finite _ => true
  | _, _ => false

end Score

/-! ## Arithmetic of `float` (IEEE 754 binary32)

Every `float` operation of the source yields the exact result rounded to the nearest
binary32 value, a tie going to the value with an even significand; below
`2 ^ (-126)` the values have the spacing `2 ^ (-149)` of the subnormal range.
String lengths and positions are `int` values, so for a non-empty text no value
met in `_match_item` exceeds `2 ^ 62` in magnitude: `round` has no case for the
overflow to infinity, which starts at `2 ^ 128`. -/

namespace Float32

/-- The power `2 ^ e` as a rational. -/
def pow2 (e : Int) : ℚ :=
  if 0 ≤ e then ((2 ^ e.toNat : Nat) : ℚ) else 1 / ((2 ^ (-e).toNat : Nat) : ℚ)

/-- Rounding of a non-negative rational to the nearest natural number, a tie going to
the even one. -/
def round_half_even (x : ℚ) : Nat :=
  let n : Nat := (Rat.floor x).toNat
  let r : ℚ := x - (n : ℚ)
  if r < 1 / 2 then n else if 1 / 2 < r then n + 1 else if n % 2 = 0 then n else n + 1

/-- The number of binary digits of `n`, one halving per unit of `fuel`. -/
def digits : Nat → Nat → Nat
  | 0, _ => 0
  | fuel + 1, n => if n = 0 then 0 else digits fuel (n / 2) + 1

/-- The binade of a positive rational: the `e` with `2 ^ e ≤ q < 2 ^ (e + 1)`, found
from the digit counts of numerator and denominator, which give it up to one. -/
def binade (q : ℚ) : Int :=
  let k : Int := (digits q.num.natAbs q.num.natAbs : Int) - (digits q.den q.den : Int)
  if pow2 k ≤ q then k else k - 1

/-- The spacing of the binary32 values around a positive rational: 24 significant
bits, and the spacing of the subnormal values below `2 ^ (-126)`. -/
def spacing (q : ℚ) : ℚ := pow2 (max (binade q) (-126) - 23)

/-- Rounding to the nearest binary32 value, ties to even. -/
def round (q : ℚ) : ℚ :=
  if q = 0 then 0
  else if 0 < q then (round_half_even (q / spacing q) : ℚ) * spacing q
  else -((round_half_even (-q / spacing (-q)) : ℚ) * spacing (-q))

end Float32

namespace SearchRunner

/-- The record `SearchRunner::ClassMatch`. -/
structure ClassMatch where
  doc : ClassDoc
  name : Bool
  category : Str
  constructors : List MethodDoc
  methods : List MethodDoc
  operators : List MethodDoc
  signals : List MethodDoc
  constants : List ConstantDoc
  properties : List PropertyDoc
  theme_properties : List ThemeItemDoc
  deriving DecidableEq, Repr

/-- The mutable fields of a `SearchRunner`. Iterators are as described at
`HashMap.begin`. -/
structure Runner where
  phase : Int
  term : Str
  search_flags : Int
  scope_flags : Int
  combined_docs : HashMap ClassDoc
  iterator_doc : Option Nat
  matches_ : HashMap ClassMatch
  iterator_match : Option Nat
  results_tree : ResultsTree
  root_item : Option Nat
  class_items : HashMap (Option Nat)
  matched_item : Option Nat
  match_highest_score : Score
  vs_nodes : List Str

/-- The loop of `_is_class_disabled_by_feature_profile`, one iteration per unit of
`fuel`. -/
def profile_walk (db : ClassDB) (is_class_disabled : Str → Bool) : Nat → Str → Bool
  | 0, _ => false
  | fuel + 1, class_name =>
    if class_name = [] then false
    else if !db.class_exists class_name then false
    else if is_class_disabled class_name then true
    else profile_walk db is_class_disabled fuel (db.get_parent_class class_name)

/-- `SearchRunner::_is_class_disabled_by_feature_profile`. The walk visits classes of
strictly decreasing rank, so `rank p_class + 1` iterations exhaust it. -/
def _is_class_disabled_by_feature_profile (host : Host) (p_class : Str) : Bool :=
  match host.current_profile with
  | none => false
  | some is_class_disabled =>
    profile_walk host.classdb is_class_disabled (host.classdb.rank p_class + 1) p_class

/-- `SearchRunner::_is_class_disabled_by_scope`. -/
def _is_class_disabled_by_scope (host : Host) (selector_ui : Selector) (scope_flags : Int)
    (p_class : Str) : Bool :=
  let is_base_script : Bool := decide (p_class = selector_ui.base_script)
  let is_base : Bool := decide (selector_ui.base_type = p_class)
  let is_parent : Bool := host.classdb.is_parent_class selector_ui.base_type p_class && !is_base
  let inheriters := host.classdb.get_inheriters_from_class selector_ui.base_type
  let is_inheriter : Bool := decide (p_class ∈ inheriters)
  if flag_set scope_flags SCOPE_BASE && (is_base_script || is_base || is_parent) then false
  else if flag_set scope_flags SCOPE_INHERITERS && (is_base_script || is_base || is_inheriter) then
    false
  else if flag_set scope_flags SCOPE_UNRELATED && (!is_base_script && !is_base && !is_inheriter) then
    false
  else true

/-- `SearchRunner::_match_string`. -/
def _match_string (host : Host) (search_flags : Int) (p_term p_string : Str) : Bool :=
  if flag_set search_flags SEARCH_CASE_SENSITIVE then decide (find p_string p_term > -1)
  else decide (findn host.find_lower p_string p_term > -1)

/-- `SearchRunner::_match_visual_script`. -/
def _match_visual_script (search_flags : Int) (class_doc : ClassDoc) : Bool :=
  begins_with class_doc.name (lit "operators") && flag_set search_flags SEARCH_OPERATORS

/-- `SearchRunner::_match_is_hidden`. -/
def _match_is_hidden (_class_doc : ClassDoc) : Bool := false

/-- The condition under which `_phase_match_classes` keeps a constructor, a method or
an operator named `name`; the three loops of the source spell out the same test. -/
def method_name_matches (host : Host) (term name : Str) : Bool :=
  let term_lower := to_lower host.find_lower term
  let method_name := to_lower host.find_lower name
  decide (find method_name term_lower > -1) ||
  decide (term.length = 0) ||
  (begins_with term (lit ".") && begins_with method_name (substr term_lower 1 (-1))) ||
  (ends_with term (lit "(") &&
    ends_with method_name (strip_edges (left term_lower ((term_lower.length : Int) - 1)))) ||
  (begins_with term (lit ".") && ends_with term (lit "(") &&
    decide (method_name = strip_edges (substr term_lower 1 ((term_lower.length : Int) - 2))))

/-- The custom node rewrite of `_phase_match_classes`, applied to a class doc whose
parent is `VisualScriptCustomNode`. -/
def rewrite_custom_node (host : Host) (combined_docs : HashMap ClassDoc) (class_doc : ClassDoc) :
    ClassDoc :=
  let script_path := lit "res://" ++ unquote class_doc.name
  let vsn := host.custom_node script_path
  let category := vsn.category
  let customNodeCategory := lit "VisualScriptCustomNode/" ++ category
  { class_doc with
    script_path := script_path
    name := vsn.caption
    inherits :=
      if combined_docs.has category then category
      else if combined_docs.has customNodeCategory then customNodeCategory else []
    brief_description := []
    constructors := []
    methods := []
    operators := []
    signals := []
    constants := []
    enums := []
    properties := []
    theme_properties := [] }

/-- The match record `_phase_match_classes` fills for the (already rewritten) class
doc. The guard `term.length() >= 0` around the member loops always holds. The
locals `searchConstructors` ... `searchThemeItems` are assigned from
`search_flags` as in the source, where no loop reads them. -/
def fill_match (host : Host) (search_flags : Int) (term : Str) (isVisualScript : Bool)
    (class_doc : ClassDoc) : ClassMatch :=
  let _searchConstructors : Bool := flag_set search_flags SEARCH_CONSTRUCTORS
  let _searchMethods : Bool := flag_set search_flags SEARCH_METHODS
  let _searchOperators : Bool := flag_set search_flags SEARCH_OPERATORS
  let _searchSignals : Bool := flag_set search_flags SEARCH_SIGNALS
  let _searchConstants : Bool := flag_set search_flags SEARCH_CONSTANTS
  let _searchProperties : Bool := flag_set search_flags SEARCH_PROPERTIES
  let _searchThemeItems : Bool := flag_set search_flags SEARCH_THEME_ITEMS
  { doc := class_doc
    name :=
      if (flag_set search_flags SEARCH_CLASSES || isVisualScript) &&
          (decide (term.length = 0) || _match_string host search_flags term class_doc.name) then
        !_match_is_hidden class_doc
      else false
    category := []
    constructors := class_doc.constructors.filter (fun d => method_name_matches host term d.name)
    methods := class_doc.methods.filter (fun d => method_name_matches host term d.name)
    operators := class_doc.operators.filter (fun d => method_name_matches host term d.name)
    signals := class_doc.signals.filter
      (fun d => _match_string host search_flags term d.name || decide (term.length = 0))
    constants := class_doc.constants.filter
      (fun d => _match_string host search_flags term d.name || decide (term.length = 0))
    properties := class_doc.properties.filter
      (fun d => _match_string host search_flags term d.name || decide (term.length = 0) ||
        _match_string host search_flags term d.getter ||
        _match_string host search_flags term d.setter)
    theme_properties := class_doc.theme_properties.filter
      (fun d => _match_string host search_flags term d.name || decide (term.length = 0)) }

/-- Whether `_phase_match_classes` builds a match record for `class_doc`: the test
`isClassEnabled || isVisualScript`. -/
def class_is_matched (host : Host) (selector_ui : Selector) (s : Runner) (class_doc : ClassDoc) :
    Bool :=
  let isVisualScript := _match_visual_script s.search_flags class_doc
  let isClassEnabled :=
    !_is_class_disabled_by_feature_profile host class_doc.name &&
    !_is_class_disabled_by_scope host selector_ui s.scope_flags class_doc.name
  isClassEnabled || isVisualScript

/-- The class doc as `_phase_match_classes` leaves it in `combined_docs`. -/
def rewritten_doc (host : Host) (s : Runner) (class_doc : ClassDoc) : ClassDoc :=
  if class_doc.inherits = lit "VisualScriptCustomNode" then
    rewrite_custom_node host s.combined_docs class_doc
  else class_doc

/-- `SearchRunner::_phase_match_classes`: one class doc per call. `none` is the
dereference of an invalid `iterator_doc`; otherwise the new state and whether the
phase is done. -/
def _phase_match_classes (host : Host) (selector_ui : Selector) (s : Runner) :
    Option (Runner × Bool) :=
  match HashMap.entry s.combined_docs s.iterator_doc with
  | none => none
  | some (_, class_doc) =>
    let isVisualScript := _match_visual_script s.search_flags class_doc
    let s1 : Runner :=
      if class_is_matched host selector_ui s class_doc then
        let class_doc1 := rewritten_doc host s class_doc
        let m := fill_match host s.search_flags s.term isVisualScript class_doc1
        { s with
          combined_docs := HashMap.put_value s.combined_docs s.iterator_doc class_doc1
          matches_ := HashMap.set s.matches_ class_doc1.name m }
      else s
    some ({ s1 with iterator_doc := HashMap.next s.combined_docs s.iterator_doc },
      (HashMap.next s.combined_docs s.iterator_doc).isNone)

/-- The score formula of `_match_item` for a row named `p_text`, read over exact
rationals: no operation rounds. The code computes in `float`, which `float_score`
follows. An empty `p_text` makes `inverse_length` infinite (and `findn` fail), so
the product is infinite, or not a number when the term is empty too. -/
def item_score (host : Host) (term p_text : Str) : Score :=
  if p_text.length = 0 then
    if term.length = 0 then Score.nan else Score.pos_inf
  else
    let inverse_length : ℚ := 1 / (p_text.length : ℚ)
    let w : ℚ := 1 / 2
    let pos : Int := findn host.find_lower p_text term
    let score : ℚ :=
      if pos > -1 then 1 - w * min 1 (3 * (pos : ℚ) * inverse_length) else max 0 (9 / 10 - w)
    let w2 : ℚ := 1 / 10
    Score.finite (score * ((1 - w2) + w2 * ((term.length : ℚ) * inverse_length)))

/-- An `int` product of the source, taken modulo `2 ^ 32` in two's complement when it
leaves the range of `int`. -/
def wrap_int (n : Int) : Int := (n + 2 ^ 31) % 2 ^ 32 - 2 ^ 31

/-- The score `_match_item` computes for a row named `p_text`, every operation in
`float`: the conversions of the `int` values `p_text.length()`, `3 * pos` and
`term.length()`, the division, the products, the sum and the differences each
round, and `.9f` and `0.1f` are the binary32 values nearest to 9/10 and 1/10
(`0.5f`, `1.0f` and `0.f` are exact). `MIN(1, x)` is `1 < x ? 1 : x` and
`MAX(0.f, v)` is `0.f > v ? 0.f : v`. For an empty `p_text`, `inverse_length` is
infinite and `findn` fails, so the product is infinite, or not a number when the
term is empty too. -/
def float_score (host : Host) (term p_text : Str) : Score :=
  if p_text.length = 0 then
    if term.length = 0 then Score.nan else Score.pos_inf
  else
    let inverse_length : ℚ := Float32.round (1 / Float32.round (p_text.length : ℚ))
    let w : ℚ := 1 / 2
    let pos : Int := findn host.find_lower p_text term
    let score : ℚ :=
      if pos > -1 then
        let x : ℚ := Float32.round (Float32.round ((wrap_int (3 * pos) : Int) : ℚ) * inverse_length)
        Float32.round (1 - Float32.round (w * (if 1 < x then 1 else x)))
      else
        let v : ℚ := Float32.round (Float32.round (9 / 10) - w)
        if 0 > v then 0 else v
    let w2 : ℚ := Float32.round (1 / 10)
    Score.finite (Float32.round (score *
      Float32.round (Float32.round (1 - w2) +
        Float32.round (w2 * Float32.round (Float32.round (term.length : ℚ) * inverse_length)))))

/-- `SearchRunner::_match_item`. -/
def _match_item (host : Host) (s : Runner) (p_item : Nat) (p_text : Str) : Runner :=
  let score := float_score host s.term p_text
  let better : Bool := s.match_highest_score.is_zero || score.gt s.match_highest_score
  { s with
    matched_item := if better then some p_item else s.matched_item
    match_highest_score := if better then score else s.match_highest_score }

/-- `SearchRunner::_create_member_item`. -/
def _create_member_item (host : Host) (s : Runner) (p_parent : Option Nat)
    (p_class_name p_icon p_name p_text p_type p_metatype p_tooltip p_description : Str) :
    Runner × Nat :=
  let text : Str :=
    if flag_set s.search_flags SEARCH_SHOW_HIERARCHY then p_text
    else p_class_name ++ lit "." ++ p_text
  let created := s.results_tree.create_item p_parent
    { TreeItem.blank with
      icon := p_icon
      text0 := text
      text1 := TTR p_type
      tooltip := p_tooltip
      metadata0 := p_class_name ++ lit ":" ++ p_name
      metadata1 := lit "class_" ++ p_metatype
      description := some p_description
      scored_name := p_name }
  (_match_item host { s with results_tree := created.1 } created.2 p_name, created.2)

/-- A line feed followed by four blanks, as the property tooltip has it. -/
def line_break : Str := Char.ofNat 10 :: lit "    "

/-- The argument list printed in a method or signal tooltip. -/
def arguments_tooltip : List ArgumentDoc → Str
  | [] => []
  | arg :: rest =>
    arg.type ++ lit " " ++ arg.name ++
    (if arg.default_value ≠ [] then lit " = " ++ arg.default_value else []) ++
    (if rest ≠ [] then lit ", " else []) ++ arguments_tooltip rest

/-- The tooltip of `_create_method_item` and `_create_signal_item`. -/
def method_tooltip (p_class_doc : ClassDoc) (p_doc : MethodDoc) : Str :=
  p_doc.return_type ++ lit " " ++ p_class_doc.name ++ lit "." ++ p_doc.name ++ lit "(" ++
    arguments_tooltip p_doc.arguments ++ lit ")"

/-- `SearchRunner::_create_method_item`. -/
def _create_method_item (host : Host) (s : Runner) (p_parent : Option Nat)
    (p_class_doc : ClassDoc) (p_text : Str) (p_doc : MethodDoc) : Runner × Nat :=
  _create_member_item host s p_parent p_class_doc.name (lit "MemberMethod") p_doc.name p_text
    (lit "Method") (lit "method") (method_tooltip p_class_doc p_doc) p_doc.description

/-- `SearchRunner::_create_signal_item`. -/
def _create_signal_item (host : Host) (s : Runner) (p_parent : Option Nat)
    (p_class_doc : ClassDoc) (p_doc : MethodDoc) : Runner × Nat :=
  _create_member_item host s p_parent p_class_doc.name (lit "MemberSignal") p_doc.name p_doc.name
    (lit "Signal") (lit "signal") (method_tooltip p_class_doc p_doc) p_doc.description

/-- `SearchRunner::_create_constant_item`. -/
def _create_constant_item (host : Host) (s : Runner) (p_parent : Option Nat)
    (p_class_doc : ClassDoc) (p_doc : ConstantDoc) : Runner × Nat :=
  _create_member_item host s p_parent p_class_doc.name (lit "MemberConstant") p_doc.name
    p_doc.name (lit "Constant") (lit "constant") (p_class_doc.name ++ lit "." ++ p_doc.name)
    p_doc.description

/-- `SearchRunner::_create_property_item`. -/
def _create_property_item (host : Host) (s : Runner) (p_parent : Option Nat)
    (p_class_doc : ClassDoc) (p_doc : PropertyDoc) : Runner × Nat :=
  let tooltip : Str :=
    p_doc.type ++ lit " " ++ p_class_doc.name ++ lit "." ++ p_doc.name ++
    (line_break ++ p_class_doc.name ++ lit "." ++ p_doc.setter ++ lit "(value) setter") ++
    (line_break ++ p_class_doc.name ++ lit "." ++ p_doc.getter ++ lit "() getter")
  _create_member_item host s p_parent p_class_doc.name (lit "MemberProperty") p_doc.name
    p_doc.name (lit "Property") (lit "property") tooltip p_doc.description

/-- `SearchRunner::_create_theme_property_item`. -/
def _create_theme_property_item (host : Host) (s : Runner) (p_parent : Option Nat)
    (p_class_doc : ClassDoc) (p_doc : ThemeItemDoc) : Runner × Nat :=
  _create_member_item host s p_parent p_class_doc.name (lit "MemberTheme") p_doc.name p_doc.name
    (lit "Theme Property") (lit "theme_item")
    (p_doc.type ++ lit " " ++ p_class_doc.name ++ lit "." ++ p_doc.name) p_doc.description

/-- The loop of `_phase_member_items` over the matched methods; `constructor_created`
is the local of that name. -/
def member_methods_loop (host : Host) (parent : Option Nat) (doc : ClassDoc) :
    List MethodDoc → Bool → Runner → Runner
  | [], _, s => s
  | method :: rest, constructor_created, s =>
    let isConstructor : Bool := decide (doc.name = method.name)
    let first : Bool := !constructor_created && isConstructor
    let text : Str :=
      if first then method.name ++ (lit " " ++ TTR (lit "(constructors)")) else method.name
    let constructor_created1 : Bool := if first then true else constructor_created
    if isConstructor then member_methods_loop host parent doc rest constructor_created1 s
    else
      member_methods_loop host parent doc rest constructor_created1
        (_create_method_item host s parent doc text method).1

/-- `SearchRunner::_phase_member_items`: the member rows of one match per call. -/
def _phase_member_items (host : Host) (s : Runner) : Runner × Bool :=
  match HashMap.entry s.matches_ s.iterator_match with
  | none => (s, true)
  | some (_, m) =>
    let looked := HashMap.index s.class_items m.doc.name none
    let hierarchy := flag_set s.search_flags SEARCH_SHOW_HIERARCHY
    let s0 : Runner := if hierarchy then { s with class_items := looked.1 } else s
    let parent : Option Nat := if hierarchy then looked.2 else s.root_item
    let s1 := member_methods_loop host parent m.doc m.methods false s0
    let s2 := m.signals.foldl (fun r d => (_create_signal_item host r parent m.doc d).1) s1
    let s3 := m.constants.foldl (fun r d => (_create_constant_item host r parent m.doc d).1) s2
    let s4 := m.properties.foldl (fun r d => (_create_property_item host r parent m.doc d).1) s3
    let s5 := m.theme_properties.foldl
      (fun r d => (_create_theme_property_item host r parent m.doc d).1) s4
    ({ s5 with iterator_match := HashMap.next s.matches_ s.iterator_match },
      (HashMap.next s.matches_ s.iterator_match).isNone)

/-- Row creation as `_create_class_item` and `_create_member_item` perform it: a new
row of cells `cells` under `p_parent`, scored by its `scored_name`. -/
def add_scored_row (host : Host) (s : Runner) (p_parent : Option Nat) (cells : TreeItem) :
    Runner :=
  _match_item host { s with results_tree := (s.results_tree.create_item p_parent cells).1 }
    (s.results_tree.create_item p_parent cells).2 cells.scored_name

/-! ### Phases (`enum Phase`) -/

def PHASE_INIT : Int := 0
def PHASE_MATCH_CLASSES_INIT : Int := 1
def PHASE_NODE_CLASSES_INIT : Int := 2
def PHASE_NODE_CLASSES_BUILD : Int := 3
def PHASE_MATCH_CLASSES : Int := 4
def PHASE_CLASS_ITEMS_INIT : Int := 5
def PHASE_CLASS_ITEMS : Int := 6
def PHASE_MEMBER_ITEMS_INIT : Int := 7
def PHASE_MEMBER_ITEMS : Int := 8
def PHASE_SELECT_MATCH : Int := 9
def PHASE_MAX : Int := 10

/-- The constructor `SearchRunner::SearchRunner`: the state of a runner made for the
dialog `selector_ui` and the tree `p_results_tree`. -/
def new (selector_ui : Selector) (p_results_tree : ResultsTree) : Runner :=
  { phase := 0
    term := selector_ui.search_box_text
    search_flags := 0
    scope_flags := 0
    combined_docs := []
    iterator_doc := none
    matches_ := []
    iterator_match := none
    results_tree := p_results_tree
    root_item := none
    class_items := []
    matched_item := none
    match_highest_score := Score.finite 0
    vs_nodes := [] }

/-- `ClassMatch::required`. -/
def ClassMatch.required (m : ClassMatch) : Bool :=
  m.name || decide (m.methods.length ≠ 0) || decide (m.signals.length ≠ 0) ||
    decide (m.constants.length ≠ 0) || decide (m.properties.length ≠ 0) ||
    decide (m.theme_properties.length ≠ 0)

/-- The statement `if (pressed) flags |= bit`. -/
def or_flag (flags : Int) (pressed : Bool) (bit : Int) : Int :=
  if pressed then Int.lor flags bit else flags

/-- `SearchRunner::_phase_init`. -/
def _phase_init (selector_ui : Selector) (s : Runner) : Runner × Bool :=
  let f0 : Int := 0
  let f1 := or_flag f0 selector_ui.search_visual_script_nodes SEARCH_VISUAL_SCRIPT_NODES
  let f2 := or_flag f1 selector_ui.search_classes SEARCH_CLASSES
  let f3 := Int.lor f2 SEARCH_CONSTRUCTORS
  let f4 := or_flag f3 selector_ui.search_methods SEARCH_METHODS
  let f5 := or_flag f4 selector_ui.search_operators SEARCH_OPERATORS
  let f6 := or_flag f5 selector_ui.search_signals SEARCH_SIGNALS
  let f7 := or_flag f6 selector_ui.search_constants SEARCH_CONSTANTS
  let f8 := or_flag f7 selector_ui.search_properties SEARCH_PROPERTIES
  let f9 := or_flag f8 selector_ui.search_theme_items SEARCH_THEME_ITEMS
  let f10 := or_flag f9 selector_ui.case_sensitive_button SEARCH_CASE_SENSITIVE
  let f11 := or_flag f10 selector_ui.hierarchy_button SEARCH_SHOW_HIERARCHY
  ({ s with search_flags := f11, scope_flags := selector_ui.scope_combo_selected_id }, true)

/-- `SearchRunner::_get_method_doc`. -/
def _get_method_doc (method_info : MethodInfo) : MethodDoc :=
  { name := method_info.name
    return_type := method_info.return_type
    description := lit "No description available"
    arguments := method_info.arguments.map
      (fun p => { name := p.name, type := p.type, default_value := [] }) }

/-- The class doc `_phase_match_classes_init` synthesizes for the base script. -/
def script_class_doc (baseScript : Str) (script : ScriptInfo) : ClassDoc :=
  let class_doc : ClassDoc :=
    { ClassDoc.empty with
      name := baseScript
      inherits := script.instance_base_type
      brief_description := lit ".vs files not supported by EditorHelp::get_doc_data()"
      description := [] }
  match script.lists with
  | none => class_doc
  | some lists =>
    { class_doc with
      methods := lists.methods.map _get_method_doc
      signals := lists.signals.map _get_method_doc
      properties := lists.properties.map
        (fun p => { name := p.name, type := p.type, description := [], setter := [],
                    getter := [] }) }

/-- `SearchRunner::_phase_match_classes_init`. -/
def _phase_match_classes_init (host : Host) (selector_ui : Selector) (s : Runner) :
    Runner × Bool :=
  let s1 : Runner :=
    { s with
      combined_docs := host.class_list
      matches_ := []
      matched_item := none
      match_highest_score := Score.finite 0 }
  let baseScript := unquote selector_ui.base_script
  if baseScript.length = 0 ∨ baseScript = lit "." ∨ s1.combined_docs.has baseScript = true then
    ({ s1 with iterator_doc := HashMap.begin s1.combined_docs }, true)
  else
    let file_path := lit "res://" ++ baseScript
    match host.load_script file_path with
    | none => ({ s1 with iterator_doc := HashMap.begin s1.combined_docs }, true)
    | some script =>
      let class_doc := script_class_doc baseScript script
      let docs := HashMap.set s1.combined_docs class_doc.name class_doc
      ({ s1 with combined_docs := docs, iterator_doc := HashMap.begin docs }, true)

/-- `SearchRunner::_add_class_doc`. -/
def _add_class_doc (s : Runner) (class_name inherits category : Str) : Runner :=
  let class_doc : ClassDoc :=
    { ClassDoc.empty with name := class_name, inherits := inherits, brief_description := category }
  { s with combined_docs := HashMap.set s.combined_docs class_doc.name class_doc }

/-- `SearchRunner::_phase_node_classes_init`. -/
def _phase_node_classes_init (host : Host) (s : Runner) : Runner × Bool :=
  let s1 : Runner := { s with vs_nodes := s.vs_nodes ++ host.registered_node_names }
  let s2 := _add_class_doc s1 (lit "functions") [] []
  let s3 := _add_class_doc s2 (lit "operators") [] []
  (s3, true)

/-- The `if` chain of `_phase_node_classes_build` on the pieces of a node name: the
arguments `inherits` and `category` of the one call
`_add_class_doc(registered_node_name, inherits, category)` the chain makes,
`some none` where it makes no call, and `none` where it reads `path[1]` in a path
of one piece, which the engine answers by crashing. -/
def node_class_doc (registered_node_name : Str) : Option (Option (Str × Str)) :=
  let path := split_slash registered_node_name
  let path0 := path.headD []
  if path0 = lit "constants" then some (some ([], lit "constants"))
  else if path0 = lit "custom" then some (some ([], lit "custom"))
  else if path0 = lit "data" then some (some ([], lit "data"))
  else if path0 = lit "flow_control" then some (some ([], lit "flow_control"))
  else if path0 = lit "functions" then
    match List.get? path 1 with
    | none => none
    | some path1 =>
      if path1 = lit "built_in" then some (some (lit "functions", lit "built_in"))
      else if path1 = lit "by_type" then some none
      else if path1 = lit "constructors" then some (some ([], lit "constructors"))
      else if path1 = lit "deconstruct" then some (some ([], lit "deconstruct"))
      else if path1 = lit "wait" then some (some (lit "functions", lit "yield"))
      else some (some (lit "functions", []))
  else if path0 = lit "index" then some (some ([], lit "index"))
  else if path0 = lit "operators" then
    match List.get? path 1 with
    | none => none
    | some path1 =>
      if path1 = lit "bitwise" then some (some (lit "operators", lit "bitwise"))
      else if path1 = lit "compare" then some (some (lit "operators", lit "compare"))
      else if path1 = lit "logic" then some (some (lit "operators", lit "logic"))
      else if path1 = lit "math" then some (some (lit "operators", lit "math"))
      else some (some (lit "operators", []))
  else some none

/-- `SearchRunner::_phase_node_classes_build`: one node name per call; `none` when
the read of `path[1]` crashes. -/
def _phase_node_classes_build (s : Runner) : Option (Runner × Bool) :=
  match s.vs_nodes with
  | [] => some (s, true)
  | registered_node_name :: rest =>
    let s1 : Runner := { s with vs_nodes := rest }
    match node_class_doc registered_node_name with
    | none => none
    | some none => some (s1, false)
    | some (some (inherits, category)) =>
      some (_add_class_doc s1 registered_node_name inherits category, false)

/-- `SearchRunner::_phase_class_items_init`. -/
def _phase_class_items_init (s : Runner) : Runner × Bool :=
  let created := (s.results_tree.clear).create_item none TreeItem.blank
  ({ s with
     results_tree := created.1
     iterator_match := HashMap.begin s.matches_
     root_item := some created.2
     class_items := [] }, true)

/-- `SearchRunner::_create_class_item`. The icon is the name of the theme icon
chosen; `empty_icon` is `ArrowRight`. -/
def _create_class_item (host : Host) (s : Runner) (p_parent : Option Nat) (p_doc : ClassDoc)
    (p_gray : Bool) : Runner × Nat :=
  let quoted := is_quoted p_doc.name
  let text_0 : Str := if quoted then get_file (unquote p_doc.name) else p_doc.name
  let icon : Str :=
    if quoted then
      if host.has_theme_icon p_doc.inherits then p_doc.inherits else lit "ArrowRight"
    else if host.has_theme_icon p_doc.name then p_doc.name
    else if host.classdb.class_exists p_doc.name &&
        host.classdb.is_parent_class p_doc.name (lit "Object") then lit "Object"
    else lit "ArrowRight"
  let tooltip := strip_edges p_doc.brief_description
  let created := s.results_tree.create_item p_parent
    { TreeItem.blank with
      icon := icon
      text0 := text_0
      text1 := TTR (lit "Class")
      tooltip := tooltip
      metadata0 := p_doc.name
      metadata1 := lit "Class"
      gray := p_gray
      scored_name := p_doc.name }
  (_match_item host { s with results_tree := created.1 } created.2 p_doc.name, created.2)

/-- `SearchRunner::_create_class_hierarchy`, one nested call per unit of `fuel`;
`none` when the fuel does not cover the nesting. The reads `class_items[k]` stand
behind `class_items.has(k)`, so they insert nothing. -/
def _create_class_hierarchy (host : Host) : Nat → Runner → ClassMatch → Option (Runner × Option Nat)
  | 0, _, _ => none
  | fuel + 1, s, p_match =>
    if s.class_items.has p_match.doc.name then
      some (s, (HashMap.index s.class_items p_match.doc.name none).2)
    else
      let resolved : Option (Runner × Option Nat) :=
        if p_match.doc.inherits ≠ [] then
          if s.class_items.has p_match.doc.inherits then
            some (s, (HashMap.index s.class_items p_match.doc.inherits none).2)
          else
            match HashMap.get? s.matches_ p_match.doc.inherits with
            | some base_match => _create_class_hierarchy host fuel s base_match
            | none => some (s, s.root_item)
        else some (s, s.root_item)
      match resolved with
      | none => none
      | some (s1, parent) =>
        let created := _create_class_item host s1 parent p_match.doc (!p_match.name)
        some ({ created.1 with
                class_items := HashMap.set created.1.class_items p_match.doc.name
                  (some created.2) },
          some created.2)

/-- `SearchRunner::_phase_class_items`: one match per call. The nesting of
`_create_class_hierarchy` follows `inherits` links through distinct classes of
`matches`, so `matches.size() + 1` units of fuel cover every nesting that ends;
`none` is a nesting that does not end. -/
def _phase_class_items (host : Host) (s : Runner) : Option (Runner × Bool) :=
  match HashMap.entry s.matches_ s.iterator_match with
  | none => some (s, true)
  | some (_, m) =>
    let s1 : Option Runner :=
      if flag_set s.search_flags SEARCH_SHOW_HIERARCHY then
        if m.required then
          (_create_class_hierarchy host (s.matches_.length + 1) s m).map (fun r => r.1)
        else some s
      else
        if m.name then some (_create_class_item host s s.root_item m.doc true).1
        else some s
    match s1 with
    | none => none
    | some s2 =>
      some ({ s2 with iterator_match := HashMap.next s.matches_ s.iterator_match },
        (HashMap.next s.matches_ s.iterator_match).isNone)

/-- `SearchRunner::_phase_member_items_init`. -/
def _phase_member_items_init (s : Runner) : Runner × Bool :=
  ({ s with iterator_match := HashMap.begin s.matches_ }, true)

/-- The call `item->select(0)`. -/
def select_row (t : ResultsTree) (item : Nat) : ResultsTree :=
  match List.get? t.items item with
  | none => t
  | some row => { t with items := List.set t.items item { row with selected := true } }

/-- `SearchRunner::_phase_select_match`. -/
def _phase_select_match (s : Runner) : Runner × Bool :=
  match s.matched_item with
  | some item => ({ s with results_tree := select_row s.results_tree item }, true)
  | none => (s, true)

/-- The `switch` of `_slice`: the outcome of the handler of the current phase, or
`none` for `PHASE_MAX` and for a value outside the enum, which have no handler. -/
def phase_handler (host : Host) (selector_ui : Selector) (s : Runner) :
    Option (Option (Runner × Bool)) :=
  if s.phase = PHASE_INIT then some (some (_phase_init selector_ui s))
  else if s.phase = PHASE_MATCH_CLASSES_INIT then
    some (some (_phase_match_classes_init host selector_ui s))
  else if s.phase = PHASE_NODE_CLASSES_INIT then some (some (_phase_node_classes_init host s))
  else if s.phase = PHASE_NODE_CLASSES_BUILD then some (_phase_node_classes_build s)
  else if s.phase = PHASE_MATCH_CLASSES then some (_phase_match_classes host selector_ui s)
  else if s.phase = PHASE_CLASS_ITEMS_INIT then some (some (_phase_class_items_init s))
  else if s.phase = PHASE_CLASS_ITEMS then some (_phase_class_items host s)
  else if s.phase = PHASE_MEMBER_ITEMS_INIT then some (some (_phase_member_items_init s))
  else if s.phase = PHASE_MEMBER_ITEMS then some (some (_phase_member_items host s))
  else if s.phase = PHASE_SELECT_MATCH then some (some (_phase_select_match s))
  else none

/-- `SearchRunner::_slice`. `none` when the handler of the phase does not return (it
crashes or its recursion does not end); otherwise the new state and the value
returned. -/
def _slice (host : Host) (selector_ui : Selector) (s : Runner) : Option (Runner × Bool) :=
  match phase_handler host selector_ui s with
  | none => some (s, true)
  | some none => none
  | some (some (s1, phase_done)) =>
    some (if phase_done then { s1 with phase := s1.phase + 1 } else s1, false)

/-- The state after `n` successive calls of `_slice`. -/
def slices (host : Host) (selector_ui : Selector) : Nat → Runner → Option Runner
  | 0, s => some s
  | n + 1, s =>
    match _slice host selector_ui s with
    | none => none
    | some (s1, _) => slices host selector_ui n s1

/-- The clock `OS::get_ticks_usec`: `ticks i` is the value of the reading number `i`,
taken as a 64 bit unsigned value. -/
def get_ticks_usec (ticks : Nat → Nat) (reads : Nat) : Nat := ticks reads % 2 ^ 64

/-- The `while` loop of `work`, one iteration per unit of `fuel`; `reads` counts the
clock readings made so far. `none` when a slice does not return or the fuel does
not cover the iterations. -/
def work_loop (host : Host) (selector_ui : Selector) (ticks : Nat → Nat) (until_ : Nat) :
    Nat → Nat → Runner → Option (Runner × Nat × Bool)
  | 0, _, _ => none
  | fuel + 1, reads, s =>
    match _slice host selector_ui s with
    | none => none
    | some (s1, true) => some (s1, reads, true)
    | some (s1, false) =>
      if get_ticks_usec ticks reads > until_ then some (s1, reads + 1, false)
      else work_loop host selector_ui ticks until_ fuel (reads + 1) s1

/-- `SearchRunner::work(slot)`: the new state, the number of clock readings made and
the value returned. -/
def work (host : Host) (selector_ui : Selector) (ticks : Nat → Nat) (slot : Nat) (fuel : Nat)
    (reads : Nat) (s : Runner) : Option (Runner × Nat × Bool) :=
  let until_ : Nat := (get_ticks_usec ticks reads + slot) % 2 ^ 64
  work_loop host selector_ui ticks until_ fuel (reads + 1) s

/-! ### Sessions of calls of `work` -/

/-- The state after `n` successive calls of `_slice` that all returned false. -/
def false_slices (host : Host) (selector_ui : Selector) : Nat → Runner → Option Runner
  | 0, s => some s
  | n + 1, s =>
    match _slice host selector_ui s with
    | some (s1, false) => false_slices host selector_ui n s1
    | _ => none

/-- Calls of `work` repeated until one returns true, each with a budget, a clock and a
fuel of its own: `Session s s1` when the calls start in state `s` and the call
that returns true leaves state `s1`. -/
inductive Session (host : Host) (selector_ui : Selector) : Runner → Runner → Prop
  | last (ticks : Nat → Nat) (slot fuel reads : Nat) (s s1 : Runner) (reads1 : Nat) :
      work host selector_ui ticks slot fuel reads s = some (s1, reads1, true) →
      Session host selector_ui s s1
  | more (ticks : Nat → Nat) (slot fuel reads : Nat) (s s1 s2 : Runner) (reads1 : Nat) :
      work host selector_ui ticks slot fuel reads s = some (s1, reads1, false) →
      Session host selector_ui s1 s2 → Session host selector_ui s s2

/-! ### The best match of a pass -/

/-- The names the rows of the tree were scored with, in creation order. -/
def scored_names (s : Runner) : List Str := s.results_tree.items.map (fun r => r.scored_name)

/-- Every row but the first (the root) was scored with a non-empty name. -/
def Named (s : Runner) : Prop := ∀ n ∈ (scored_names s).tail, n ≠ []

/-- The best match among the rows named `names` (the first being the root, which is
not scored): nothing is scored yet, or `matched` is the first of the rows whose
score is the highest, and `highest` is that score. -/
def Best (host : Host) (term : Str) (names : List Str) (matched : Option Nat)
    (highest : Score) : Prop :=
  (names.length ≤ 1 ∧ matched = none ∧ highest = Score.finite 0) ∨
  ∃ j nm q, matched = some j ∧ highest = Score.finite q ∧ 0 < q ∧
    1 ≤ j ∧ names[j]? = some nm ∧ float_score host term nm = Score.finite q ∧
    ∀ i n, 1 ≤ i → names[i]? = some n →
      ∃ qi, float_score host term n = Score.finite qi ∧ qi ≤ q ∧ (i < j → qi < q)

/-- The best match among the rows of the tree of `s`. -/
def BestSoFar (host : Host) (s : Runner) : Prop :=
  Best host s.term (scored_names s) s.matched_item s.match_highest_score

/-- No row of the tree is selected. -/
def Unselected (s : Runner) : Prop := ∀ r ∈ s.results_tree.items, r.selected = false

/-- What holds of the tree while rows are created. -/
def Building (host : Host) (s : Runner) : Prop :=
  s.results_tree.items ≠ [] ∧ Unselected s ∧ (Named s → BestSoFar host s)

/-- What holds of the tree once the best match is selected. -/
def Selected (host : Host) (s : Runner) : Prop :=
  Named s → BestSoFar host s ∧
    ∀ i r, s.results_tree.items[i]? = some r → (r.selected = true ↔ s.matched_item = some i)

/-- What holds of a runner in phase `p` of a pass. -/
def PassInv (host : Host) (p : Int) (s : Runner) : Prop :=
  if p ≤ 1 then True
  else if p ≤ 5 then s.matched_item = none ∧ s.match_highest_score = Score.finite 0
  else if p ≤ 9 then Building host s
  else Selected host s

/-! ### The class hierarchy -/

/-- The link `_create_class_hierarchy` follows: from a class of the match map to the
class it inherits, when that one is in the match map too. -/
def follows (M : HashMap ClassMatch) (k k2 : Str) : Prop :=
  ∃ m, HashMap.get? M k = some m ∧ m.doc.inherits = k2 ∧ k2 ≠ [] ∧ HashMap.has M k2 = true

/-- No class of the match map is among its own ancestors. -/
def Acyclic (M : HashMap ClassMatch) : Prop := ∀ k, ¬ Relation.TransGen (follows M) k k

/-- The match map as `_phase_match_classes` fills it: one entry per key, and each
match under the name of its doc. -/
def Keyed (M : HashMap ClassMatch) : Prop :=
  (M.map Prod.fst).Nodup ∧ ∀ e ∈ M, e.2.doc.name = e.1

/-- The parent of a class row in the hierarchy: the row of the class it inherits
when the match map has that class, the root (row 0) otherwise. -/
def ParentOk (M : HashMap ClassMatch) (items : List TreeItem) (row : TreeItem) : Prop :=
  ∃ m, HashMap.get? M row.metadata0 = some m ∧
    ((m.doc.inherits ≠ [] ∧ HashMap.has M m.doc.inherits = true) →
      ∃ j prow, 1 ≤ j ∧ items[j]? = some prow ∧ prow.metadata0 = m.doc.inherits ∧
        row.parent = some j) ∧
    (¬ (m.doc.inherits ≠ [] ∧ HashMap.has M m.doc.inherits = true) → row.parent = some 0)

/-- What holds of the tree and of `class_items` while the hierarchy is built over
the match map `M`. -/
structure HInv (M : HashMap ClassMatch) (s : Runner) : Prop where
  matches_eq : s.matches_ = M
  root : s.root_item = some 0
  nonempty : s.results_tree.items ≠ []
  memo : ∀ k v, HashMap.get? s.class_items k = some v →
    ∃ id row, v = some id ∧ 1 ≤ id ∧ s.results_tree.items[id]? = some row ∧ row.metadata0 = k
  rows : ∀ id row, 1 ≤ id → s.results_tree.items[id]? = some row →
    HashMap.get? s.class_items row.metadata0 = some (some id) ∧
      ParentOk M s.results_tree.items row

/-- The classes of the first `i` entries of the match map that are required have a
row among `items`. -/
def Covered (M : HashMap ClassMatch) (items : List TreeItem) (i : Nat) : Prop :=
  ∀ idx key m, idx < i → M[idx]? = some (key, m) → m.required = true →
    ∃ id row, 1 ≤ id ∧ items[id]? = some row ∧ row.metadata0 = key

/-! ### The flags of `_phase_init` -/

/-- The `|=` chain of `_phase_init` over the ten toggles, in the order of the source:
visual script nodes, classes, (constructors), methods, operators, signals,
constants, properties, theme items, case sensitive, hierarchy. -/
def init_flags (b1 b2 b3 b4 b5 b6 b7 b8 b9 b10 : Bool) : Int :=
  or_flag (or_flag (or_flag (or_flag (or_flag (or_flag (or_flag (or_flag (Int.lor
    (or_flag (or_flag 0 b1 SEARCH_VISUAL_SCRIPT_NODES) b2 SEARCH_CLASSES) SEARCH_CONSTRUCTORS)
    b3 SEARCH_METHODS) b4 SEARCH_OPERATORS) b5 SEARCH_SIGNALS) b6 SEARCH_CONSTANTS)
    b7 SEARCH_PROPERTIES) b8 SEARCH_THEME_ITEMS) b9 SEARCH_CASE_SENSITIVE) b10 SEARCH_SHOW_HIERARCHY

/-- The ancestor chain of a class inside the match map: `AncestorChain M k d` when
`d` links lead from `k` to a class that inherits no class of the map. -/
inductive AncestorChain (M : HashMap ClassMatch) : Str → Nat → Prop
  | last (k : Str) : (∀ k2, ¬ follows M k k2) → AncestorChain M k 0
  | step (k k2 : Str) (d : Nat) : follows M k k2 → AncestorChain M k2 d →
      AncestorChain M k (d + 1)

/-! ### Class items of the hierarchy -/

/-- The runner works in hierarchy mode over the match map `M`. -/
def InHierarchy (M : HashMap ClassMatch) (s : Runner) : Prop :=
  s.matches_ = M ∧ flag_set s.search_flags SEARCH_SHOW_HIERARCHY = true

/-- The class `k` has an item: `class_items` holds under `k` a row of the tree, the
root apart, whose metadata names `k`. -/
def HasItem (s : Runner) (k : Str) : Prop :=
  ∃ id row, HashMap.get? s.class_items k = some (some id) ∧ 1 ≤ id ∧
    s.results_tree.items[id]? = some row ∧ row.metadata0 = k

/-- The class rows of the hierarchy as far as they are built: every entry of
`class_items` is an item, and every row but the root is the row of a match of `M`,
grayed exactly when the name of that match did not match. -/
def ClassRows (M : HashMap ClassMatch) (s : Runner) : Prop :=
  s.results_tree.items ≠ [] ∧
  (∀ k v, HashMap.get? s.class_items k = some v → HasItem s k) ∧
  (∀ id row, 1 ≤ id → s.results_tree.items[id]? = some row →
    ∃ e ∈ M, row.metadata0 = e.2.doc.name ∧ row.gray = !e.2.name)

/-- The required matches among the first `i` entries of `M` have an item. -/
def ItemsUpTo (M : HashMap ClassMatch) (s : Runner) (i : Nat) : Prop :=
  ∀ idx key m, idx < i → M[idx]? = some (key, m) → m.required = true → HasItem s m.doc.name

/-- Every required match of `M` has an item. -/
def AllItems (M : HashMap ClassMatch) (s : Runner) : Prop :=
  ∀ e ∈ M, e.2.required = true → HasItem s e.2.doc.name

/-- What holds during the class items phase in hierarchy mode over the match map `M`. -/
def BuildingClasses (M : HashMap ClassMatch) (s : Runner) : Prop :=
  s.matches_ = M ∧ flag_set s.search_flags SEARCH_SHOW_HIERARCHY = true ∧ ClassRows M s ∧
  ((∃ i, s.iterator_match = some i ∧ i < M.length ∧ ItemsUpTo M s i) ∨
    (M = [] ∧ s.iterator_match = none))

/-- What holds of a runner in phase `p`, from the class items phase in hierarchy mode
over the match map `M` on. -/
def ClassInv (M : HashMap ClassMatch) (p : Int) (s : Runner) : Prop :=
  if p = PHASE_CLASS_ITEMS_INIT then InHierarchy M s
  else if p = PHASE_CLASS_ITEMS then BuildingClasses M s
  else if p = PHASE_MEMBER_ITEMS_INIT then InHierarchy M s ∧ ClassRows M s ∧ AllItems M s
  else if PHASE_MEMBER_ITEMS ≤ p then InHierarchy M s ∧ AllItems M s
  else False

end SearchRunner

/-! ## A small concrete host -/

namespace Example

/-- A registry with the chain `Object <- Node <- Node2D <- Sprite2D`. -/
def parent_of (c : Str) : Str :=
  if c = lit "Node" then lit "Object"
  else if c = lit "Node2D" then lit "Node"
  else if c = lit "Sprite2D" then lit "Node2D"
  else []

def rank_of (c : Str) : Nat :=
  if c = lit "Object" then 1
  else if c = lit "Node" then 2
  else if c = lit "Node2D" then 3
  else if c = lit "Sprite2D" then 4
  else 0

def exists_in (c : Str) : Bool :=
  decide (c = lit "Object" ∨ c = lit "Node" ∨ c = lit "Node2D" ∨ c = lit "Sprite2D")

/-- Ancestor test by walking `parent_of`. -/
def is_parent_walk : Nat → Str → Str → Bool
  | 0, _, _ => false
  | fuel + 1, c, anc =>
    if c = [] then false else if c = anc then true else is_parent_walk fuel (parent_of c) anc

def all_classes : List Str := [lit "Object", lit "Node", lit "Node2D", lit "Sprite2D"]

def classdb : ClassDB where
  class_exists := exists_in
  get_parent_class := parent_of
  is_parent_class := fun c anc => exists_in c && is_parent_walk 5 c anc
  get_inheriters_from_class := fun c =>
    all_classes.filter (fun k => decide (k ≠ c) && is_parent_walk 5 k c)
  rank := rank_of
  rank_parent := by
    intro c h
    simp only [exists_in, decide_eq_true_eq] at h
    rcases h with h | h | h | h <;> subst h <;> decide

/-- ASCII case folding. -/
def ascii_lower (c : Char) : Char :=
  if 65 ≤ c.toNat ∧ c.toNat ≤ 90 then Char.ofNat (c.toNat + 32) else c

/-- A host without feature profile and with ASCII case folding. -/
def host : Host where
  classdb := classdb
  current_profile := none
  custom_node := fun _ => { caption := [], category := [] }
  find_lower := ascii_lower
  class_list := []
  load_script := fun _ => none
  registered_node_names := []
  has_theme_icon := fun _ => false

/-- A dialog opened on base type `Object` without a base script. -/
def selector : Selector := { base_type := lit "Object", base_script := [] }

/-- A method doc that only has a name. -/
def method_doc (n : String) : MethodDoc :=
  { name := lit n, return_type := lit "void", description := [], arguments := [] }

/-- A documented class `Foo` with members of every kind; two of its methods are
named like the class. -/
def class_foo : ClassDoc :=
  { name := lit "Foo"
    inherits := lit "Object"
    brief_description := []
    description := []
    script_path := []
    constructors := [method_doc "Foo"]
    methods := [method_doc "Foo", method_doc "bar", method_doc "Foo", method_doc "get_baz"]
    operators := [method_doc "operator +"]
    signals := [method_doc "changed"]
    constants := [{ name := lit "MAX", description := [] }]
    enums := []
    properties :=
      [{ name := lit "baz", type := lit "int", description := [], setter := lit "set_baz",
         getter := lit "get_baz" }]
    theme_properties := [{ name := lit "font", type := lit "Font", description := [] }] }

/-- The bucket `_phase_node_classes_init` adds with `_add_class_doc("operators", "", "")`. -/
def class_operators : ClassDoc :=
  { name := lit "operators"
    inherits := []
    brief_description := []
    description := []
    script_path := []
    constructors := []
    methods := []
    operators := []
    signals := []
    constants := []
    enums := []
    properties := []
    theme_properties := [] }

/-- Every search kind toggle pressed. -/
def all_kinds : Int := 511

/-- A runner about to match the first class doc of `docs`. -/
def matching (term : Str) (search_flags scope_flags : Int) (docs : HashMap ClassDoc) :
    SearchRunner.Runner :=
  { phase := 4
    term := term
    search_flags := search_flags
    scope_flags := scope_flags
    combined_docs := docs
    iterator_doc := HashMap.begin docs
    matches_ := []
    iterator_match := none
    results_tree := { items := [], root := none }
    root_item := none
    class_items := []
    matched_item := none
    match_highest_score := Score.finite 0
    vs_nodes := [] }

/-- A runner about to create the member rows of its first match; the tree holds the
root row only. -/
def listing (search_flags : Int) (matches_ : HashMap SearchRunner.ClassMatch) :
    SearchRunner.Runner :=
  { phase := 8
    term := []
    search_flags := search_flags
    scope_flags := SCOPE_ALL
    combined_docs := []
    iterator_doc := none
    matches_ := matches_
    iterator_match := HashMap.begin matches_
    results_tree := { items := [TreeItem.blank], root := some 0 }
    root_item := some 0
    class_items := []
    matched_item := none
    match_highest_score := Score.finite 0
    vs_nodes := [] }

/-- The match record of `Foo` for the empty term. -/
def foo_match : SearchRunner.ClassMatch :=
  SearchRunner.fill_match host all_kinds [] false class_foo

/-- A runner about to create the member rows of `Foo`. -/
def listing_foo (search_flags : Int) : SearchRunner.Runner :=
  listing search_flags [(lit "Foo", foo_match)]

/-- A class that only has an operator. -/
def class_vector : ClassDoc :=
  { ClassDoc.empty with name := lit "Vec", inherits := [], operators := [method_doc "operator +"] }

/-- The match record of `Vec` for the empty term when classes are not searched. -/
def vector_match : SearchRunner.ClassMatch :=
  SearchRunner.fill_match host SEARCH_OPERATORS [] false class_vector
/-- A host whose Document Source holds the class `Foo`. -/
def host_foo : Host := { host with class_list := [(lit "Foo", class_foo)] }

/-- A dialog in flat mode searching every scope. -/
def flat_all : Selector :=
  { base_type := lit "Object", base_script := [], hierarchy_button := false,
    scope_combo_selected_id := SCOPE_ALL }
/-- A fresh runner for the dialog `selector_ui` on an empty tree. -/
def fresh (selector_ui : Selector) : SearchRunner.Runner :=
  SearchRunner.new selector_ui { items := [], root := none }

/-- The match of a class that only has a name and a base, matched by name. -/
def name_match (name inherits : String) : SearchRunner.ClassMatch :=
  { doc := { ClassDoc.empty with name := lit name, inherits := lit inherits }
    name := true
    category := []
    constructors := []
    methods := []
    operators := []
    signals := []
    constants := []
    properties := []
    theme_properties := [] }

/-- A match map in which `C` inherits `B` and `B` inherits `A`, the most derived
class first and its base last. -/
def chain : HashMap SearchRunner.ClassMatch :=
  [(lit "C", name_match "C" "B"), (lit "A", name_match "A" ""), (lit "B", name_match "B" "A")]

/-- A runner in hierarchy mode about to start the class items phase over `chain`. -/
def chain_listing : SearchRunner.Runner :=
  { listing (Int.lor all_kinds SEARCH_SHOW_HIERARCHY) chain with
    phase := SearchRunner.PHASE_CLASS_ITEMS_INIT }

/-- The number of ancestors of a class of `chain`. -/
def chain_rank (k : Str) : Nat :=
  if k = lit "C" then 2 else if k = lit "B" then 1 else 0

/-- A class doc that only has a name and a base. -/
def named_doc (name inherits : String) : ClassDoc :=
  { ClassDoc.empty with name := lit name, inherits := lit inherits }

/-- A host whose Document Source holds two classes that inherit each other. -/
def host_cycle : Host :=
  { host with class_list := [(lit "A", named_doc "A" "B"), (lit "B", named_doc "B" "A")] }

/-- A dialog in hierarchy mode searching every scope. -/
def hierarchy_all : Selector :=
  { base_type := lit "Object", base_script := [], scope_combo_selected_id := SCOPE_ALL }

/-- The runner over `host_cycle` after nine slices, about to create the first class
row. -/
def cycle_state : SearchRunner.Runner :=
  (SearchRunner.slices host_cycle hierarchy_all 9 (fresh hierarchy_all)).getD
    (fresh hierarchy_all)

/-- The match of the class `A` of `host_cycle`. -/
def cycle_match_a : SearchRunner.ClassMatch :=
  SearchRunner.fill_match host_cycle (Int.lor all_kinds SEARCH_SHOW_HIERARCHY) [] false
    (named_doc "A" "B")

/-- The match of the class `B` of `host_cycle`. -/
def cycle_match_b : SearchRunner.ClassMatch :=
  SearchRunner.fill_match host_cycle (Int.lor all_kinds SEARCH_SHOW_HIERARCHY) [] false
    (named_doc "B" "A")

/-- The runner of a search with every kind but operators enabled and the scope the
dialog starts with, about to match the `operators` bucket. -/
def operators_out_of_scope : SearchRunner.Runner :=
  matching [] (all_kinds - SEARCH_OPERATORS) SCOPE_RELATED [(lit "operators", class_operators)]

/-- The runner of a search with every kind enabled and the scope the dialog starts
with, about to match the `operators` bucket. -/
def operators_in_search : SearchRunner.Runner :=
  matching [] all_kinds SCOPE_RELATED [(lit "operators", class_operators)]

/-- A dialog opened on the base script `player.vs`. -/
def selector_script : Selector := { base_type := lit "Object", base_script := lit "player.vs" }

/-- A host that loads every path as a live script with one method, one signal and one
property. -/
def host_live_script : Host :=
  { host_foo with
    load_script := fun _ =>
      some { instance_base_type := lit "Node"
             lists := some
               { methods := [{ name := lit "jump", return_type := lit "void", arguments := [] }]
                 signals := [{ name := lit "landed", return_type := lit "void", arguments := [] }]
                 properties := [{ name := lit "speed", type := lit "float" }] } } }

/-- A host whose feature profile disables the class `Node`. -/
def host_profiled : Host :=
  { host with current_profile := some (fun c => decide (c = lit "Node")) }

/-- The runner at the end of a pass over the class `Foo` in flat mode. -/
def finished : SearchRunner.Runner :=
  (SearchRunner.slices host_foo flat_all 16 (fresh flat_all)).getD (fresh flat_all)

/-- A runner about to start the class items phase over the match of `Foo`. -/
def class_listing (search_flags : Int) : SearchRunner.Runner :=
  { listing_foo search_flags with phase := SearchRunner.PHASE_CLASS_ITEMS_INIT }

/-- A runner about to select the best match, no row having been scored. -/
def selecting : SearchRunner.Runner :=
  { listing_foo all_kinds with phase := SearchRunner.PHASE_SELECT_MATCH }

/-- The runner of a search for the empty term with only `SEARCH_CONSTRUCTORS` set,
about to match the `operators` bucket. -/
def operators_unsearched : SearchRunner.Runner :=
  matching [] SEARCH_CONSTRUCTORS SCOPE_ALL [(lit "operators", class_operators)]

/-- The runner of a search for a single blank with every kind enabled, about to
match `Foo`. -/
def blank_term : SearchRunner.Runner :=
  matching (lit " ") all_kinds SCOPE_ALL [(lit "Foo", class_foo)]

/-- A class name of 13 characters with `abcdefghi` at position 2. -/
def tie_short : Str := lit "xxabcdefghiyy"

/-- A class name of 39 characters with `abcdefghi` at position 5. -/
def tie_long : Str := lit "xxxxxabcdefghiyyyyyyyyyyyyyyyyyyyyyyyyy"

/-- A host whose Document Source holds the classes `tie_short` and `tie_long`, in
this order. -/
def host_tie : Host :=
  { host with
    class_list :=
      [(tie_short, { ClassDoc.empty with name := tie_short }),
       (tie_long, { ClassDoc.empty with name := tie_long })] }

/-- A dialog in flat mode searching every scope for `abcdefghi`. -/
def selector_tie : Selector := { flat_all with search_box_text := lit "abcdefghi" }

/-- The runner of the search for `abcdefghi` over `host_tie` at the end of the pass. -/
def tie_finished : SearchRunner.Runner :=
  (SearchRunner.slices host_tie selector_tie 19 (fresh selector_tie)).getD (fresh selector_tie)

/-- A dialog in hierarchy mode searching every scope for `bar`. -/
def selector_bar : Selector := { hierarchy_all with search_box_text := lit "bar" }

/-- The runner of the search for `bar` over `host_foo` after seven slices, about to
start the class items phase. -/
def bar_start : SearchRunner.Runner :=
  (SearchRunner.slices host_foo selector_bar 7 (fresh selector_bar)).getD (fresh selector_bar)

/-- The runner of the search for `bar` one slice later, about to create the first
class item. -/
def member_hit : SearchRunner.Runner :=
  (SearchRunner.slices host_foo selector_bar 1 bar_start).getD bar_start

/-- The runner of the search for `bar` at the end of the class items phase. -/
def bar_classes : SearchRunner.Runner :=
  (SearchRunner.slices host_foo selector_bar 4 bar_start).getD bar_start

/-- The runner of the search for `bar` while the member rows are created. -/
def bar_members : SearchRunner.Runner :=
  (SearchRunner.slices host_foo selector_bar 6 bar_start).getD bar_start

/-- The first row under the root at the end of the class items phase of the search
for `bar`. -/
def bar_row : TreeItem := bar_classes.results_tree.items.getD 1 TreeItem.blank

/-- The match of `Foo` in the search for `bar`: the method `bar` matched, the name of
the class did not. -/
def bar_match : SearchRunner.ClassMatch :=
  SearchRunner.fill_match host_foo (Int.lor all_kinds SEARCH_SHOW_HIERARCHY) (lit "bar") false
    class_foo

end Example

/-! # Properties -/

namespace GodotString

theorem find_loop_found (p : Str) :
    ∀ (s : Str) (i : Nat), find_loop p s i > -1 → p <:+: s := by
  intro s
  induction s with
  | nil => intro i h; simp [find_loop] at h
  | cons c cs ih =>
    intro i h
    unfold find_loop at h
    split at h
    · rename_i hp
      exact (List.isPrefixOf_iff_prefix.mp hp).isInfix
    · exact (ih (i + 1) h).trans (List.infix_cons (List.infix_refl cs))

/-- A successful `find` exhibits a non-empty needle inside the subject. -/
theorem find_found {s p : Str} (h : find s p > -1) : p <:+: s ∧ p ≠ [] := by
  unfold find at h
  split at h
  · simp at h
  · rename_i hne
    push_neg at hne
    refine ⟨find_loop_found p s 0 h, ?_⟩
    intro hp
    exact hne.1 (by simp [hp])

/-- A non-empty string is found in itself at position 0. -/
theorem find_self {s : Str} (h : s ≠ []) : find s s = 0 := by
  cases s with
  | nil => exact absurd rfl h
  | cons c cs => simp [find, find_loop]

theorem substr_tail (a : Char) (rest : Str) : substr (a :: rest) 1 (-1) = rest := by
  cases rest with
  | nil => simp [substr]
  | cons b r =>
    unfold substr
    simp only [List.length_cons, if_true]
    have h1 : ¬ ((r.length + 1 + 1 = 0) ∨ (1 : Int) < 0 ∨ (1 : Int) ≥ ((r.length + 1 + 1 : Nat) : Int) ∨ ((r.length + 1 + 1 : Nat) : Int) - 1 ≤ 0) := by
      omega
    rw [if_neg h1]
    have h2 : ¬ ((1 : Int) + (((r.length + 1 + 1 : Nat) : Int) - 1) > ((r.length + 1 + 1 : Nat) : Int)) := by
      omega
    simp only [if_neg h2]
    have h3 : (((r.length + 1 + 1 : Nat) : Int) - 1).toNat = r.length + 1 := by
      omega
    rw [h3]
    simp

theorem substr_inner (a b : Char) (l : Str) :
    substr (a :: (l ++ [b])) 1 (((a :: (l ++ [b])).length : Int) - 2) = l := by
  cases l with
  | nil => simp [substr]
  | cons c r =>
    unfold substr
    have hlen : (a :: (c :: r ++ [b])).length = r.length + 3 := by simp
    rw [hlen]
    have h0 : ¬ (((r.length + 3 : Nat) : Int) - 2 = -1) := by push_cast; omega
    simp only [if_neg h0]
    have h1 : ¬ ((r.length + 3 = 0) ∨ (1 : Int) < 0 ∨ (1 : Int) ≥ ((r.length + 3 : Nat) : Int) ∨ ((r.length + 3 : Nat) : Int) - 2 ≤ 0) := by
      omega
    rw [if_neg h1]
    have h2 : ¬ ((1 : Int) + (((r.length + 3 : Nat) : Int) - 2) > ((r.length + 3 : Nat) : Int)) := by
      omega
    simp only [if_neg h2]
    have h3 : (((r.length + 3 : Nat) : Int) - 2).toNat = r.length + 1 := by
      omega
    rw [h3]
    simp [List.take_append_eq_append_take]

theorem left_init (l : Str) (b : Char) :
    left (l ++ [b]) (((l ++ [b]).length : Int) - 1) = l := by
  cases l with
  | nil => simp [left]
  | cons c r =>
    unfold left
    have hlen : (c :: r ++ [b]).length = r.length + 2 := by simp
    rw [hlen]
    have h0 : ¬ (((r.length + 2 : Nat) : Int) - 1 < 0) := by push_cast; omega
    simp only [if_neg h0]
    have h1 : ¬ (((r.length + 2 : Nat) : Int) - 1 ≤ 0) := by push_cast; omega
    have h2 : ¬ (((r.length + 2 : Nat) : Int) - 1 ≥ ((r.length + 2 : Nat) : Int)) := by push_cast; omega
    rw [if_neg h1, if_neg h2]
    unfold substr
    rw [hlen]
    have h3 : ¬ (((r.length + 2 : Nat) : Int) - 1 = -1) := by push_cast; omega
    simp only [if_neg h3]
    have h4 : ¬ ((r.length + 2 = 0) ∨ (0 : Int) < 0 ∨ (0 : Int) ≥ ((r.length + 2 : Nat) : Int) ∨ ((r.length + 2 : Nat) : Int) - 1 ≤ 0) := by
      omega
    rw [if_neg h4]
    have h5 : ¬ ((0 : Int) + (((r.length + 2 : Nat) : Int) - 1) > ((r.length + 2 : Nat) : Int)) := by
      omega
    simp only [if_neg h5]
    have h6 : (((r.length + 2 : Nat) : Int) - 1).toNat = r.length + 1 := by
      omega
    rw [h6]
    simp [List.take_append_eq_append_take]

theorem mem_dropWhile_of_not {p : Char → Bool} {x : Char} (hx : p x = false) :
    ∀ l : Str, x ∈ l → x ∈ l.dropWhile p := by
  intro l
  induction l with
  | nil => intro h; exact h
  | cons c cs ih =>
    intro h
    by_cases hc : p c = true
    · rw [List.dropWhile_cons_of_pos hc]
      rcases List.mem_cons.mp h with h | h
      · rw [h, hc] at hx; exact absurd hx (by simp)
      · exact ih h
    · rw [List.dropWhile_cons_of_neg hc]; exact h

theorem mem_strip_edges_head {c : Char} (hc : is_edge c = false) (l : Str) :
    c ∈ strip_edges (c :: l) := by
  unfold strip_edges
  rw [List.mem_reverse]
  apply mem_dropWhile_of_not hc
  rw [List.mem_reverse]
  apply mem_dropWhile_of_not hc
  exact List.mem_cons_self _ _

theorem lit_dot : lit "." = ['.'] := rfl

theorem lit_paren : lit "(" = ['('] := rfl

end GodotString

namespace HashMap

theorem get?_set_self {V : Type} (m : HashMap V) (k : Str) (v : V) :
    get? (set m k v) k = some v := by
  induction m with
  | nil => simp [set, get?]
  | cons e rest ih =>
    obtain ⟨k1, v1⟩ := e
    unfold set
    split
    · rename_i h; simp [get?, h]
    · rename_i h; simp [get?, h, ih]

theorem has_cons {V : Type} (k1 : Str) (v1 : V) (rest : HashMap V) (k : Str) :
    has ((k1, v1) :: rest) k = (decide (k1 = k) || has rest k) := by
  unfold has
  rw [List.any_cons]
  congr 1
  by_cases h : k1 = k
  · subst h; simp
  · simp only [h, decide_False]
    exact beq_false_of_ne h

theorem has_iff_get? {V : Type} (m : HashMap V) (k : Str) :
    has m k = true ↔ ∃ v, get? m k = some v := by
  induction m with
  | nil => unfold has get?; simp only [List.any_nil]; constructor
           · intro h; cases h
           · rintro ⟨v, h⟩; cases h
  | cons e rest ih =>
    obtain ⟨k1, v1⟩ := e
    rw [has_cons]
    unfold get?
    by_cases hk : k1 = k
    · rw [if_pos hk]
      simp only [hk, decide_True, Bool.true_or, true_iff]
      exact ⟨v1, rfl⟩
    · rw [if_neg hk, ← ih]
      simp only [hk, decide_False, Bool.false_or]

theorem has_false_iff {V : Type} (m : HashMap V) (k : Str) :
    has m k = false ↔ get? m k = none := by
  constructor
  · intro h
    cases hg : get? m k with
    | none => rfl
    | some v =>
      have := (has_iff_get? m k).mpr ⟨v, hg⟩
      rw [h] at this; cases this
  · intro h
    cases hh : has m k with
    | false => rfl
    | true =>
      obtain ⟨v, hv⟩ := (has_iff_get? m k).mp hh
      rw [h] at hv; cases hv

theorem has_iff_mem_keys {V : Type} (m : HashMap V) (k : Str) :
    has m k = true ↔ k ∈ m.map Prod.fst := by
  induction m with
  | nil => unfold has; simp only [List.any_nil, List.map_nil, List.not_mem_nil]
           constructor
           · intro h; cases h
           · intro h; cases h
  | cons e rest ih =>
    obtain ⟨k1, v1⟩ := e
    rw [has_cons, List.map_cons, List.mem_cons, Bool.or_eq_true, ih, decide_eq_true_eq]
    constructor
    · rintro (h | h)
      · exact Or.inl h.symm
      · exact Or.inr h
    · rintro (h | h)
      · exact Or.inl h.symm
      · exact Or.inr h

theorem get?_set {V : Type} (m : HashMap V) (k k2 : Str) (v : V) :
    get? (set m k v) k2 = if k = k2 then some v else get? m k2 := by
  induction m with
  | nil => simp [set, get?]
  | cons e rest ih =>
    obtain ⟨k1, v1⟩ := e
    unfold set
    by_cases h1 : k1 = k
    · rw [if_pos h1]
      subst h1
      unfold get?
      by_cases h2 : k1 = k2
      · simp [h2]
      · simp [h2]
    · rw [if_neg h1]
      unfold get?
      by_cases h2 : k1 = k2
      · have : ¬ k = k2 := fun e => h1 (h2.trans e.symm)
        simp [h2, this]
      · simp [h2, ih]

theorem get?_mem {V : Type} (m : HashMap V) (k : Str) (v : V) (h : get? m k = some v) :
    (k, v) ∈ m := by
  induction m with
  | nil => simp [get?] at h
  | cons e rest ih =>
    obtain ⟨k1, v1⟩ := e
    unfold get? at h
    by_cases h1 : k1 = k
    · rw [if_pos h1] at h
      cases h; subst h1
      exact List.mem_cons_self _ _
    · rw [if_neg h1] at h
      exact List.mem_cons_of_mem _ (ih h)

theorem get?_of_mem {V : Type} (m : HashMap V) (hnd : (m.map Prod.fst).Nodup) (k : Str) (v : V)
    (h : (k, v) ∈ m) : get? m k = some v := by
  induction m with
  | nil => simp at h
  | cons e rest ih =>
    obtain ⟨k1, v1⟩ := e
    simp only [List.map_cons, List.nodup_cons] at hnd
    unfold get?
    rcases List.mem_cons.mp h with h | h
    · cases h; simp
    · have hne : ¬ k1 = k := by
        intro e; subst e
        exact hnd.1 (List.mem_map.mpr ⟨(k1, v), h, rfl⟩)
      rw [if_neg hne]
      exact ih hnd.2 h

end HashMap

/-! ## Rounding to binary32 -/

namespace Float32

theorem pow2_eq (e : Int) : pow2 e = (2 : ℚ) ^ e := by
  unfold pow2
  split
  · rename_i h
    obtain ⟨n, rfl⟩ := Int.eq_ofNat_of_zero_le h
    simp
  · rename_i h
    obtain ⟨n, hn⟩ := Int.eq_ofNat_of_zero_le (by omega : 0 ≤ -e)
    have he : e = -(n : Int) := by omega
    subst he
    simp

theorem pow2_pos (e : Int) : 0 < pow2 e := by
  rw [pow2_eq]; positivity

theorem pow2_add (a b : Int) : pow2 (a + b) = pow2 a * pow2 b := by
  rw [pow2_eq, pow2_eq, pow2_eq, zpow_add₀ (by norm_num)]

theorem pow2_le (a b : Int) (h : a ≤ b) : pow2 a ≤ pow2 b := by
  rw [pow2_eq, pow2_eq]
  exact zpow_le_zpow_right₀ (by norm_num) h

theorem pow2_lt_iff (a b : Int) : pow2 a < pow2 b ↔ a < b := by
  rw [pow2_eq, pow2_eq]
  exact zpow_lt_zpow_iff_right₀ (by norm_num)

theorem pow2_natCast (n : Nat) : pow2 (n : Int) = ((2 ^ n : Nat) : ℚ) := by
  rw [pow2_eq]; simp

theorem digits_spec : ∀ (fuel n : Nat), n ≤ fuel → n ≠ 0 →
    2 ^ (digits fuel n - 1) ≤ n ∧ n < 2 ^ digits fuel n ∧ 1 ≤ digits fuel n := by
  intro fuel
  induction fuel with
  | zero => intro n h hn; omega
  | succ f ih =>
    intro n h hn
    unfold digits
    rw [if_neg hn]
    by_cases h2 : n / 2 = 0
    · have h1 : n = 1 := by omega
      subst h1
      cases f with
      | zero => simp [digits]
      | succ g => simp [digits]
    · obtain ⟨i1, i2, i3⟩ := ih (n / 2) (by omega) h2
      refine ⟨?_, ?_, by omega⟩
      · have : digits f (n / 2) + 1 - 1 = (digits f (n / 2) - 1) + 1 := by omega
        rw [this, pow_succ]
        omega
      · rw [pow_succ]
        omega

theorem binade_spec (q : ℚ) (hq : 0 < q) : pow2 (binade q) ≤ q ∧ q < pow2 (binade q + 1) := by
  have hnum : 0 < q.num := Rat.num_pos.mpr hq
  have hden : q.den ≠ 0 := q.den_nz
  have hna : q.num.natAbs ≠ 0 := by omega
  obtain ⟨a1, a2, a3⟩ := digits_spec q.num.natAbs q.num.natAbs (le_refl _) hna
  obtain ⟨b1, b2, b3⟩ := digits_spec q.den q.den (le_refl _) hden
  have hqe : q = (q.num.natAbs : ℚ) / (q.den : ℚ) := by
    have h2 : (q.num.natAbs : ℚ) = (q.num : ℚ) := by
      have h1 : (q.num.natAbs : Int) = q.num := Int.natAbs_of_nonneg hnum.le
      rw [← Int.cast_natCast, h1]
    rw [h2]
    exact (Rat.num_div_den q).symm
  unfold binade
  simp only []
  generalize q.num.natAbs = a at *
  generalize q.den = b at *
  generalize hda : digits a a = da at *
  generalize hdb : digits b b = db at *
  have hbpos : (0 : ℚ) < (b : ℚ) := by
    have : 0 < b := Nat.pos_of_ne_zero hden
    exact_mod_cast this
  -- q < 2 ^ (da - db + 1)
  have hup : q < pow2 ((da : Int) - (db : Int) + 1) := by
    have e1 : ((da : Int) - (db : Int) + 1) = (da : Int) + (-((db : Int) - 1)) := by ring
    have e2 : pow2 ((db : Int) - 1) * pow2 (-((db : Int) - 1)) = 1 := by
      rw [← pow2_add]; simp [pow2_eq]
    have e3 : pow2 ((db : Int) - 1) = ((2 ^ (db - 1) : Nat) : ℚ) := by
      rw [← pow2_natCast]; congr 1; omega
    have e4 : (q : ℚ) * (b : ℚ) = (a : ℚ) := by
      rw [hqe]; field_simp
    have h1 : (a : ℚ) < pow2 (da : Int) := by
      rw [pow2_natCast]; exact_mod_cast a2
    have h2 : pow2 ((db : Int) - 1) ≤ (b : ℚ) := by
      rw [e3]; exact_mod_cast b1
    rw [e1, pow2_add]
    have hp := pow2_pos (-((db : Int) - 1))
    have hp2 := pow2_pos ((db : Int) - 1)
    have hp3 := pow2_pos (da : Int)
    -- q * 2^(db-1) ≤ q * b = a < 2^da
    have h3 : q * pow2 ((db : Int) - 1) < pow2 (da : Int) := by
      calc q * pow2 ((db : Int) - 1) ≤ q * (b : ℚ) := by
            exact mul_le_mul_of_nonneg_left h2 hq.le
        _ = (a : ℚ) := e4
        _ < pow2 (da : Int) := h1
    calc q = q * pow2 ((db : Int) - 1) * pow2 (-((db : Int) - 1)) := by
          rw [mul_assoc, e2, mul_one]
      _ < pow2 (da : Int) * pow2 (-((db : Int) - 1)) := by
          exact mul_lt_mul_of_pos_right h3 hp
  -- 2 ^ (da - db - 1) ≤ q
  have hlow : pow2 ((da : Int) - (db : Int) - 1) ≤ q := by
    have e1 : ((da : Int) - (db : Int) - 1) = ((da : Int) - 1) + (-(db : Int)) := by ring
    have e2 : pow2 (db : Int) * pow2 (-(db : Int)) = 1 := by
      rw [← pow2_add]; simp [pow2_eq]
    have e3 : pow2 ((da : Int) - 1) = ((2 ^ (da - 1) : Nat) : ℚ) := by
      rw [← pow2_natCast]; congr 1; omega
    have e4 : (q : ℚ) * (b : ℚ) = (a : ℚ) := by
      rw [hqe]; field_simp
    have h1 : pow2 ((da : Int) - 1) ≤ (a : ℚ) := by
      rw [e3]; exact_mod_cast a1
    have h2 : (b : ℚ) ≤ pow2 (db : Int) := by
      rw [pow2_natCast]; exact_mod_cast b2.le
    have hp := pow2_pos (-(db : Int))
    rw [e1, pow2_add]
    have h3 : pow2 ((da : Int) - 1) ≤ q * pow2 (db : Int) := by
      calc pow2 ((da : Int) - 1) ≤ (a : ℚ) := h1
        _ = q * (b : ℚ) := e4.symm
        _ ≤ q * pow2 (db : Int) := mul_le_mul_of_nonneg_left h2 hq.le
    calc pow2 ((da : Int) - 1) * pow2 (-(db : Int))
          ≤ q * pow2 (db : Int) * pow2 (-(db : Int)) := mul_le_mul_of_nonneg_right h3 hp.le
      _ = q := by rw [mul_assoc, e2, mul_one]
  split
  · rename_i hk
    exact ⟨hk, hup⟩
  · rename_i hk
    refine ⟨hlow, ?_⟩
    have : (da : Int) - (db : Int) - 1 + 1 = (da : Int) - (db : Int) := by ring
    rw [this]
    exact lt_of_not_le hk

theorem binade_mono (a b : ℚ) (ha : 0 < a) (hab : a ≤ b) : binade a ≤ binade b := by
  obtain ⟨a1, _⟩ := binade_spec a ha
  obtain ⟨_, b2⟩ := binade_spec b (lt_of_lt_of_le ha hab)
  have : pow2 (binade a) < pow2 (binade b + 1) := lt_of_le_of_lt a1 (lt_of_le_of_lt hab b2)
  have := (pow2_lt_iff _ _).mp this
  omega

theorem floor_toNat (x : ℚ) : (Rat.floor x).toNat = ⌊x⌋₊ := by
  rw [← Int.floor_toNat]; rfl

theorem round_half_even_natCast (n : Nat) : round_half_even (n : ℚ) = n := by
  unfold round_half_even
  rw [floor_toNat]
  simp

theorem round_half_even_bounds (x : ℚ) :
    ⌊x⌋₊ ≤ round_half_even x ∧ round_half_even x ≤ ⌊x⌋₊ + 1 := by
  unfold round_half_even
  rw [floor_toNat]
  simp only []
  split
  · omega
  · split
    · omega
    · split <;> omega

theorem round_half_even_mono (x y : ℚ) (hxy : x ≤ y) :
    round_half_even x ≤ round_half_even y := by
  have hfl : ⌊x⌋₊ ≤ ⌊y⌋₊ := Nat.floor_mono hxy
  rcases Nat.lt_or_ge ⌊x⌋₊ ⌊y⌋₊ with hlt | hge
  · have h1 := (round_half_even_bounds x).2
    have h2 := (round_half_even_bounds y).1
    omega
  · have he : ⌊x⌋₊ = ⌊y⌋₊ := le_antisymm hfl hge
    unfold round_half_even
    rw [floor_toNat, floor_toNat]
    simp only []
    rw [← he]
    have hr : x - (⌊x⌋₊ : ℚ) ≤ y - (⌊x⌋₊ : ℚ) := by linarith
    generalize x - (⌊x⌋₊ : ℚ) = r at hr
    generalize y - (⌊x⌋₊ : ℚ) = t at hr
    by_cases c1 : r < 1 / 2
    · rw [if_pos c1]
      split
      · exact le_refl _
      · split
        · omega
        · split <;> omega
    · rw [if_neg c1]
      have c1t : ¬ t < 1 / 2 := fun h => c1 (lt_of_le_of_lt hr h)
      rw [if_neg c1t]
      by_cases c2 : 1 / 2 < r
      · rw [if_pos c2, if_pos (lt_of_lt_of_le c2 hr)]
      · rw [if_neg c2]
        by_cases c3 : 1 / 2 < t
        · rw [if_pos c3]
          split <;> omega
        · rw [if_neg c3]

theorem round_nonneg (q : ℚ) (hq : 0 ≤ q) : 0 ≤ round q := by
  unfold round
  split
  · exact le_refl _
  · rename_i h0
    have hpos : 0 < q := lt_of_le_of_ne hq (Ne.symm h0)
    rw [if_pos hpos]
    exact mul_nonneg (Nat.cast_nonneg _) (pow2_pos _).le

theorem round_nonpos (q : ℚ) (hq : q ≤ 0) : round q ≤ 0 := by
  unfold round
  split
  · exact le_refl _
  · rename_i h0
    have hneg : ¬ 0 < q := not_lt.mpr hq
    rw [if_neg hneg]
    have := mul_nonneg (Nat.cast_nonneg (round_half_even (-q / spacing (-q))) : (0 : ℚ) ≤ _)
      (pow2_pos (max (binade (-q)) (-126) - 23)).le
    unfold spacing at *
    linarith

theorem round_of_pos (q : ℚ) (hq : 0 < q) :
    round q = (round_half_even (q / spacing q) : ℚ) * spacing q := by
  unfold round
  rw [if_neg (ne_of_gt hq), if_pos hq]

/-- Rounding to binary32 is monotone on the non-negative rationals. -/
theorem round_mono (a b : ℚ) (ha : 0 ≤ a) (hab : a ≤ b) : round a ≤ round b := by
  rcases eq_or_lt_of_le ha with h0 | hpos
  · rw [← h0]
    have : round 0 = 0 := by unfold round; rw [if_pos rfl]
    rw [this]
    exact round_nonneg b (le_trans ha hab)
  · have hbpos : 0 < b := lt_of_lt_of_le hpos hab
    rw [round_of_pos a hpos, round_of_pos b hbpos]
    have hbin := binade_mono a b hpos hab
    unfold spacing
    generalize hea : max (binade a) (-126) = ea
    generalize heb : max (binade b) (-126) = eb
    have hle : ea ≤ eb := by omega
    have hua := pow2_pos (ea - 23)
    have hub := pow2_pos (eb - 23)
    rcases eq_or_lt_of_le hle with he | hlt
    · rw [← he]
      apply mul_le_mul_of_nonneg_right _ hua.le
      have : round_half_even (a / pow2 (ea - 23)) ≤ round_half_even (b / pow2 (ea - 23)) :=
        round_half_even_mono _ _ (div_le_div_of_nonneg_right hab hua.le)
      exact_mod_cast this
    · -- different binades: a rounds to at most 2 ^ (ea + 1), b to at least 2 ^ eb
      have hbb : eb = binade b := by omega
      obtain ⟨b1, _⟩ := binade_spec b hbpos
      obtain ⟨_, a2⟩ := binade_spec a hpos
      have a3 : a < pow2 (ea + 1) := lt_of_lt_of_le a2 (pow2_le _ _ (by omega))
      have e24 : pow2 (ea + 1) = ((2 ^ 24 : Nat) : ℚ) * pow2 (ea - 23) := by
        rw [← pow2_natCast, ← pow2_add]; congr 1; omega
      have e23 : pow2 eb = ((2 ^ 23 : Nat) : ℚ) * pow2 (eb - 23) := by
        rw [← pow2_natCast, ← pow2_add]; congr 1; omega
      have ha24 : a / pow2 (ea - 23) ≤ ((2 ^ 24 : Nat) : ℚ) := by
        rw [div_le_iff₀ hua, ← e24]; exact a3.le
      have hb23 : ((2 ^ 23 : Nat) : ℚ) ≤ b / pow2 (eb - 23) := by
        rw [le_div_iff₀ hub, ← e23, hbb]; exact b1
      have r1 : round_half_even (a / pow2 (ea - 23)) ≤ 2 ^ 24 := by
        have := round_half_even_mono _ _ ha24
        rw [round_half_even_natCast] at this
        exact this
      have r2 : 2 ^ 23 ≤ round_half_even (b / pow2 (eb - 23)) := by
        have := round_half_even_mono _ _ hb23
        rw [round_half_even_natCast] at this
        exact this
      calc (round_half_even (a / pow2 (ea - 23)) : ℚ) * pow2 (ea - 23)
            ≤ ((2 ^ 24 : Nat) : ℚ) * pow2 (ea - 23) :=
              mul_le_mul_of_nonneg_right (by exact_mod_cast r1) hua.le
        _ = pow2 (ea + 1) := e24.symm
        _ ≤ pow2 eb := pow2_le _ _ (by omega)
        _ = ((2 ^ 23 : Nat) : ℚ) * pow2 (eb - 23) := e23
        _ ≤ (round_half_even (b / pow2 (eb - 23)) : ℚ) * pow2 (eb - 23) :=
              mul_le_mul_of_nonneg_right (by exact_mod_cast r2) hub.le

theorem round_half : round (1 / 2) = 1 / 2 := by decide!

theorem round_zero : round 0 = 0 := by unfold round; rw [if_pos rfl]

/-- The constants of `_match_item`: the lowest first factor and the lowest second
factor of a score have a product that rounds to a positive value. -/
theorem round_floor_pos :
    0 < round (round (9 / 10) - 1 / 2) ∧ round (round (9 / 10) - 1 / 2) ≤ 1 / 2 ∧
    0 < round (1 - round (1 / 10)) ∧ 0 ≤ round (1 / 10) ∧
    0 < round (round (round (9 / 10) - 1 / 2) * round (round (1 - round (1 / 10)))) := by
  decide!

end Float32

theorem ResultsTree.create_item_items (t : ResultsTree) (p_parent : Option Nat) (cells : TreeItem) :
    ∃ row, (t.create_item p_parent cells).1.items = t.items ++ [row] ∧
      row.text0 = cells.text0 ∧ row.metadata0 = cells.metadata0 ∧
      row.metadata1 = cells.metadata1 := by
  unfold ResultsTree.create_item
  cases p_parent with
  | some p => exact ⟨_, rfl, rfl, rfl, rfl⟩
  | none =>
    cases hr : t.root with
    | none => exact ⟨_, rfl, rfl, rfl, rfl⟩
    | some r => exact ⟨_, rfl, rfl, rfl, rfl⟩

namespace Example
theorem ascii_lower_fixes (x : Char) (hx : ascii_lower x = x) (hlow : ¬ (97 ≤ x.toNat ∧ x.toNat ≤ 122)) :
    ∀ c, ascii_lower c = x ↔ c = x := by
  intro c
  by_cases h : 65 ≤ c.toNat ∧ c.toNat ≤ 90
  · have hc : c = Char.ofNat c.toNat := (Char.ofNat_toNat c).symm
    constructor
    · intro he
      exfalso
      apply hlow
      rw [← he, hc]
      generalize c.toNat = k at h
      obtain ⟨h1, h2⟩ := h
      interval_cases k <;> decide
    · intro he
      rw [he]; exact hx
  · simp [ascii_lower, h]

theorem ascii_lower_dot : ∀ c, ascii_lower c = '.' ↔ c = '.' :=
  ascii_lower_fixes '.' (by decide) (by decide)

theorem ascii_lower_paren : ∀ c, ascii_lower c = '(' ↔ c = '(' :=
  ascii_lower_fixes '(' (by decide) (by decide)
end Example

namespace SearchRunner

/-! ## Scope filter -/

/-- C1. Evaluation at the failing input: with base type `Node2D` and no base script,
`Node` is a strict ancestor of the base type, is not the base type, not the base
script and not an inheriter, and under `SCOPE_UNRELATED` alone the scope filter
still answers `false` (not disabled): the unrelated branch never consults
`is_parent`. -/
theorem scope_unrelated_keeps_strict_ancestor :
    Example.host.classdb.is_parent_class (lit "Node2D") (lit "Node") = true ∧
    lit "Node" ≠ lit "Node2D" ∧
    lit "Node" ≠ ([] : Str) ∧
    lit "Node" ∉ Example.host.classdb.get_inheriters_from_class (lit "Node2D") ∧
    _is_class_disabled_by_scope Example.host { base_type := lit "Node2D", base_script := [] }
      SCOPE_UNRELATED (lit "Node") = false := by
  decide

/-- C2. Whenever `scope_flags` includes `SCOPE_BASE`, the scope filter answers `false`
(class included) for the base script, for the base type and for every strict
ancestor of the base type. -/
theorem scope_base_includes_base_and_ancestors (host : Host) (selector_ui : Selector)
    (scope_flags : Int) (p_class : Str)
    (hflag : Int.land scope_flags SCOPE_BASE ≠ 0)
    (hrel : p_class = selector_ui.base_script ∨ p_class = selector_ui.base_type ∨
      (host.classdb.is_parent_class selector_ui.base_type p_class = true ∧
        p_class ≠ selector_ui.base_type)) :
    _is_class_disabled_by_scope host selector_ui scope_flags p_class = false := by
  have hf : flag_set scope_flags SCOPE_BASE = true := by
    simpa [flag_set] using hflag
  unfold _is_class_disabled_by_scope
  rcases hrel with h | h | ⟨h1, h2⟩
  · simp [hf, h]
  · simp [hf, h]
  · have h3 : ¬ selector_ui.base_type = p_class := fun e => h2 e.symm
    simp [hf, h1, h3]

theorem scope_base_includes_base_and_ancestors_witness :
    Int.land SCOPE_RELATED SCOPE_BASE ≠ 0 ∧
    _is_class_disabled_by_scope Example.host { base_type := lit "Node2D", base_script := [] }
      SCOPE_RELATED (lit "Node") = false :=
  ⟨by decide,
    scope_base_includes_base_and_ancestors Example.host
      { base_type := lit "Node2D", base_script := [] } SCOPE_RELATED (lit "Node") (by decide)
      (Or.inr (Or.inr ⟨by decide, by decide⟩))⟩

/-! ## Matching one class doc -/

/-- A class doc that passes the enabled test gets the match record `fill_match`
builds, stored under its (possibly rewritten) name. -/
theorem phase_match_classes_matched (host : Host) (selector_ui : Selector) (s : Runner)
    (key : Str) (doc : ClassDoc)
    (hent : HashMap.entry s.combined_docs s.iterator_doc = some (key, doc))
    (hen : class_is_matched host selector_ui s doc = true) :
    ∃ s1 done, _phase_match_classes host selector_ui s = some (s1, done) ∧
      HashMap.get? s1.matches_ (rewritten_doc host s doc).name =
        some (fill_match host s.search_flags s.term (_match_visual_script s.search_flags doc)
          (rewritten_doc host s doc)) := by
  unfold _phase_match_classes
  rw [hent]
  simp only [hen, if_true]
  exact ⟨_, _, rfl, HashMap.get?_set_self _ _ _⟩

theorem method_name_matches_empty (host : Host) (name : Str) :
    method_name_matches host [] name = true := by
  simp [method_name_matches]

theorem method_name_matches_dot (host : Host) (name : Str) :
    method_name_matches host (lit ".") name = true := by
  have h1 : begins_with (lit ".") (lit ".") = true := by decide
  have h2 : substr (to_lower host.find_lower (lit ".")) 1 (-1) = [] := by
    simp [substr, to_lower, lit]
  have h3 : begins_with (to_lower host.find_lower name) [] = true := by
    simp [begins_with]
  simp [method_name_matches, h1, h2, h3]

/-- C3. Evaluation at the failing input: with `search_flags = SEARCH_CONSTRUCTORS`
(none of the six member kind flags set) and the empty term, the match record of
class `Foo` still holds all of its methods, operators, signals, constants,
properties and theme items. -/
theorem member_kinds_are_not_gated :
    flag_set SEARCH_CONSTRUCTORS SEARCH_METHODS = false ∧
    flag_set SEARCH_CONSTRUCTORS SEARCH_OPERATORS = false ∧
    flag_set SEARCH_CONSTRUCTORS SEARCH_SIGNALS = false ∧
    flag_set SEARCH_CONSTRUCTORS SEARCH_CONSTANTS = false ∧
    flag_set SEARCH_CONSTRUCTORS SEARCH_PROPERTIES = false ∧
    flag_set SEARCH_CONSTRUCTORS SEARCH_THEME_ITEMS = false ∧
    (_phase_match_classes Example.host Example.selector
        (Example.matching [] SEARCH_CONSTRUCTORS SCOPE_ALL [(lit "Foo", Example.class_foo)])).map
      (fun r => (HashMap.get? r.1.matches_ (lit "Foo")).map
        (fun m => (m.methods, m.operators, m.signals, m.constants, m.properties,
          m.theme_properties))) =
      some (some (Example.class_foo.methods, Example.class_foo.operators,
        Example.class_foo.signals, Example.class_foo.constants, Example.class_foo.properties,
        Example.class_foo.theme_properties)) := by
  refine ⟨by decide, by decide, by decide, by decide, by decide, by decide, ?_⟩
  rfl

/-- The name flag of a match record when the class name and the term agree up to
case and differ: set exactly when the search is case-insensitive. -/
theorem fill_match_name_case (host : Host) (search_flags : Int) (term : Str)
    (isVisualScript : Bool) (class_doc : ClassDoc)
    (hclasses : flag_set search_flags SEARCH_CLASSES = true)
    (hcase : to_lower host.find_lower class_doc.name = to_lower host.find_lower term)
    (hne : class_doc.name ≠ term) :
    (fill_match host search_flags term isVisualScript class_doc).name =
      !flag_set search_flags SEARCH_CASE_SENSITIVE := by
  have hlen : class_doc.name.length = term.length := by
    have := congrArg List.length hcase
    simpa [to_lower] using this
  have hterm : term ≠ [] := by
    intro h
    apply hne
    rw [h] at hlen ⊢
    exact List.length_eq_zero.mp hlen
  have hterm_len : ¬ term.length = 0 := fun h => hterm (List.length_eq_zero.mp h)
  have hlow : to_lower host.find_lower term ≠ [] := by
    simpa [to_lower] using hterm
  have hsens : ¬ find class_doc.name term > -1 := by
    intro h
    exact hne ((find_found h).1.eq_of_length hlen.symm).symm
  have hinsens : findn host.find_lower class_doc.name term > -1 := by
    unfold findn
    rw [hcase, find_self hlow]
    decide
  cases hc : flag_set search_flags SEARCH_CASE_SENSITIVE
  · simp [fill_match, _match_string, hclasses, hc, hinsens, _match_is_hidden]
  · simp [fill_match, _match_string, hclasses, hc, hsens, hterm_len]

/-- C4. With class search enabled, a class whose name equals the term up to letter
case but differs from it is name-matched exactly when `SEARCH_CASE_SENSITIVE` is
off: the `name` flag of its match record is the negation of that flag. -/
theorem class_name_match_follows_case_flag (host : Host) (selector_ui : Selector) (s : Runner)
    (key : Str) (doc : ClassDoc)
    (hent : HashMap.entry s.combined_docs s.iterator_doc = some (key, doc))
    (hen : class_is_matched host selector_ui s doc = true)
    (hclasses : Int.land s.search_flags SEARCH_CLASSES ≠ 0)
    (hcase : to_lower host.find_lower (rewritten_doc host s doc).name =
      to_lower host.find_lower s.term)
    (hne : (rewritten_doc host s doc).name ≠ s.term) :
    ∃ s1 done m, _phase_match_classes host selector_ui s = some (s1, done) ∧
      HashMap.get? s1.matches_ (rewritten_doc host s doc).name = some m ∧
      m.doc = rewritten_doc host s doc ∧
      (Int.land s.search_flags SEARCH_CASE_SENSITIVE = 0 → m.name = true) ∧
      (Int.land s.search_flags SEARCH_CASE_SENSITIVE ≠ 0 → m.name = false) := by
  obtain ⟨s1, done, hrun, hget⟩ := phase_match_classes_matched host selector_ui s key doc hent hen
  have hf : flag_set s.search_flags SEARCH_CLASSES = true := by
    simpa [flag_set] using hclasses
  have hname := fill_match_name_case host s.search_flags s.term
    (_match_visual_script s.search_flags doc) (rewritten_doc host s doc) hf hcase hne
  refine ⟨s1, done, _, hrun, hget, rfl, ?_, ?_⟩
  · intro h0
    rw [hname]
    simp [flag_set, h0]
  · intro h1
    rw [hname]
    simp [flag_set, h1]

theorem class_name_match_follows_case_flag_witness :
    ∃ s1 done m,
      _phase_match_classes Example.host Example.selector
        (Example.matching (lit "foo") Example.all_kinds SCOPE_ALL
          [(lit "Foo", Example.class_foo)]) = some (s1, done) ∧
      HashMap.get? s1.matches_ (lit "Foo") = some m ∧ m.name = true := by
  obtain ⟨s1, done, m, h1, h2, _, h3, _⟩ :=
    class_name_match_follows_case_flag Example.host Example.selector
      (Example.matching (lit "foo") Example.all_kinds SCOPE_ALL [(lit "Foo", Example.class_foo)])
      (lit "Foo") Example.class_foo rfl (by decide) (by decide) (by decide) (by decide)
  exact ⟨s1, done, m, h1, h2, h3 (by decide)⟩

/-- The member lists of a match record for the empty term are the lists of the
class doc. -/
theorem fill_match_empty_term (host : Host) (search_flags : Int) (isVisualScript : Bool)
    (class_doc : ClassDoc) :
    (fill_match host search_flags [] isVisualScript class_doc).constructors =
      class_doc.constructors ∧
    (fill_match host search_flags [] isVisualScript class_doc).methods = class_doc.methods ∧
    (fill_match host search_flags [] isVisualScript class_doc).operators = class_doc.operators ∧
    (fill_match host search_flags [] isVisualScript class_doc).signals = class_doc.signals ∧
    (fill_match host search_flags [] isVisualScript class_doc).constants = class_doc.constants ∧
    (fill_match host search_flags [] isVisualScript class_doc).properties =
      class_doc.properties ∧
    (fill_match host search_flags [] isVisualScript class_doc).theme_properties =
      class_doc.theme_properties := by
  simp [fill_match, method_name_matches_empty]

/-- C5, as amended. For the empty term, the match record of every class that passes
the enabled test holds every constructor, method, operator, signal, constant,
property and theme item of the class, in the order of the class doc, and its
`name` flag is set whenever class search is enabled, or operator search is
enabled and the class name begins with `operators`. The class doc is the one of
the catalog unless it is a custom node, whose members the rewrite clears. -/
theorem empty_term_keeps_every_member (host : Host) (selector_ui : Selector) (s : Runner)
    (key : Str) (doc : ClassDoc)
    (hent : HashMap.entry s.combined_docs s.iterator_doc = some (key, doc))
    (hen : class_is_matched host selector_ui s doc = true)
    (hterm : s.term = []) :
    ∃ s1 done m, _phase_match_classes host selector_ui s = some (s1, done) ∧
      HashMap.get? s1.matches_ (rewritten_doc host s doc).name = some m ∧
      m.doc = rewritten_doc host s doc ∧
      (doc.inherits ≠ lit "VisualScriptCustomNode" → m.doc = doc) ∧
      m.constructors = m.doc.constructors ∧
      m.methods = m.doc.methods ∧
      m.operators = m.doc.operators ∧
      m.signals = m.doc.signals ∧
      m.constants = m.doc.constants ∧
      m.properties = m.doc.properties ∧
      m.theme_properties = m.doc.theme_properties ∧
      ((Int.land s.search_flags SEARCH_CLASSES ≠ 0 ∨
          (begins_with doc.name (lit "operators") = true ∧
            Int.land s.search_flags SEARCH_OPERATORS ≠ 0)) → m.name = true) := by
  obtain ⟨s1, done, hrun, hget⟩ := phase_match_classes_matched host selector_ui s key doc hent hen
  rw [hterm] at hget
  obtain ⟨h1, h2, h3, h4, h5, h6, h7⟩ := fill_match_empty_term host s.search_flags
    (_match_visual_script s.search_flags doc) (rewritten_doc host s doc)
  refine ⟨s1, done, _, hrun, hget, rfl, ?_, h1, h2, h3, h4, h5, h6, h7, ?_⟩
  · intro hcustom
    show rewritten_doc host s doc = doc
    simp [rewritten_doc, hcustom]
  · intro h
    have hcond : (flag_set s.search_flags SEARCH_CLASSES ||
        _match_visual_script s.search_flags doc) = true := by
      rcases h with h | ⟨hb, hop⟩
      · simp [flag_set, h]
      · simp [_match_visual_script, flag_set, hb, hop]
    simp [fill_match, hcond, _match_is_hidden]

theorem empty_term_keeps_every_member_witness :
    ∃ s1 done m,
      _phase_match_classes Example.host Example.selector
        (Example.matching [] Example.all_kinds SCOPE_ALL [(lit "Foo", Example.class_foo)]) =
        some (s1, done) ∧
      HashMap.get? s1.matches_ (lit "Foo") = some m ∧
      m.methods = Example.class_foo.methods ∧ m.name = true := by
  obtain ⟨s1, done, m, h1, h2, _, h3, _, h4, _, _, _, _, _, h5⟩ :=
    empty_term_keeps_every_member Example.host Example.selector
      (Example.matching [] Example.all_kinds SCOPE_ALL [(lit "Foo", Example.class_foo)])
      (lit "Foo") Example.class_foo rfl (by decide) rfl
  have hdoc : m.doc = Example.class_foo := h3 (by decide)
  exact ⟨s1, done, m, h1, h2, by rw [h4, hdoc], h5 (Or.inl (by decide))⟩

/-- C5 as stated fails: the class `operators` passes the enabled test and its name
begins with `operators`, yet for the empty term with neither `SEARCH_CLASSES` nor
`SEARCH_OPERATORS` set its match record has `name = false`. -/
theorem operator_bucket_unmatched_without_operator_search :
    Example.operators_unsearched.term = [] ∧
    class_is_matched Example.host Example.selector Example.operators_unsearched
      Example.class_operators = true ∧
    begins_with Example.class_operators.name (lit "operators") = true ∧
    (_phase_match_classes Example.host Example.selector Example.operators_unsearched).map
      (fun r => (HashMap.get? r.1.matches_ (lit "operators")).map (fun m => m.name)) =
      some (some false) := by
  refine ⟨rfl, by decide, by decide, ?_⟩
  rfl

/-- C6. Evaluation at the failing input: for the term made of a single blank, with
every search kind enabled, the match record of `Foo` has no method, signal,
constant, property or theme item, although `Foo` has members of each kind. -/
theorem single_blank_term_matches_no_member :
    Example.blank_term.term = lit " " ∧
    class_is_matched Example.host Example.selector Example.blank_term Example.class_foo = true ∧
    (_phase_match_classes Example.host Example.selector Example.blank_term).map
      (fun r => (HashMap.get? r.1.matches_ (lit "Foo")).map
        (fun m => (m.methods, m.signals, m.constants, m.properties, m.theme_properties))) =
      some (some ([], [], [], [], [])) ∧
    Example.class_foo.methods ≠ [] ∧ Example.class_foo.signals ≠ [] ∧
    Example.class_foo.constants ≠ [] ∧ Example.class_foo.properties ≠ [] ∧
    Example.class_foo.theme_properties ≠ [] := by
  refine ⟨rfl, by decide, ?_, by decide, by decide, by decide, by decide, by decide⟩
  rfl

/-- C7. For the term `.`, the match record of every class that passes the enabled
test holds every constructor, every method and every operator of the class,
whatever their names. -/
theorem dot_term_keeps_every_method (host : Host) (selector_ui : Selector) (s : Runner)
    (key : Str) (doc : ClassDoc)
    (hent : HashMap.entry s.combined_docs s.iterator_doc = some (key, doc))
    (hen : class_is_matched host selector_ui s doc = true)
    (hterm : s.term = lit ".") :
    ∃ s1 done m, _phase_match_classes host selector_ui s = some (s1, done) ∧
      HashMap.get? s1.matches_ (rewritten_doc host s doc).name = some m ∧
      m.doc = rewritten_doc host s doc ∧
      m.constructors = m.doc.constructors ∧
      m.methods = m.doc.methods ∧
      m.operators = m.doc.operators := by
  obtain ⟨s1, done, hrun, hget⟩ := phase_match_classes_matched host selector_ui s key doc hent hen
  rw [hterm] at hget
  refine ⟨s1, done, _, hrun, hget, rfl, ?_, ?_, ?_⟩ <;>
    simp [fill_match, method_name_matches_dot]

theorem dot_term_keeps_every_method_witness :
    ∃ s1 done m,
      _phase_match_classes Example.host Example.selector
        (Example.matching (lit ".") SEARCH_METHODS SCOPE_ALL [(lit "Foo", Example.class_foo)]) =
        some (s1, done) ∧
      HashMap.get? s1.matches_ (lit "Foo") = some m ∧
      m.methods = Example.class_foo.methods := by
  obtain ⟨s1, done, m, h1, h2, h3, _, h4, _⟩ :=
    dot_term_keeps_every_method Example.host Example.selector
      (Example.matching (lit ".") SEARCH_METHODS SCOPE_ALL [(lit "Foo", Example.class_foo)])
      (lit "Foo") Example.class_foo rfl (by decide) rfl
  have hdoc : m.doc = Example.class_foo := by rw [h3]; decide
  exact ⟨s1, done, m, h1, h2, by rw [h4, hdoc]⟩

/-- C8. For a case table that leaves `.` and `(` alone and maps no other character
to them, and a method whose name contains neither `.` nor `(`, the term
`.` + n + `(` matches the method exactly when the lower-cased method name is the
lower-cased `n` stripped of its surrounding whitespace. -/
theorem dot_name_paren_is_exact_filter (host : Host) (n name : Str)
    (hdot : ∀ c, host.find_lower c = '.' ↔ c = '.')
    (hparen : ∀ c, host.find_lower c = '(' ↔ c = '(')
    (hname_dot : '.' ∉ name) (hname_paren : '(' ∉ name) :
    method_name_matches host (lit "." ++ n ++ lit "(") name = true ↔
      to_lower host.find_lower name = strip_edges (to_lower host.find_lower n) := by
  have hmn_dot : '.' ∉ to_lower host.find_lower name := by
    intro h
    obtain ⟨c, hc, hlc⟩ := List.mem_map.mp h
    exact hname_dot ((hdot c).mp hlc ▸ hc)
  have hmn_paren : '(' ∉ to_lower host.find_lower name := by
    intro h
    obtain ⟨c, hc, hlc⟩ := List.mem_map.mp h
    exact hname_paren ((hparen c).mp hlc ▸ hc)
  have hterm : lit "." ++ n ++ lit "(" = '.' :: (n ++ ['(']) := by
    rw [lit_dot, lit_paren]; simp
  have hlower : to_lower host.find_lower (lit "." ++ n ++ lit "(") =
      '.' :: (to_lower host.find_lower n ++ ['(']) := by
    rw [hterm]
    simp [to_lower, (hdot '.').mpr rfl, (hparen '(').mpr rfl]
  have ha : ¬ find (to_lower host.find_lower name)
      (to_lower host.find_lower (lit "." ++ n ++ lit "(")) > -1 := by
    intro h
    have hin := (find_found h).1
    rw [hlower] at hin
    exact hmn_dot (hin.subset (List.mem_cons_self _ _))
  have hb : ¬ (lit "." ++ n ++ lit "(").length = 0 := by
    rw [hterm]; simp
  have hc : begins_with (to_lower host.find_lower name)
      (substr (to_lower host.find_lower (lit "." ++ n ++ lit "(")) 1 (-1)) = false := by
    rw [hlower, substr_tail]
    rw [Bool.eq_false_iff]
    intro h
    have hp := List.isPrefixOf_iff_prefix.mp h
    exact hmn_paren (hp.subset (by simp))
  have hd : ends_with (to_lower host.find_lower name)
      (strip_edges (left (to_lower host.find_lower (lit "." ++ n ++ lit "("))
        (((to_lower host.find_lower (lit "." ++ n ++ lit "(")).length : Int) - 1))) = false := by
    rw [hlower]
    have hl := left_init ('.' :: to_lower host.find_lower n) '('
    rw [List.cons_append] at hl
    rw [hl]
    rw [Bool.eq_false_iff]
    intro h
    have hs := List.isSuffixOf_iff_suffix.mp h
    exact hmn_dot (hs.subset (mem_strip_edges_head (by decide) _))
  have he : substr (to_lower host.find_lower (lit "." ++ n ++ lit "(")) 1
      (((to_lower host.find_lower (lit "." ++ n ++ lit "(")).length : Int) - 2) =
      to_lower host.find_lower n := by
    rw [hlower]
    exact substr_inner _ _ _
  have hbw : begins_with (lit "." ++ n ++ lit "(") (lit ".") = true := by
    rw [hterm, lit_dot]; simp [begins_with]
  have hew : ends_with (lit "." ++ n ++ lit "(") (lit "(") = true := by
    rw [lit_paren]
    apply List.isSuffixOf_iff_suffix.mpr
    exact List.suffix_append _ _
  unfold method_name_matches
  simp only [ha, hb, hc, hd, he, hbw, hew]
  simp

theorem dot_name_paren_is_exact_filter_witness :
    method_name_matches Example.host (lit "." ++ lit " Get_Baz " ++ lit "(") (lit "get_baz") =
      true :=
  (dot_name_paren_is_exact_filter Example.host (lit " Get_Baz ") (lit "get_baz")
    Example.ascii_lower_dot Example.ascii_lower_paren (by decide) (by decide)).mpr (by decide)

/-! ## Member rows -/

/-- The row `_create_member_item` appends. -/
theorem create_member_item_row (host : Host) (s : Runner) (p_parent : Option Nat)
    (p_class_name p_icon p_name p_text p_type p_metatype p_tooltip p_description : Str) :
    ∃ row,
      (_create_member_item host s p_parent p_class_name p_icon p_name p_text p_type p_metatype
        p_tooltip p_description).1.results_tree.items = s.results_tree.items ++ [row] ∧
      row.text0 = (if flag_set s.search_flags SEARCH_SHOW_HIERARCHY then p_text
        else p_class_name ++ lit "." ++ p_text) ∧
      row.metadata0 = p_class_name ++ lit ":" ++ p_name ∧
      row.metadata1 = lit "class_" ++ p_metatype ∧
      (_create_member_item host s p_parent p_class_name p_icon p_name p_text p_type p_metatype
        p_tooltip p_description).1.search_flags = s.search_flags := by
  obtain ⟨row, h1, h2, h3, h4⟩ := ResultsTree.create_item_items s.results_tree p_parent
    { TreeItem.blank with
      icon := p_icon
      text0 := (if flag_set s.search_flags SEARCH_SHOW_HIERARCHY then p_text
        else p_class_name ++ lit "." ++ p_text)
      text1 := TTR p_type
      tooltip := p_tooltip
      metadata0 := p_class_name ++ lit ":" ++ p_name
      metadata1 := lit "class_" ++ p_metatype
      description := some p_description
      scored_name := p_name }
  exact ⟨row, h1, h2, h3, h4, rfl⟩

theorem member_methods_loop_rows (host : Host) (parent : Option Nat) (doc : ClassDoc) :
    ∀ (l : List MethodDoc) (cc : Bool) (s : Runner),
      ∃ rows, (member_methods_loop host parent doc l cc s).results_tree.items =
          s.results_tree.items ++ rows ∧
        (member_methods_loop host parent doc l cc s).search_flags = s.search_flags ∧
        rows.map (fun r => (r.metadata0, r.text0)) =
          (l.filter (fun d => decide (d.name ≠ doc.name))).map
            (fun d => (doc.name ++ lit ":" ++ d.name,
              if flag_set s.search_flags SEARCH_SHOW_HIERARCHY then d.name
              else doc.name ++ lit "." ++ d.name)) ∧
        ∀ r ∈ rows, r.metadata1 = lit "class_method" := by
  intro l
  induction l with
  | nil => intro cc s; exact ⟨[], by simp [member_methods_loop], rfl, rfl, by simp⟩
  | cons d rest ih =>
    intro cc s
    unfold member_methods_loop
    by_cases hd : doc.name = d.name
    · simp only [hd, decide_True, if_true]
      obtain ⟨rows, h1, h2, h3, h4⟩ := ih (if (!cc && true) = true then true else cc) s
      refine ⟨rows, ?_, ?_, ?_, h4⟩
      · exact h1
      · exact h2
      · rw [h3]; simp [hd]
    · have hd2 : d.name ≠ doc.name := fun e => hd e.symm
      simp only [hd, decide_False, Bool.and_false, if_false, Bool.false_eq_true]
      obtain ⟨row, g1, g2, g3, g4, g5⟩ := create_member_item_row host s parent doc.name
        (lit "MemberMethod") d.name d.name (lit "Method") (lit "method") (method_tooltip doc d)
        d.description
      obtain ⟨rows, h1, h2, h3, h4⟩ := ih cc (_create_method_item host s parent doc d.name d).1
      refine ⟨row :: rows, ?_, ?_, ?_, ?_⟩
      · rw [h1]; unfold _create_method_item; rw [g1]; simp
      · rw [h2]; exact g5
      · have hflags : (_create_method_item host s parent doc d.name d).1.search_flags =
            s.search_flags := g5
        rw [hflags] at h3
        simp [hd2, h3, g2, g3]
      · intro r hr
        rcases List.mem_cons.mp hr with h | h
        · rw [h, g4]; rfl
        · exact h4 r h

theorem foldl_rows {α : Type} (f : Runner → α → Runner) (tag : Str)
    (hf : ∀ r d, ∃ row, (f r d).results_tree.items = r.results_tree.items ++ [row] ∧
      row.metadata1 = tag ∧ (f r d).search_flags = r.search_flags) :
    ∀ (l : List α) (s : Runner),
      ∃ rows, (l.foldl f s).results_tree.items = s.results_tree.items ++ rows ∧
        (∀ row ∈ rows, row.metadata1 = tag) ∧ (l.foldl f s).search_flags = s.search_flags := by
  intro l
  induction l with
  | nil => intro s; exact ⟨[], by simp, by simp, rfl⟩
  | cons d rest ih =>
    intro s
    obtain ⟨row, g1, g2, g3⟩ := hf s d
    obtain ⟨rows, h1, h2, h3⟩ := ih (f s d)
    refine ⟨row :: rows, ?_, ?_, ?_⟩
    · rw [List.foldl_cons, h1, g1]; simp
    · intro r hr
      rcases List.mem_cons.mp hr with h | h
      · rw [h]; exact g2
      · exact h2 r h
    · rw [List.foldl_cons, h3, g3]


theorem member_rows_of_kind (host : Host) (parent : Option Nat) (doc : ClassDoc) :
    (∀ r d, ∃ row, (_create_signal_item host r parent doc d).1.results_tree.items =
        r.results_tree.items ++ [row] ∧ row.metadata1 = lit "class_signal" ∧
        (_create_signal_item host r parent doc d).1.search_flags = r.search_flags) ∧
    (∀ r d, ∃ row, (_create_constant_item host r parent doc d).1.results_tree.items =
        r.results_tree.items ++ [row] ∧ row.metadata1 = lit "class_constant" ∧
        (_create_constant_item host r parent doc d).1.search_flags = r.search_flags) ∧
    (∀ r d, ∃ row, (_create_property_item host r parent doc d).1.results_tree.items =
        r.results_tree.items ++ [row] ∧ row.metadata1 = lit "class_property" ∧
        (_create_property_item host r parent doc d).1.search_flags = r.search_flags) ∧
    (∀ r d, ∃ row, (_create_theme_property_item host r parent doc d).1.results_tree.items =
        r.results_tree.items ++ [row] ∧ row.metadata1 = lit "class_theme_item" ∧
        (_create_theme_property_item host r parent doc d).1.search_flags = r.search_flags) := by
  refine ⟨?_, ?_, ?_, ?_⟩ <;> intro r d
  · obtain ⟨row, g1, _, _, g4, g5⟩ := create_member_item_row host r parent doc.name
      (lit "MemberSignal") d.name d.name (lit "Signal") (lit "signal") (method_tooltip doc d)
      d.description
    exact ⟨row, g1, g4, g5⟩
  · obtain ⟨row, g1, _, _, g4, g5⟩ := create_member_item_row host r parent doc.name
      (lit "MemberConstant") d.name d.name (lit "Constant") (lit "constant")
      (doc.name ++ lit "." ++ d.name) d.description
    exact ⟨row, g1, g4, g5⟩
  · unfold _create_property_item
    obtain ⟨row, g1, _, _, g4, g5⟩ := create_member_item_row host r parent doc.name
      (lit "MemberProperty") d.name d.name (lit "Property") (lit "property")
      (d.type ++ lit " " ++ doc.name ++ lit "." ++ d.name ++
        (line_break ++ doc.name ++ lit "." ++ d.setter ++ lit "(value) setter") ++
        (line_break ++ doc.name ++ lit "." ++ d.getter ++ lit "() getter")) d.description
    exact ⟨row, g1, g4, g5⟩
  · obtain ⟨row, g1, _, _, g4, g5⟩ := create_member_item_row host r parent doc.name
      (lit "MemberTheme") d.name d.name (lit "Theme Property") (lit "theme_item")
      (d.type ++ lit " " ++ doc.name ++ lit "." ++ d.name) d.description
    exact ⟨row, g1, g4, g5⟩

theorem filter_tag_none (rows : List TreeItem) (tag : Str) (htag : tag ≠ lit "class_method")
    (h : ∀ row ∈ rows, row.metadata1 = tag) :
    rows.filter (fun r => decide (r.metadata1 = lit "class_method")) = [] := by
  rw [List.filter_eq_nil_iff]
  intro r hr
  simp [h r hr, htag]

theorem filter_tag_all (rows : List TreeItem)
    (h : ∀ row ∈ rows, row.metadata1 = lit "class_method") :
    rows.filter (fun r => decide (r.metadata1 = lit "class_method")) = rows := by
  rw [List.filter_eq_self]
  intro r hr
  simp [h r hr]

/-- C9. The rows `_phase_member_items` appends for a match and that are method rows
(metadata `class_method`) are, in list order, the rows of the matched methods
whose name differs from the name of the class: a method named like its class
gets no row, and each row carries the plain method name (prefixed by the class
name in flat mode). -/
theorem member_method_rows_skip_constructors (host : Host) (s : Runner) (key : Str)
    (m : ClassMatch)
    (hent : HashMap.entry s.matches_ s.iterator_match = some (key, m)) :
    ∃ rows, (_phase_member_items host s).1.results_tree.items = s.results_tree.items ++ rows ∧
      (rows.filter (fun r => decide (r.metadata1 = lit "class_method"))).map
          (fun r => (r.metadata0, r.text0)) =
        (m.methods.filter (fun d => decide (d.name ≠ m.doc.name))).map
          (fun d => (m.doc.name ++ lit ":" ++ d.name,
            if flag_set s.search_flags SEARCH_SHOW_HIERARCHY then d.name
            else m.doc.name ++ lit "." ++ d.name)) := by
  unfold _phase_member_items
  rw [hent]
  simp only []
  generalize hparent : (if flag_set s.search_flags SEARCH_SHOW_HIERARCHY = true then
      (HashMap.index s.class_items m.doc.name none).2 else s.root_item) = parent
  generalize hs0 : (if flag_set s.search_flags SEARCH_SHOW_HIERARCHY = true then
      ({ s with class_items := (HashMap.index s.class_items m.doc.name none).1 } : Runner)
      else s) = s0
  have hs0_items : s0.results_tree.items = s.results_tree.items := by
    rw [← hs0]; split <;> rfl
  have hs0_flags : s0.search_flags = s.search_flags := by
    rw [← hs0]; split <;> rfl
  obtain ⟨k1, k2, k3, k4⟩ := member_rows_of_kind host parent m.doc
  obtain ⟨r1, a1, a2, a3, a4⟩ := member_methods_loop_rows host parent m.doc m.methods false s0
  obtain ⟨r2, b1, b2, b3⟩ := foldl_rows
    (fun r d => (_create_signal_item host r parent m.doc d).1) (lit "class_signal") k1 m.signals
    (member_methods_loop host parent m.doc m.methods false s0)
  obtain ⟨r3, c1, c2, c3⟩ := foldl_rows
    (fun r d => (_create_constant_item host r parent m.doc d).1) (lit "class_constant") k2
    m.constants _
  obtain ⟨r4, d1, d2, d3⟩ := foldl_rows
    (fun r d => (_create_property_item host r parent m.doc d).1) (lit "class_property") k3
    m.properties _
  obtain ⟨r5, e1, e2, e3⟩ := foldl_rows
    (fun r d => (_create_theme_property_item host r parent m.doc d).1) (lit "class_theme_item")
    k4 m.theme_properties _
  refine ⟨r1 ++ r2 ++ r3 ++ r4 ++ r5, ?_, ?_⟩
  · show (List.foldl (fun r d => (_create_theme_property_item host r parent m.doc d).1) _
      m.theme_properties).results_tree.items = _
    rw [e1, d1, c1, b1, a1, hs0_items]
    simp
  · rw [List.filter_append, List.filter_append, List.filter_append, List.filter_append,
      filter_tag_all r1 a4, filter_tag_none r2 _ (by decide) b2,
      filter_tag_none r3 _ (by decide) c2, filter_tag_none r4 _ (by decide) d2,
      filter_tag_none r5 _ (by decide) e2]
    simp only [List.append_nil]
    rw [a3, hs0_flags]

theorem member_method_rows_skip_constructors_witness :
    ∃ rows,
      (_phase_member_items Example.host (Example.listing_foo Example.all_kinds)).1.results_tree.items =
        (Example.listing_foo Example.all_kinds).results_tree.items ++ rows ∧
      (rows.filter (fun r => decide (r.metadata1 = lit "class_method"))).map
          (fun r => (r.metadata0, r.text0)) =
        [(lit "Foo:bar", lit "Foo.bar"), (lit "Foo:get_baz", lit "Foo.get_baz")] := by
  obtain ⟨rows, h1, h2⟩ := member_method_rows_skip_constructors Example.host
    (Example.listing_foo Example.all_kinds) (lit "Foo") Example.foo_match rfl
  refine ⟨rows, h1, ?_⟩
  rw [h2]
  decide

/-- C10. Evaluation at the failing input: the match record of `Foo` holds two methods
named `Foo`, and `_phase_member_items` creates the rows of `bar`, `get_baz` and of
the other members only, in hierarchy mode as in flat mode; no row carries the
text `Foo (constructors)`. -/
theorem constructors_label_row_is_never_created :
    (Example.foo_match.methods.filter
      (fun d => decide (d.name = Example.foo_match.doc.name))).length = 2 ∧
    (_phase_member_items Example.host
      (Example.listing_foo
        (Int.lor Example.all_kinds SEARCH_SHOW_HIERARCHY))).1.results_tree.items.map
        (fun r => r.text0) =
      [[], lit "bar", lit "get_baz", lit "changed", lit "MAX", lit "baz", lit "font"] ∧
    (_phase_member_items Example.host
      (Example.listing_foo Example.all_kinds)).1.results_tree.items.map (fun r => r.text0) =
      [[], lit "Foo.bar", lit "Foo.get_baz", lit "Foo.changed", lit "Foo.MAX", lit "Foo.baz",
        lit "Foo.font"] := by
  refine ⟨by decide, ?_, ?_⟩
  · rfl
  · rfl

end SearchRunner

/-! # Properties of the whole run -/

namespace SearchRunner

/-! ## Induction over the rows a phase creates -/

theorem create_member_item_eq (host : Host) (s : Runner) (p_parent : Option Nat)
    (p_class_name p_icon p_name p_text p_type p_metatype p_tooltip p_description : Str) :
    ∃ cells, cells.selected = false ∧
      (_create_member_item host s p_parent p_class_name p_icon p_name p_text p_type
        p_metatype p_tooltip p_description).1 = add_scored_row host s p_parent cells :=
  ⟨_, rfl, rfl⟩

theorem create_class_item_eq (host : Host) (s : Runner) (p_parent : Option Nat)
    (p_doc : ClassDoc) (p_gray : Bool) :
    ∃ cells, cells.selected = false ∧ (_create_class_item host s p_parent p_doc p_gray).1 =
      add_scored_row host s p_parent cells :=
  ⟨_, rfl, rfl⟩

theorem member_methods_loop_induct (host : Host) (P : Runner → Prop)
    (hadd : ∀ s p cells, cells.selected = false → P s → P (add_scored_row host s p cells))
    (parent : Option Nat) (doc : ClassDoc) :
    ∀ (l : List MethodDoc) (cc : Bool) (s : Runner), P s →
      P (member_methods_loop host parent doc l cc s) := by
  intro l
  induction l with
  | nil => intro cc s h; exact h
  | cons d rest ih =>
    intro cc s h
    unfold member_methods_loop
    simp only []
    split
    · exact ih _ s h
    · apply ih
      obtain ⟨cells, hsel, hc⟩ := create_member_item_eq host s parent doc.name (lit "MemberMethod")
        d.name (if (!cc && decide (doc.name = d.name)) = true then
          d.name ++ (lit " " ++ TTR (lit "(constructors)")) else d.name)
        (lit "Method") (lit "method") (method_tooltip doc d) d.description
      unfold _create_method_item
      rw [hc]
      exact hadd _ _ _ hsel h

theorem foldl_induct {α : Type} (P : Runner → Prop) (f : Runner → α → Runner)
    (hf : ∀ s d, P s → P (f s d)) : ∀ (l : List α) (s : Runner), P s → P (l.foldl f s) := by
  intro l
  induction l with
  | nil => intro s h; exact h
  | cons d rest ih => intro s h; exact ih _ (hf s d h)

/-- Induction over the rows `_phase_member_items` creates; the one write to
`class_items` is the lookup `class_items[name]`. -/
theorem phase_member_items_induct_lookup (host : Host) (P : Runner → Prop)
    (hadd : ∀ s p cells, cells.selected = false → P s → P (add_scored_row host s p cells))
    (hci : ∀ (s : Runner) (k : Str), P s →
      P { s with class_items := (HashMap.index s.class_items k none).1 })
    (hit : ∀ (s : Runner) it, P s → P { s with iterator_match := it })
    (s : Runner) (h : P s) : P (_phase_member_items host s).1 := by
  unfold _phase_member_items
  split
  · exact h
  · rename_i key m hent
    simp only []
    apply hit
    apply foldl_induct P
    · intro r d hr
      obtain ⟨cells, hsel, hc⟩ := create_member_item_eq host r _ m.doc.name (lit "MemberTheme")
        d.name d.name (lit "Theme Property") (lit "theme_item")
        (d.type ++ lit " " ++ m.doc.name ++ lit "." ++ d.name) d.description
      unfold _create_theme_property_item
      rw [hc]; exact hadd _ _ _ hsel hr
    apply foldl_induct P
    · intro r d hr
      unfold _create_property_item
      simp only []
      obtain ⟨cells, hsel, hc⟩ := create_member_item_eq host r _ m.doc.name (lit "MemberProperty")
        d.name d.name (lit "Property") (lit "property")
        (d.type ++ lit " " ++ m.doc.name ++ lit "." ++ d.name ++
          (line_break ++ m.doc.name ++ lit "." ++ d.setter ++ lit "(value) setter") ++
          (line_break ++ m.doc.name ++ lit "." ++ d.getter ++ lit "() getter")) d.description
      rw [hc]; exact hadd _ _ _ hsel hr
    apply foldl_induct P
    · intro r d hr
      obtain ⟨cells, hsel, hc⟩ := create_member_item_eq host r _ m.doc.name (lit "MemberConstant")
        d.name d.name (lit "Constant") (lit "constant") (m.doc.name ++ lit "." ++ d.name)
        d.description
      unfold _create_constant_item
      rw [hc]; exact hadd _ _ _ hsel hr
    apply foldl_induct P
    · intro r d hr
      obtain ⟨cells, hsel, hc⟩ := create_member_item_eq host r _ m.doc.name (lit "MemberSignal")
        d.name d.name (lit "Signal") (lit "signal") (method_tooltip m.doc d) d.description
      unfold _create_signal_item
      rw [hc]; exact hadd _ _ _ hsel hr
    apply member_methods_loop_induct host P hadd
    split
    · exact hci _ _ h
    · exact h

theorem phase_member_items_induct (host : Host) (P : Runner → Prop)
    (hadd : ∀ s p cells, cells.selected = false → P s → P (add_scored_row host s p cells))
    (hci : ∀ (s : Runner) ci, P s → P { s with class_items := ci })
    (hit : ∀ (s : Runner) it, P s → P { s with iterator_match := it })
    (s : Runner) (h : P s) : P (_phase_member_items host s).1 :=
  phase_member_items_induct_lookup host P hadd (fun x _ hx => hci x _ hx) hit s h

theorem create_class_hierarchy_induct (host : Host) (P : Runner → Prop)
    (hadd : ∀ s p cells, cells.selected = false → P s → P (add_scored_row host s p cells))
    (hci : ∀ (s : Runner) ci, P s → P { s with class_items := ci }) :
    ∀ (fuel : Nat) (s : Runner) (m : ClassMatch) (r : Runner × Option Nat),
      _create_class_hierarchy host fuel s m = some r → P s → P r.1 := by
  intro fuel
  induction fuel with
  | zero => intro s m r h; simp [_create_class_hierarchy] at h
  | succ fuel ih =>
    intro s m r h hP
    unfold _create_class_hierarchy at h
    split at h
    · cases h; exact hP
    · simp only [] at h
      have key : ∀ (res : Option (Runner × Option Nat)), (∀ q, res = some q → P q.1) →
          (match res with
            | none => none
            | some (s1, parent) =>
              some ({ (_create_class_item host s1 parent m.doc (!m.name)).1 with
                  class_items := HashMap.set
                    (_create_class_item host s1 parent m.doc (!m.name)).1.class_items m.doc.name
                    (some (_create_class_item host s1 parent m.doc (!m.name)).2) },
                some (_create_class_item host s1 parent m.doc (!m.name)).2)) = some r →
          P r.1 := by
        intro res hres hmatch
        cases res with
        | none => simp at hmatch
        | some q =>
          obtain ⟨s1, parent⟩ := q
          simp only [Option.some.injEq] at hmatch
          rw [← hmatch]
          apply hci
          obtain ⟨cells, hsel, hc⟩ := create_class_item_eq host s1 parent m.doc (!m.name)
          rw [hc]
          exact hadd _ _ _ hsel (hres _ rfl)
      apply key _ _ h
      intro q hq
      split at hq
      · split at hq
        · cases hq; exact hP
        · split at hq
          · exact ih _ _ _ hq hP
          · cases hq; exact hP
      · cases hq; exact hP

theorem phase_class_items_induct (host : Host) (P : Runner → Prop)
    (hadd : ∀ s p cells, cells.selected = false → P s → P (add_scored_row host s p cells))
    (hci : ∀ (s : Runner) ci, P s → P { s with class_items := ci })
    (hit : ∀ (s : Runner) it, P s → P { s with iterator_match := it })
    (s : Runner) (r : Runner × Bool) (h : _phase_class_items host s = some r) (hP : P s) :
    P r.1 := by
  unfold _phase_class_items at h
  split at h
  · cases h; exact hP
  · rename_i key m hent
    simp only [] at h
    split at h
    · simp at h
    · rename_i s2 hs2
      cases h
      apply hit
      split at hs2
      · split at hs2
        · cases hq : _create_class_hierarchy host (s.matches_.length + 1) s m with
          | none => rw [hq] at hs2; simp at hs2
          | some q =>
            rw [hq] at hs2
            simp only [Option.map_some', Option.some.injEq] at hs2
            rw [← hs2]
            exact create_class_hierarchy_induct host P hadd hci _ _ _ _ hq hP
        · cases hs2; exact hP
      · split at hs2
        · cases hs2
          obtain ⟨cells, hsel, hc⟩ := create_class_item_eq host s s.root_item m.doc true
          rw [hc]
          exact hadd _ _ _ hsel hP
        · cases hs2; exact hP


theorem add_scored_row_phase (host : Host) (s : Runner) (p : Option Nat) (cells : TreeItem) :
    (add_scored_row host s p cells).phase = s.phase := rfl

theorem node_classes_build_phase (s : Runner) (r : Runner × Bool)
    (h : _phase_node_classes_build s = some r) : r.1.phase = s.phase := by
  unfold _phase_node_classes_build at h
  split at h
  · cases h; rfl
  · simp only [] at h
    split at h
    · simp at h
    · cases h; rfl
    · cases h; rfl

theorem match_classes_phase (host : Host) (selector_ui : Selector) (s : Runner)
    (r : Runner × Bool) (h : _phase_match_classes host selector_ui s = some r) :
    r.1.phase = s.phase := by
  unfold _phase_match_classes at h
  split at h
  · simp at h
  · simp only [] at h
    cases h
    split <;> rfl

theorem match_classes_init_phase (host : Host) (selector_ui : Selector) (s : Runner) :
    (_phase_match_classes_init host selector_ui s).1.phase = s.phase := by
  unfold _phase_match_classes_init
  simp only []
  split
  · rfl
  · split <;> rfl

theorem select_match_phase (s : Runner) : (_phase_select_match s).1.phase = s.phase := by
  unfold _phase_select_match
  split <;> rfl

theorem phase_range (s : Runner) (c : Int) (hp : s.phase = c) (h0 : 0 ≤ c) (h9 : c ≤ 9) :
    PHASE_INIT ≤ s.phase ∧ s.phase < PHASE_MAX := by
  rw [hp]
  simp only [PHASE_INIT, PHASE_MAX]
  omega

/-- No phase handler writes the field `phase`, and handlers exist for the phases
before `PHASE_MAX` only. -/
theorem phase_handler_phase (host : Host) (selector_ui : Selector) (s : Runner)
    (r : Runner × Bool) (h : phase_handler host selector_ui s = some (some r)) :
    r.1.phase = s.phase ∧ PHASE_INIT ≤ s.phase ∧ s.phase < PHASE_MAX := by
  unfold phase_handler at h
  split at h
  · rename_i hp
    simp only [Option.some.injEq] at h
    subst h
    exact ⟨rfl, phase_range s _ hp (by decide) (by decide)⟩
  split at h
  · rename_i hp
    simp only [Option.some.injEq] at h
    subst h
    exact ⟨match_classes_init_phase _ _ _, phase_range s _ hp (by decide) (by decide)⟩
  split at h
  · rename_i hp
    simp only [Option.some.injEq] at h
    subst h
    exact ⟨rfl, phase_range s _ hp (by decide) (by decide)⟩
  split at h
  · rename_i hp
    simp only [Option.some.injEq] at h
    exact ⟨node_classes_build_phase _ _ h, phase_range s _ hp (by decide) (by decide)⟩
  split at h
  · rename_i hp
    simp only [Option.some.injEq] at h
    exact ⟨match_classes_phase _ _ _ _ h, phase_range s _ hp (by decide) (by decide)⟩
  split at h
  · rename_i hp
    simp only [Option.some.injEq] at h
    subst h
    exact ⟨rfl, phase_range s _ hp (by decide) (by decide)⟩
  split at h
  · rename_i hp
    simp only [Option.some.injEq] at h
    refine ⟨?_, phase_range s _ hp (by decide) (by decide)⟩
    exact phase_class_items_induct host (fun x => x.phase = s.phase)
      (fun _ _ _ _ hx => hx) (fun _ _ hx => hx) (fun _ _ hx => hx) s r h rfl
  split at h
  · rename_i hp
    simp only [Option.some.injEq] at h
    subst h
    exact ⟨rfl, phase_range s _ hp (by decide) (by decide)⟩
  split at h
  · rename_i hp
    simp only [Option.some.injEq] at h
    subst h
    refine ⟨?_, phase_range s _ hp (by decide) (by decide)⟩
    exact phase_member_items_induct host (fun x => x.phase = s.phase)
      (fun _ _ _ _ hx => hx) (fun _ _ hx => hx) (fun _ _ hx => hx) s rfl
  split at h
  · rename_i hp
    simp only [Option.some.injEq] at h
    subst h
    exact ⟨select_match_phase _, phase_range s _ hp (by decide) (by decide)⟩
  · simp at h

theorem phase_handler_none (host : Host) (selector_ui : Selector) (s : Runner)
    (h : phase_handler host selector_ui s = none) :
    s.phase < PHASE_INIT ∨ PHASE_MAX ≤ s.phase := by
  unfold phase_handler at h
  repeat' split at h
  all_goals first
    | (simp at h; done)
    | skip
  rename_i h0 h1 h2 h3 h4 h5 h6 h7 h8 h9
  simp only [PHASE_INIT, PHASE_MATCH_CLASSES_INIT, PHASE_NODE_CLASSES_INIT,
    PHASE_NODE_CLASSES_BUILD, PHASE_MATCH_CLASSES, PHASE_CLASS_ITEMS_INIT, PHASE_CLASS_ITEMS,
    PHASE_MEMBER_ITEMS_INIT, PHASE_MEMBER_ITEMS, PHASE_SELECT_MATCH, PHASE_MAX] at *
  omega

/-- What one call of `_slice` does to the phase. -/
theorem slice_phase (host : Host) (selector_ui : Selector) (s s1 : Runner) (r : Bool)
    (h : _slice host selector_ui s = some (s1, r)) :
    (r = true → s1 = s ∧ (s.phase < PHASE_INIT ∨ PHASE_MAX ≤ s.phase)) ∧
    (r = false → PHASE_INIT ≤ s.phase ∧ s.phase < PHASE_MAX ∧
      (s1.phase = s.phase ∨ s1.phase = s.phase + 1)) := by
  unfold _slice at h
  split at h
  · rename_i hn
    simp only [Option.some.injEq, Prod.mk.injEq] at h
    obtain ⟨h1, h2⟩ := h
    subst h1; subst h2
    exact ⟨fun _ => ⟨rfl, phase_handler_none _ _ _ hn⟩, fun hf => by simp at hf⟩
  · simp at h
  · rename_i s2 done hh
    simp only [Option.some.injEq, Prod.mk.injEq] at h
    obtain ⟨h1, h2⟩ := h
    subst h2
    obtain ⟨hp, hlo, hhi⟩ := phase_handler_phase host selector_ui s (s2, done) hh
    refine ⟨fun hf => by simp at hf, fun _ => ⟨hlo, hhi, ?_⟩⟩
    rw [← h1]
    cases done
    · left; exact hp
    · right; simp only [if_true]; show s2.phase + 1 = s.phase + 1; rw [hp]

/-- A property kept by every slice holds after any number of slices. -/
theorem slices_invariant (host : Host) (selector_ui : Selector) (I : Runner → Prop)
    (hstep : ∀ s s1 r, I s → _slice host selector_ui s = some (s1, r) → I s1) :
    ∀ (n : Nat) (s0 s : Runner), I s0 → slices host selector_ui n s0 = some s → I s := by
  intro n
  induction n with
  | zero => intro s0 s h0 h; simp only [slices, Option.some.injEq] at h; rw [← h]; exact h0
  | succ n ih =>
    intro s0 s h0 h
    unfold slices at h
    split at h
    · simp at h
    · rename_i s1 r hs
      exact ih s1 s (hstep s0 s1 r h0 hs) h

/-- C17. In every state reached by calls of `_slice` from a state of phase
`PHASE_INIT`, the phase lies between `PHASE_INIT` and `PHASE_MAX` (so the default
branch of the `switch` is not taken); a further call leaves the phase as it is or
adds one to it, keeps it up to `PHASE_MAX`, and returns true only at
`PHASE_MAX`. -/
theorem phase_invariant (host : Host) (selector_ui : Selector) (s0 : Runner)
    (h0 : s0.phase = PHASE_INIT) (n : Nat) (s : Runner)
    (hreach : slices host selector_ui n s0 = some s) :
    (PHASE_INIT ≤ s.phase ∧ s.phase ≤ PHASE_MAX) ∧
    ∀ s1 r, _slice host selector_ui s = some (s1, r) →
      (s1.phase = s.phase ∨ s1.phase = s.phase + 1) ∧ s1.phase ≤ PHASE_MAX ∧
      (r = true → s.phase = PHASE_MAX) := by
  have hinv : PHASE_INIT ≤ s.phase ∧ s.phase ≤ PHASE_MAX := by
    refine slices_invariant host selector_ui (fun x => PHASE_INIT ≤ x.phase ∧ x.phase ≤ PHASE_MAX)
      ?_ n s0 s ?_ hreach
    · intro x x1 r hx hs
      obtain ⟨ht, hf⟩ := slice_phase host selector_ui x x1 r hs
      cases r
      · obtain ⟨hlo, hhi, hor⟩ := hf rfl
        simp only [PHASE_INIT, PHASE_MAX] at *
        rcases hor with h | h <;> omega
      · obtain ⟨he, _⟩ := ht rfl
        rw [he]; exact hx
    · show PHASE_INIT ≤ s0.phase ∧ s0.phase ≤ PHASE_MAX
      rw [h0]; decide
  refine ⟨hinv, ?_⟩
  intro s1 r hs
  obtain ⟨ht, hf⟩ := slice_phase host selector_ui s s1 r hs
  cases r
  · obtain ⟨hlo, hhi, hor⟩ := hf rfl
    refine ⟨hor, ?_, fun h => by simp at h⟩
    simp only [PHASE_INIT, PHASE_MAX] at *
    rcases hor with h | h <;> omega
  · obtain ⟨he, hout⟩ := ht rfl
    refine ⟨Or.inl (by rw [he]), by rw [he]; exact hinv.2, fun _ => ?_⟩
    simp only [PHASE_INIT, PHASE_MAX] at *
    omega

theorem phase_invariant_witness :
    (PHASE_INIT ≤ (Example.fresh Example.selector).phase ∧
      (Example.fresh Example.selector).phase ≤ PHASE_MAX) ∧
    ∀ s1 r, _slice Example.host Example.selector (Example.fresh Example.selector) =
        some (s1, r) →
      (s1.phase = (Example.fresh Example.selector).phase ∨
        s1.phase = (Example.fresh Example.selector).phase + 1) ∧
      s1.phase ≤ PHASE_MAX ∧
      (r = true → (Example.fresh Example.selector).phase = PHASE_MAX) :=
  phase_invariant Example.host Example.selector (Example.fresh Example.selector) rfl 0
    (Example.fresh Example.selector) rfl

/-! ## Required matches and scores -/

/-- C11, as amended. `ClassMatch::required()` holds exactly when the class name
matched or one of the filtered lists of methods, signals, constants, properties
and theme items is non-empty; the list of operators (like the list of
constructors) is not consulted. -/
theorem required_iff (m : ClassMatch) :
    m.required = true ↔
      (m.name = true ∨ m.methods ≠ [] ∨ m.signals ≠ [] ∨ m.constants ≠ [] ∨
        m.properties ≠ [] ∨ m.theme_properties ≠ []) := by
  simp [ClassMatch.required, or_assoc]

/-- C11 as stated fails: the match record of `Vec` for the empty term has a matched
operator and an unmatched name, and `required()` is false. -/
theorem required_ignores_operators :
    Example.vector_match.name = false ∧ Example.vector_match.operators ≠ [] ∧
    Example.vector_match.required = false := by
  decide

theorem findn_xxxadd (host : Host) (hxa : host.find_lower 'x' ≠ host.find_lower 'a') :
    findn host.find_lower (lit "xxxadd") (lit "add") = 3 := by
  have e1 : lit "xxxadd" = ['x', 'x', 'x', 'a', 'd', 'd'] := rfl
  have e2 : lit "add" = ['a', 'd', 'd'] := rfl
  have hax : ¬ host.find_lower 'a' = host.find_lower 'x' := fun e => hxa e.symm
  rw [e1, e2]
  simp [findn, find, to_lower, find_loop, hax]

/-- C15. With term `add`, over exact rationals and a case table that tells `x` from
`a`, the scores of the names `add`, `addition` and `xxxadd` are 1, 15/16 and
19/40: each is greater than the next. -/
theorem score_example_add (host : Host)
    (hxa : host.find_lower 'x' ≠ host.find_lower 'a') :
    item_score host (lit "add") (lit "add") = Score.finite 1 ∧
    item_score host (lit "add") (lit "addition") = Score.finite (15 / 16) ∧
    item_score host (lit "add") (lit "xxxadd") = Score.finite (19 / 40) ∧
    Score.gt (item_score host (lit "add") (lit "add"))
      (item_score host (lit "add") (lit "addition")) = true ∧
    Score.gt (item_score host (lit "add") (lit "addition"))
      (item_score host (lit "add") (lit "xxxadd")) = true := by
  have p1 : findn host.find_lower (lit "add") (lit "add") = 0 := by
    have e2 : lit "add" = ['a', 'd', 'd'] := rfl
    rw [e2]; simp [findn, find, to_lower, find_loop]
  have p2 : findn host.find_lower (lit "addition") (lit "add") = 0 := by
    have e1 : lit "addition" = ['a', 'd', 'd', 'i', 't', 'i', 'o', 'n'] := rfl
    have e2 : lit "add" = ['a', 'd', 'd'] := rfl
    rw [e1, e2]; simp [findn, find, to_lower, find_loop]
  have p3 := findn_xxxadd host hxa
  have l1 : (lit "add").length = 3 := rfl
  have l2 : (lit "addition").length = 8 := rfl
  have l3 : (lit "xxxadd").length = 6 := rfl
  have s1 : item_score host (lit "add") (lit "add") = Score.finite 1 := by
    simp only [item_score, p1, l1]; norm_num
  have s2 : item_score host (lit "add") (lit "addition") = Score.finite (15 / 16) := by
    simp only [item_score, p2, l1, l2]; norm_num
  have s3 : item_score host (lit "add") (lit "xxxadd") = Score.finite (19 / 40) := by
    simp only [item_score, p3, l1, l3]; norm_num
  refine ⟨s1, s2, s3, ?_, ?_⟩
  · rw [s1, s2]; simp [Score.gt]; norm_num
  · rw [s2, s3]; simp [Score.gt]; norm_num

theorem score_example_add_witness :
    Score.gt (item_score Example.host (lit "add") (lit "add"))
      (item_score Example.host (lit "add") (lit "addition")) = true ∧
    Score.gt (item_score Example.host (lit "add") (lit "addition"))
      (item_score Example.host (lit "add") (lit "xxxadd")) = true :=
  let h := score_example_add Example.host (by decide)
  ⟨h.2.2.2.1, h.2.2.2.2⟩

/-! ## Parents of member rows -/

theorem create_member_item_parent (host : Host) (s : Runner) (p : Nat)
    (p_class_name p_icon p_name p_text p_type p_metatype p_tooltip p_description : Str) :
    ∃ row,
      (_create_member_item host s (some p) p_class_name p_icon p_name p_text p_type p_metatype
        p_tooltip p_description).1.results_tree.items = s.results_tree.items ++ [row] ∧
      row.parent = some p :=
  ⟨_, rfl, rfl⟩

theorem foldl_rows_of {α : Type} (Q : TreeItem → Prop) (f : Runner → α → Runner)
    (hf : ∀ r d, ∃ row, (f r d).results_tree.items = r.results_tree.items ++ [row] ∧ Q row) :
    ∀ (l : List α) (s : Runner),
      ∃ rows, (l.foldl f s).results_tree.items = s.results_tree.items ++ rows ∧
        ∀ row ∈ rows, Q row := by
  intro l
  induction l with
  | nil => intro s; exact ⟨[], by simp, by simp⟩
  | cons d rest ih =>
    intro s
    obtain ⟨row, g1, g2⟩ := hf s d
    obtain ⟨rows, h1, h2⟩ := ih (f s d)
    refine ⟨row :: rows, ?_, ?_⟩
    · rw [List.foldl_cons, h1, g1]; simp
    · intro r hr
      rcases List.mem_cons.mp hr with h | h
      · rw [h]; exact g2
      · exact h2 r h

theorem member_methods_loop_parent (host : Host) (p : Nat) (doc : ClassDoc) :
    ∀ (l : List MethodDoc) (cc : Bool) (s : Runner),
      ∃ rows, (member_methods_loop host (some p) doc l cc s).results_tree.items =
          s.results_tree.items ++ rows ∧ ∀ row ∈ rows, row.parent = some p := by
  intro l
  induction l with
  | nil => intro cc s; exact ⟨[], by simp [member_methods_loop], by simp⟩
  | cons d rest ih =>
    intro cc s
    unfold member_methods_loop
    simp only []
    split
    · exact ih _ s
    · obtain ⟨rows, h1, h2⟩ := ih (if (!cc && decide (doc.name = d.name)) = true then true else cc)
        (_create_method_item host s (some p) doc
          (if (!cc && decide (doc.name = d.name)) = true then
            d.name ++ (lit " " ++ TTR (lit "(constructors)")) else d.name) d).1
      obtain ⟨row, g1, g2⟩ := create_member_item_parent host s p doc.name (lit "MemberMethod")
        d.name (if (!cc && decide (doc.name = d.name)) = true then
            d.name ++ (lit " " ++ TTR (lit "(constructors)")) else d.name)
        (lit "Method") (lit "method") (method_tooltip doc d) d.description
      refine ⟨row :: rows, ?_, ?_⟩
      · rw [h1]; unfold _create_method_item; rw [g1]; simp
      · intro r hr
        rcases List.mem_cons.mp hr with h | h
        · rw [h]; exact g2
        · exact h2 r h

/-- The member rows of one match all hang under the parent chosen at the top of
`_phase_member_items`. -/
theorem phase_member_items_parent (host : Host) (s : Runner) (key : Str) (m : ClassMatch)
    (hent : HashMap.entry s.matches_ s.iterator_match = some (key, m)) (p : Nat)
    (hp : (if flag_set s.search_flags SEARCH_SHOW_HIERARCHY = true then
      (HashMap.index s.class_items m.doc.name none).2 else s.root_item) = some p) :
    ∃ rows, (_phase_member_items host s).1.results_tree.items = s.results_tree.items ++ rows ∧
      ∀ row ∈ rows, row.parent = some p := by
  unfold _phase_member_items
  rw [hent]
  simp only []
  rw [hp]
  generalize hs0 : (if flag_set s.search_flags SEARCH_SHOW_HIERARCHY = true then
      ({ s with class_items := (HashMap.index s.class_items m.doc.name none).1 } : Runner)
      else s) = s0
  have hs0_items : s0.results_tree.items = s.results_tree.items := by
    rw [← hs0]; split <;> rfl
  obtain ⟨r1, a1, a2⟩ := member_methods_loop_parent host p m.doc m.methods false s0
  obtain ⟨r2, b1, b2⟩ := foldl_rows_of (fun row => row.parent = some p)
    (fun r d => (_create_signal_item host r (some p) m.doc d).1)
    (fun r d => create_member_item_parent host r p _ _ _ _ _ _ _ _) m.signals
    (member_methods_loop host (some p) m.doc m.methods false s0)
  obtain ⟨r3, c1, c2⟩ := foldl_rows_of (fun row => row.parent = some p)
    (fun r d => (_create_constant_item host r (some p) m.doc d).1)
    (fun r d => create_member_item_parent host r p _ _ _ _ _ _ _ _) m.constants _
  obtain ⟨r4, d1, d2⟩ := foldl_rows_of (fun row => row.parent = some p)
    (fun r d => (_create_property_item host r (some p) m.doc d).1)
    (fun r d => create_member_item_parent host r p _ _ _ _ _ _ _ _) m.properties _
  obtain ⟨r5, e1, e2⟩ := foldl_rows_of (fun row => row.parent = some p)
    (fun r d => (_create_theme_property_item host r (some p) m.doc d).1)
    (fun r d => create_member_item_parent host r p _ _ _ _ _ _ _ _) m.theme_properties _
  refine ⟨r1 ++ r2 ++ r3 ++ r4 ++ r5, ?_, ?_⟩
  · show (List.foldl (fun r d => (_create_theme_property_item host r (some p) m.doc d).1) _
      m.theme_properties).results_tree.items = _
    rw [e1, d1, c1, b1, a1, hs0_items]
    simp
  · intro row hrow
    simp only [List.mem_append] at hrow
    rcases hrow with (((h | h) | h) | h) | h
    · exact a2 row h
    · exact b2 row h
    · exact c2 row h
    · exact d2 row h
    · exact e2 row h

/-- The rows `_phase_member_items` creates are appended to the tree. -/
theorem phase_member_items_appends (host : Host) (s : Runner) :
    ∃ rows, (_phase_member_items host s).1.results_tree.items = s.results_tree.items ++ rows := by
  refine phase_member_items_induct host
    (fun x => ∃ rows, x.results_tree.items = s.results_tree.items ++ rows) ?_
    (fun x ci hx => hx) (fun x it hx => hx) s ⟨[], by simp⟩
  intro x q cells _ hx
  obtain ⟨rows, hx⟩ := hx
  obtain ⟨row, g1, _⟩ := ResultsTree.create_item_items x.results_tree q cells
  refine ⟨rows ++ [row], ?_⟩
  show (x.results_tree.create_item q cells).1.items = _
  rw [g1, hx, List.append_assoc]

/-- C13, as amended. The member rows `_phase_member_items` creates for a match hang,
in hierarchy mode, under the item `class_items` holds for the class of the match
and, in flat mode, under the root item (not under the class row). -/
theorem member_rows_parent_by_mode (host : Host) (s : Runner) (key : Str) (m : ClassMatch)
    (hent : HashMap.entry s.matches_ s.iterator_match = some (key, m)) :
    ∃ rows, (_phase_member_items host s).1.results_tree.items = s.results_tree.items ++ rows ∧
      (Int.land s.search_flags SEARCH_SHOW_HIERARCHY ≠ 0 →
        ∀ c, HashMap.get? s.class_items m.doc.name = some (some c) →
          ∀ row ∈ rows, row.parent = some c) ∧
      (Int.land s.search_flags SEARCH_SHOW_HIERARCHY = 0 →
        ∀ p, s.root_item = some p → ∀ row ∈ rows, row.parent = some p) := by
  obtain ⟨rows, h1⟩ := phase_member_items_appends host s
  refine ⟨rows, h1, ?_, ?_⟩
  · intro hflag c hc
    have hf : flag_set s.search_flags SEARCH_SHOW_HIERARCHY = true := by
      simp [flag_set, hflag]
    obtain ⟨rows2, g1, g2⟩ := phase_member_items_parent host s key m hent c (by
      rw [hf]; simp [HashMap.index, hc])
    have : rows = rows2 := List.append_cancel_left (h1.symm.trans g1)
    rw [this]; exact g2
  · intro hflag p hp
    have hf : flag_set s.search_flags SEARCH_SHOW_HIERARCHY = false := by
      simp [flag_set, hflag]
    obtain ⟨rows2, g1, g2⟩ := phase_member_items_parent host s key m hent p (by
      rw [hf]; simpa using hp)
    have : rows = rows2 := List.append_cancel_left (h1.symm.trans g1)
    rw [this]; exact g2

theorem member_rows_parent_by_mode_witness :
    ∃ rows,
      (_phase_member_items Example.host (Example.listing_foo Example.all_kinds)).1.results_tree.items =
        (Example.listing_foo Example.all_kinds).results_tree.items ++ rows ∧
      ∀ row ∈ rows, row.parent = some 0 := by
  obtain ⟨rows, h1, _, h3⟩ := member_rows_parent_by_mode Example.host
    (Example.listing_foo Example.all_kinds) (lit "Foo") Example.foo_match rfl
  exact ⟨rows, h1, h3 (by decide) 0 rfl⟩

/-- C13 as stated fails in flat mode: after the class items and member items phases
of a search over the class `Foo`, the class row of `Foo` is row 1 and the member
rows of `Foo` are children of row 0, the root. -/
theorem flat_member_rows_hang_under_root :
    (slices Example.host_foo Example.flat_all 15 (Example.fresh Example.flat_all)).map
      (fun s => (s.phase, s.results_tree.items.map
        (fun r => (r.metadata0, r.metadata1, r.parent)))) =
      some (PHASE_SELECT_MATCH,
        [([], [], none), (lit "Foo", lit "Class", some 0),
          (lit "functions", lit "Class", some 0), (lit "operators", lit "Class", some 0),
          (lit "Foo:bar", lit "class_method", some 0),
          (lit "Foo:get_baz", lit "class_method", some 0),
          (lit "Foo:changed", lit "class_signal", some 0),
          (lit "Foo:MAX", lit "class_constant", some 0),
          (lit "Foo:baz", lit "class_property", some 0),
          (lit "Foo:font", lit "class_theme_item", some 0)]) := by
  rfl

/-! ## Slices of the class items phase in flat mode -/

theorem slices_add (host : Host) (selector_ui : Selector) :
    ∀ (a b : Nat) (s : Runner),
      slices host selector_ui (a + b) s =
        (slices host selector_ui a s).bind (slices host selector_ui b) := by
  intro a
  induction a with
  | zero => intro b s; simp [slices]
  | succ a ih =>
    intro b s
    rw [Nat.succ_add]
    cases h : _slice host selector_ui s with
    | none => simp [slices, h]
    | some r =>
      obtain ⟨s1, b1⟩ := r
      simp [slices, h, ih]

theorem slices_one (host : Host) (selector_ui : Selector) (s s1 : Runner) (r : Bool)
    (h : _slice host selector_ui s = some (s1, r)) : slices host selector_ui 1 s = some s1 := by
  simp [slices, h]

theorem slices_succ (host : Host) (selector_ui : Selector) (n : Nat) (s s1 s2 : Runner) (r : Bool)
    (h : _slice host selector_ui s = some (s1, r))
    (h2 : slices host selector_ui n s1 = some s2) :
    slices host selector_ui (n + 1) s = some s2 := by
  simp [slices, h, h2]

/-- The value of `_slice` in terms of the handler's outcome. -/
theorem slice_of_handler (host : Host) (selector_ui : Selector) (s s1 : Runner) (done : Bool)
    (h : phase_handler host selector_ui s = some (some (s1, done))) :
    _slice host selector_ui s =
      some (if done then { s1 with phase := s1.phase + 1 } else s1, false) := by
  simp [_slice, h]

theorem handler_class_items_init (host : Host) (selector_ui : Selector) (s : Runner)
    (hp : s.phase = PHASE_CLASS_ITEMS_INIT) :
    phase_handler host selector_ui s = some (some (_phase_class_items_init s)) := by
  simp [phase_handler, hp, PHASE_INIT, PHASE_MATCH_CLASSES_INIT, PHASE_NODE_CLASSES_INIT,
    PHASE_NODE_CLASSES_BUILD, PHASE_MATCH_CLASSES, PHASE_CLASS_ITEMS_INIT]

theorem handler_class_items (host : Host) (selector_ui : Selector) (s : Runner)
    (hp : s.phase = PHASE_CLASS_ITEMS) :
    phase_handler host selector_ui s = some (_phase_class_items host s) := by
  simp [phase_handler, hp, PHASE_INIT, PHASE_MATCH_CLASSES_INIT, PHASE_NODE_CLASSES_INIT,
    PHASE_NODE_CLASSES_BUILD, PHASE_MATCH_CLASSES, PHASE_CLASS_ITEMS_INIT, PHASE_CLASS_ITEMS]

/-- The outcome of `_phase_class_items` in flat mode. -/
theorem phase_class_items_flat (host : Host) (s : Runner) (key : Str) (m : ClassMatch)
    (hflat : flag_set s.search_flags SEARCH_SHOW_HIERARCHY = false)
    (hentry : HashMap.entry s.matches_ s.iterator_match = some (key, m)) :
    _phase_class_items host s =
      some ({ (if m.name = true then (_create_class_item host s s.root_item m.doc true).1
                else s) with iterator_match := HashMap.next s.matches_ s.iterator_match },
        (HashMap.next s.matches_ s.iterator_match).isNone) := by
  unfold _phase_class_items
  rw [hentry]
  simp only [hflat]
  cases m.name <;> simp

/-- One slice of the class items phase in flat mode. -/
theorem flat_class_slice (host : Host) (selector_ui : Selector) (s : Runner) (i p : Nat)
    (key : Str) (m : ClassMatch)
    (hp : s.phase = PHASE_CLASS_ITEMS)
    (hflat : flag_set s.search_flags SEARCH_SHOW_HIERARCHY = false)
    (hroot : s.root_item = some p)
    (hit : s.iterator_match = some i)
    (hent : List.get? s.matches_ i = some (key, m)) :
    ∃ s1, _slice host selector_ui s = some (s1, false) ∧
      s1.matches_ = s.matches_ ∧ s1.search_flags = s.search_flags ∧ s1.root_item = s.root_item ∧
      s1.iterator_match = HashMap.next s.matches_ (some i) ∧
      s1.phase = (if i + 1 < s.matches_.length then PHASE_CLASS_ITEMS
        else PHASE_MEMBER_ITEMS_INIT) ∧
      ∃ rows, s1.results_tree.items = s.results_tree.items ++ rows ∧
        s1.results_tree.root = s.results_tree.root ∧
        rows.map (fun r => (r.metadata0, r.metadata1, r.parent)) =
          ([(key, m)].filter (fun e => e.2.name)).map
            (fun e => (e.2.doc.name, lit "Class", some p)) := by
  have hentry : HashMap.entry s.matches_ s.iterator_match = some (key, m) := by
    rw [hit]; exact hent
  have hh := handler_class_items host selector_ui s hp
  rw [phase_class_items_flat host s key m hflat hentry] at hh
  have hsl := slice_of_handler host selector_ui s _ _ hh
  rw [hit] at hsl
  refine ⟨_, hsl, ?_⟩
  have hph7 : s.phase + 1 = PHASE_MEMBER_ITEMS_INIT := by rw [hp]; rfl
  by_cases hlt : i + 1 < s.matches_.length
  · have hnx : HashMap.next s.matches_ (some i) = some (i + 1) := by simp [HashMap.next, hlt]
    rw [hnx]
    rw [if_pos hlt]
    cases hn : m.name
    · exact ⟨rfl, rfl, rfl, rfl, hp, [], by simp, rfl, by simp [hn]⟩
    · refine ⟨rfl, rfl, rfl, rfl, hp, ?_⟩
      rw [hroot]
      exact ⟨_, rfl, rfl, by simp [hn]⟩
  · have hnx : HashMap.next s.matches_ (some i) = none := by simp [HashMap.next, hlt]
    rw [hnx]
    rw [if_neg hlt]
    cases hn : m.name
    · exact ⟨rfl, rfl, rfl, rfl, hph7, [], by simp, rfl, by simp [hn]⟩
    · refine ⟨rfl, rfl, rfl, rfl, hph7, ?_⟩
      rw [hroot]
      exact ⟨_, rfl, rfl, by simp [hn]⟩

theorem flat_class_loop (host : Host) (selector_ui : Selector) (p : Nat) :
    ∀ (k : Nat) (s : Runner) (i : Nat), i + k + 1 = s.matches_.length →
      s.phase = PHASE_CLASS_ITEMS →
      flag_set s.search_flags SEARCH_SHOW_HIERARCHY = false →
      s.root_item = some p → s.iterator_match = some i →
      ∃ n s1, slices host selector_ui n s = some s1 ∧ s1.phase = PHASE_MEMBER_ITEMS_INIT ∧
        ∃ rows, s1.results_tree.items = s.results_tree.items ++ rows ∧
          s1.results_tree.root = s.results_tree.root ∧
          rows.map (fun r => (r.metadata0, r.metadata1, r.parent)) =
            ((s.matches_.drop i).filter (fun e => e.2.name)).map
              (fun e => (e.2.doc.name, lit "Class", some p)) := by
  intro k
  induction k with
  | zero =>
    intro s i hlen hp hflat hroot hit
    have hi : i < s.matches_.length := by omega
    have hent : List.get? s.matches_ i = some (s.matches_.get ⟨i, hi⟩) := List.get?_eq_get hi
    obtain ⟨s1, hsl, _, _, _, _, hph, rows, hrows, hrt, hkey⟩ :=
      flat_class_slice host selector_ui s i p _ _ hp hflat hroot hit hent
    have hnlt : ¬ i + 1 < s.matches_.length := by omega
    rw [if_neg hnlt] at hph
    refine ⟨1, s1, slices_one host selector_ui s s1 false hsl, hph, rows, hrows, hrt, ?_⟩
    rw [hkey]
    have hdrop : s.matches_.drop i = [s.matches_.get ⟨i, hi⟩] := by
      rw [List.drop_eq_getElem_cons hi]
      have : s.matches_.drop (i + 1) = [] := List.drop_eq_nil_of_le (by omega)
      rw [this]; rfl
    rw [hdrop]
  | succ k ih =>
    intro s i hlen hp hflat hroot hit
    have hi : i < s.matches_.length := by omega
    have hent : List.get? s.matches_ i = some (s.matches_.get ⟨i, hi⟩) := List.get?_eq_get hi
    obtain ⟨s1, hsl, hm, hfl, hro, hnx, hph, rows, hrows, hrt, hkey⟩ :=
      flat_class_slice host selector_ui s i p _ _ hp hflat hroot hit hent
    have hlt : i + 1 < s.matches_.length := by omega
    rw [if_pos hlt] at hph
    have hnx2 : s1.iterator_match = some (i + 1) := by rw [hnx]; simp [HashMap.next, hlt]
    obtain ⟨n, s2, hn, hph2, rows2, hrows2, hrt2, hkey2⟩ := ih s1 (i + 1)
      (by rw [hm]; omega) hph (by rw [hfl]; exact hflat) (by rw [hro]; exact hroot) hnx2
    refine ⟨n + 1, s2, slices_succ host selector_ui n s s1 s2 false hsl hn, hph2,
      rows ++ rows2, ?_, by rw [hrt2, hrt], ?_⟩
    · rw [hrows2, hrows]; simp
    · rw [List.map_append, hkey, hkey2, hm]
      have hdrop : s.matches_.drop i = s.matches_.get ⟨i, hi⟩ :: s.matches_.drop (i + 1) := by
        rw [List.drop_eq_getElem_cons hi]; rfl
      rw [hdrop]
      generalize s.matches_.get ⟨i, hi⟩ = e
      cases hn : e.2.name <;> simp [List.filter_cons, hn]

/-- C14. With `SEARCH_SHOW_HIERARCHY` off, the class items phase (its init slice and
the slices of `_phase_class_items`) leaves a tree made of the root and, in the
order of the match map, one class row for each match whose name matched and none
for the others, every one a child of the root. -/
theorem flat_mode_class_rows (host : Host) (selector_ui : Selector) (s : Runner)
    (hp : s.phase = PHASE_CLASS_ITEMS_INIT)
    (hflat : Int.land s.search_flags SEARCH_SHOW_HIERARCHY = 0) :
    ∃ n s1 rows, slices host selector_ui n s = some s1 ∧
      s1.phase = PHASE_MEMBER_ITEMS_INIT ∧
      s1.results_tree.items = TreeItem.blank :: rows ∧
      s1.results_tree.root = some 0 ∧
      rows.map (fun r => (r.metadata0, r.metadata1, r.parent)) =
        (s.matches_.filter (fun e => e.2.name)).map
          (fun e => (e.2.doc.name, lit "Class", some 0)) := by
  have hf : flag_set s.search_flags SEARCH_SHOW_HIERARCHY = false := by
    simp [flag_set, hflat]
  have hh := handler_class_items_init host selector_ui s hp
  have hsl := slice_of_handler host selector_ui s _ _ hh
  simp only [_phase_class_items_init, if_true] at hsl
  generalize hs1 : ({ ({ s with
      results_tree := (s.results_tree.clear.create_item none TreeItem.blank).1
      iterator_match := HashMap.begin s.matches_
      root_item := some (s.results_tree.clear.create_item none TreeItem.blank).2
      class_items := [] } : Runner) with phase := s.phase + 1 } : Runner) = s1 at hsl
  have h1p : s1.phase = PHASE_CLASS_ITEMS := by rw [← hs1]; show s.phase + 1 = _; rw [hp]; rfl
  have h1f : s1.search_flags = s.search_flags := by rw [← hs1]
  have h1m : s1.matches_ = s.matches_ := by rw [← hs1]
  have h1r : s1.root_item = some 0 := by rw [← hs1]; rfl
  have h1t : s1.results_tree = { items := [TreeItem.blank], root := some 0 } := by
    rw [← hs1]; rfl
  have h1i : s1.iterator_match = HashMap.begin s.matches_ := by rw [← hs1]
  cases hM : s.matches_ with
  | nil =>
    have hent : HashMap.entry s1.matches_ s1.iterator_match = none := by
      rw [h1i, hM]; rfl
    have hci : _phase_class_items host s1 = some (s1, true) := by
      unfold _phase_class_items; rw [hent]
    have hh2 := handler_class_items host selector_ui s1 h1p
    rw [hci] at hh2
    have hsl2 := slice_of_handler host selector_ui s1 _ _ hh2
    refine ⟨2, _, [], slices_succ host selector_ui 1 s s1 _ false hsl
      (slices_one host selector_ui s1 _ false hsl2), ?_, ?_, ?_, by simp⟩
    · show s1.phase + 1 = _; rw [h1p]; rfl
    · show s1.results_tree.items = _; rw [h1t]
    · show s1.results_tree.root = _; rw [h1t]
  | cons e rest =>
    have hbegin : s1.iterator_match = some 0 := by rw [h1i, hM]; rfl
    obtain ⟨n, s2, hn, hph2, rows, hrows, hrt, hkey⟩ :=
      flat_class_loop host selector_ui 0 rest.length s1 0
        (by rw [h1m, hM]; simp) h1p (by rw [h1f]; exact hf) h1r hbegin
    refine ⟨n + 1, s2, rows, slices_succ host selector_ui n s s1 s2 false hsl hn, hph2, ?_, ?_, ?_⟩
    · rw [hrows, h1t]; rfl
    · rw [hrt, h1t]
    · rw [hkey, h1m, hM]; rfl

theorem flat_mode_class_rows_witness :
    ∃ n s1 rows,
      slices Example.host Example.selector n (Example.class_listing Example.all_kinds) =
        some s1 ∧
      s1.results_tree.items = TreeItem.blank :: rows ∧
      rows.map (fun r => (r.metadata0, r.metadata1, r.parent)) =
        [(lit "Foo", lit "Class", some 0)] := by
  obtain ⟨n, s1, rows, h1, _, h2, _, h3⟩ := flat_mode_class_rows Example.host Example.selector
    (Example.class_listing Example.all_kinds) rfl (by decide)
  refine ⟨n, s1, rows, h1, h2, ?_⟩
  rw [h3]
  decide

/-! ## The empty catalog -/

/-- C20. Evaluation at the failing input: with an empty class list, four slices
bring the runner to `PHASE_MATCH_CLASSES` with the two bucket docs in
`combined_docs` and `iterator_doc` still the invalid iterator taken from the
empty map; the fifth slice dereferences it and yields no state. -/
theorem empty_catalog_run_stops_at_match_classes :
    Example.host.class_list = [] ∧
    (slices Example.host Example.selector 4 (Example.fresh Example.selector)).map
      (fun s => (s.phase, s.combined_docs.map Prod.fst, s.iterator_doc)) =
      some (PHASE_MATCH_CLASSES, [lit "functions", lit "operators"], none) ∧
    (slices Example.host Example.selector 5 (Example.fresh Example.selector)).isSome = false := by
  refine ⟨rfl, ?_, ?_⟩
  · rfl
  · rfl

/-! ## Budgets and clocks -/

theorem false_slices_add (host : Host) (selector_ui : Selector) :
    ∀ (a b : Nat) (s s1 s2 : Runner), false_slices host selector_ui a s = some s1 →
      false_slices host selector_ui b s1 = some s2 →
      false_slices host selector_ui (a + b) s = some s2 := by
  intro a
  induction a with
  | zero =>
    intro b s s1 s2 h1 h2
    simp only [false_slices, Option.some.injEq] at h1
    subst h1
    simpa using h2
  | succ a ih =>
    intro b s s1 s2 h1 h2
    rw [Nat.succ_add]
    unfold false_slices at h1 ⊢
    split at h1
    · rename_i x hs
      exact ih b x s1 s2 h1 h2
    · simp at h1

theorem false_slices_slices (host : Host) (selector_ui : Selector) :
    ∀ (n : Nat) (s s1 : Runner), false_slices host selector_ui n s = some s1 →
      slices host selector_ui n s = some s1 := by
  intro n
  induction n with
  | zero => intro s s1 h; simpa [false_slices, slices] using h
  | succ n ih =>
    intro s s1 h
    unfold false_slices at h
    split at h
    · rename_i x hs
      unfold slices
      rw [hs]
      exact ih x s1 h
    · simp at h

/-- A slice that returns true leaves the state as it is. -/
theorem slice_true_state (host : Host) (selector_ui : Selector) (s s1 : Runner)
    (h : _slice host selector_ui s = some (s1, true)) : s1 = s :=
  ((slice_phase host selector_ui s s1 true h).1 rfl).1

/-- What a run of the loop of `work` amounts to in slices. -/
theorem work_loop_slices (host : Host) (selector_ui : Selector) (ticks : Nat → Nat)
    (until_ : Nat) :
    ∀ (fuel reads : Nat) (s s1 : Runner) (reads1 : Nat) (b : Bool),
      work_loop host selector_ui ticks until_ fuel reads s = some (s1, reads1, b) →
      ∃ n, false_slices host selector_ui n s = some s1 ∧
        (b = true → _slice host selector_ui s1 = some (s1, true)) ∧
        (b = false → 1 ≤ n) := by
  intro fuel
  induction fuel with
  | zero => intro reads s s1 reads1 b h; simp [work_loop] at h
  | succ fuel ih =>
    intro reads s s1 reads1 b h
    unfold work_loop at h
    split at h
    · simp at h
    · rename_i x hs
      simp only [Option.some.injEq, Prod.mk.injEq] at h
      obtain ⟨h1, _, h3⟩ := h
      have hx := slice_true_state host selector_ui s x hs
      subst h1; subst h3
      rw [hx] at hs ⊢
      exact ⟨0, rfl, fun _ => hs, fun hb => by simp at hb⟩
    · rename_i x hs
      split at h
      · simp only [Option.some.injEq, Prod.mk.injEq] at h
        obtain ⟨h1, _, h3⟩ := h
        subst h1; subst h3
        exact ⟨1, by simp [false_slices, hs], fun hb => by simp at hb, fun _ => le_refl 1⟩
      · obtain ⟨n, g1, g2, _⟩ := ih (reads + 1) x s1 reads1 b h
        refine ⟨n + 1, ?_, g2, fun _ => by omega⟩
        unfold false_slices
        rw [hs]
        exact g1

/-- The state in which a session ends: reached by slices that all return false, and
a state in which `_slice` returns true. -/
theorem session_completes (host : Host) (selector_ui : Selector) (s s1 : Runner)
    (h : Session host selector_ui s s1) :
    ∃ n, false_slices host selector_ui n s = some s1 ∧
      _slice host selector_ui s1 = some (s1, true) := by
  induction h with
  | last ticks slot fuel reads s s1 reads1 hw =>
    obtain ⟨n, g1, g2, _⟩ := work_loop_slices host selector_ui ticks _ fuel _ s s1 reads1 true hw
    exact ⟨n, g1, g2 rfl⟩
  | more ticks slot fuel reads s s1 s2 reads1 hw _ ih =>
    obtain ⟨n, g1, _, _⟩ := work_loop_slices host selector_ui ticks _ fuel _ s s1 reads1 false hw
    obtain ⟨m, k1, k2⟩ := ih
    exact ⟨n + m, false_slices_add host selector_ui n m s s1 s2 g1 k1, k2⟩

theorem completes_unique (host : Host) (selector_ui : Selector) :
    ∀ (n m : Nat) (s a b : Runner), false_slices host selector_ui n s = some a →
      _slice host selector_ui a = some (a, true) →
      false_slices host selector_ui m s = some b →
      _slice host selector_ui b = some (b, true) → a = b := by
  intro n
  induction n with
  | zero =>
    intro m s a b ha hat hb hbt
    simp only [false_slices, Option.some.injEq] at ha
    subst ha
    cases m with
    | zero => simpa [false_slices] using hb
    | succ m =>
      unfold false_slices at hb
      rw [hat] at hb
      simp at hb
  | succ n ih =>
    intro m s a b ha hat hb hbt
    unfold false_slices at ha
    split at ha
    · rename_i x hs
      cases m with
      | zero =>
        simp only [false_slices, Option.some.injEq] at hb
        subst hb
        rw [hbt] at hs
        simp at hs
      | succ m =>
        unfold false_slices at hb
        rw [hs] at hb
        exact ih m x a b ha hat hb hbt
    · simp at ha

/-- C18. Budget independence: two sessions of calls of `work` from the same state, each
call with a budget and a clock of its own, end in the same state (result tree
included); that state is reached from the start by slices alone and is one in which
`_slice` reports the end, and it is the state a single call that runs to the end
leaves. -/
theorem budget_independence (host : Host) (selector_ui : Selector) (s0 sA sB : Runner)
    (hA : Session host selector_ui s0 sA) (hB : Session host selector_ui s0 sB) :
    sA = sB ∧
    (∃ n, slices host selector_ui n s0 = some sA ∧
      _slice host selector_ui sA = some (sA, true)) ∧
    ∀ (ticks : Nat → Nat) (slot fuel reads : Nat) (s1 : Runner) (reads1 : Nat),
      work host selector_ui ticks slot fuel reads s0 = some (s1, reads1, true) → s1 = sA := by
  obtain ⟨n, a1, a2⟩ := session_completes host selector_ui s0 sA hA
  obtain ⟨m, b1, b2⟩ := session_completes host selector_ui s0 sB hB
  refine ⟨completes_unique host selector_ui n m s0 sA sB a1 a2 b1 b2,
    ⟨n, false_slices_slices host selector_ui n s0 sA a1, a2⟩, ?_⟩
  intro ticks slot fuel reads s1 reads1 hw
  obtain ⟨k, c1, c2⟩ := session_completes host selector_ui s0 s1
    (Session.last ticks slot fuel reads s0 s1 reads1 hw)
  exact completes_unique host selector_ui k n s0 s1 sA c1 c2 a1 a2

theorem budget_independence_witness :
    Session Example.host Example.selector Example.selecting
      { Example.selecting with phase := PHASE_MAX } ∧
    Session Example.host Example.selector Example.selecting
      { Example.selecting with phase := PHASE_MAX } ∧
    ({ Example.selecting with phase := PHASE_MAX } =
        ({ Example.selecting with phase := PHASE_MAX } : Runner) ∧
      (∃ n, slices Example.host Example.selector n Example.selecting =
          some { Example.selecting with phase := PHASE_MAX } ∧
        _slice Example.host Example.selector { Example.selecting with phase := PHASE_MAX } =
          some ({ Example.selecting with phase := PHASE_MAX }, true)) ∧
      ∀ (ticks : Nat → Nat) (slot fuel reads : Nat) (s1 : Runner) (reads1 : Nat),
        work Example.host Example.selector ticks slot fuel reads Example.selecting =
            some (s1, reads1, true) →
          s1 = { Example.selecting with phase := PHASE_MAX }) :=
  ⟨Session.last (fun _ => 0) 1000 2 0 _ _ 2 rfl,
    Session.more (fun i => i) 0 1 0 _ _ _ 2 rfl (Session.last (fun i => i) 0 1 2 _ _ 3 rfl),
    budget_independence Example.host Example.selector Example.selecting _ _
      (Session.last (fun _ => 0) 1000 2 0 _ _ 2 rfl)
      (Session.more (fun i => i) 0 1 0 _ _ _ 2 rfl
        (Session.last (fun i => i) 0 1 2 _ _ 3 rfl))⟩

/-! ## The best match -/

theorem float_score_pos (host : Host) (term p_text : Str) (h : p_text ≠ []) :
    ∃ q, float_score host term p_text = Score.finite q ∧ 0 < q := by
  have hlen : ¬ p_text.length = 0 := fun e => h (List.length_eq_zero.mp e)
  obtain ⟨c1, c2, c3, c4, c5⟩ := Float32.round_floor_pos
  have hinv : 0 ≤ Float32.round (1 / Float32.round (p_text.length : ℚ)) := by
    apply Float32.round_nonneg
    apply div_nonneg (by norm_num)
    exact Float32.round_nonneg _ (Nat.cast_nonneg _)
  -- the second factor is at least the rounded `1 - w`
  have hfac : Float32.round (Float32.round (1 - Float32.round (1 / 10))) ≤
      Float32.round (Float32.round (1 - Float32.round (1 / 10)) +
        Float32.round (Float32.round (1 / 10) * Float32.round (Float32.round (term.length : ℚ) *
          Float32.round (1 / Float32.round (p_text.length : ℚ))))) := by
    have hb : 0 ≤ Float32.round (Float32.round (term.length : ℚ) *
        Float32.round (1 / Float32.round (p_text.length : ℚ))) :=
      Float32.round_nonneg _ (mul_nonneg (Float32.round_nonneg _ (Nat.cast_nonneg _)) hinv)
    have hc : 0 ≤ Float32.round (Float32.round (1 / 10) *
        Float32.round (Float32.round (term.length : ℚ) *
          Float32.round (1 / Float32.round (p_text.length : ℚ)))) :=
      Float32.round_nonneg _ (mul_nonneg c4 hb)
    exact Float32.round_mono _ _ c3.le (by linarith)
  -- the first factor is at least the rounded `.9f - w`
  have hfirst : ∀ m : ℚ, m ≤ 1 →
      Float32.round (Float32.round (9 / 10) - 1 / 2) ≤
        Float32.round (1 - Float32.round (1 / 2 * m)) := by
    intro m hm
    have ht : Float32.round (1 / 2 * m) ≤ 1 / 2 := by
      rcases le_total m 0 with hneg | hpos
      · have := Float32.round_nonpos (1 / 2 * m) (by linarith)
        linarith
      · have := Float32.round_mono (1 / 2 * m) (1 / 2) (by linarith) (by linarith)
        rw [Float32.round_half] at this
        exact this
    have := Float32.round_mono (1 / 2) (1 - Float32.round (1 / 2 * m)) (by norm_num)
      (by linarith)
    rw [Float32.round_half] at this
    linarith
  have hscore : ∀ pos : Int, Float32.round (Float32.round (9 / 10) - 1 / 2) ≤
      (if pos > -1 then
        Float32.round (1 - Float32.round (1 / 2 *
          (if 1 < Float32.round (Float32.round ((wrap_int (3 * pos) : Int) : ℚ) *
              Float32.round (1 / Float32.round (p_text.length : ℚ))) then 1
            else Float32.round (Float32.round ((wrap_int (3 * pos) : Int) : ℚ) *
              Float32.round (1 / Float32.round (p_text.length : ℚ))))))
      else
        if 0 > Float32.round (Float32.round (9 / 10) - 1 / 2) then 0
        else Float32.round (Float32.round (9 / 10) - 1 / 2)) := by
    intro pos
    split
    · apply hfirst
      split
      · exact le_refl _
      · rename_i hx
        exact not_lt.mp hx
    · rw [if_neg (not_lt.mpr c1.le)]
  unfold float_score
  rw [if_neg hlen]
  refine ⟨_, rfl, ?_⟩
  simp only []
  refine lt_of_lt_of_le c5 (Float32.round_mono _ _ ?_ ?_)
  · exact mul_nonneg c1.le (Float32.round_nonneg _ c3.le)
  · exact mul_le_mul (hscore _) hfac (Float32.round_nonneg _ c3.le) (le_trans c1.le (hscore _))

theorem getElem?_lt {α : Type} (l : List α) (i : Nat) (a : α) (h : l[i]? = some a) :
    i < l.length := by
  by_contra hc
  rw [List.getElem?_eq_none (not_lt.mp hc)] at h
  simp at h

theorem best_snoc (host : Host) (term : Str) (names : List Str) (matched : Option Nat)
    (highest : Score) (nm : Str) (hne : names ≠ []) (hnm : nm ≠ [])
    (hb : Best host term names matched highest) :
    Best host term (names ++ [nm])
      (if (highest.is_zero || (float_score host term nm).gt highest) = true
        then some names.length else matched)
      (if (highest.is_zero || (float_score host term nm).gt highest) = true
        then float_score host term nm else highest) := by
  obtain ⟨q1, hq1, hpos1⟩ := float_score_pos host term nm hnm
  have hlen : 1 ≤ names.length := by
    cases names with
    | nil => exact absurd rfl hne
    | cons a t => simp
  have hlast : (names ++ [nm])[names.length]? = some nm := by
    rw [List.getElem?_append_right (le_refl _)]; simp
  have hold : ∀ i, i < names.length → (names ++ [nm])[i]? = names[i]? :=
    fun i hi => List.getElem?_append_left hi
  have hsplit : ∀ i n, (names ++ [nm])[i]? = some n →
      (i < names.length ∧ names[i]? = some n) ∨ (i = names.length ∧ n = nm) := by
    intro i n hi
    have hlt := getElem?_lt _ _ _ hi
    simp only [List.length_append, List.length_singleton] at hlt
    by_cases hc : i < names.length
    · left; exact ⟨hc, by rw [← hold i hc]; exact hi⟩
    · right
      have he : i = names.length := by omega
      subst he
      rw [hlast] at hi
      exact ⟨rfl, (Option.some.inj hi).symm⟩
  rcases hb with ⟨hl, hm, hs⟩ | ⟨j, n0, q, hm, hs, hq, hj, hjn, hjs, hall⟩
  · subst hm; subst hs
    have hz : (Score.finite 0).is_zero = true := by simp [Score.is_zero]
    rw [hz]
    simp only [Bool.true_or, if_true]
    right
    refine ⟨names.length, nm, q1, rfl, hq1, hpos1, hlen, hlast, hq1, ?_⟩
    intro i n hi hin
    rcases hsplit i n hin with ⟨hc, _⟩ | ⟨he, hn⟩
    · omega
    · subst hn; exact ⟨q1, hq1, le_refl _, fun h => by omega⟩
  · subst hm; subst hs
    have hz : (Score.finite q).is_zero = false := by
      simp [Score.is_zero]; exact ne_of_gt hq
    have hjlt := getElem?_lt _ _ _ hjn
    rw [hz, hq1]
    simp only [Bool.false_or, Score.gt, decide_eq_true_eq]
    by_cases hgt : q1 > q
    · rw [if_pos hgt, if_pos hgt]
      right
      refine ⟨names.length, nm, q1, rfl, rfl, hpos1, hlen, hlast, hq1, ?_⟩
      intro i n hi hin
      rcases hsplit i n hin with ⟨hc, hn⟩ | ⟨he, hn⟩
      · obtain ⟨qi, g1, g2, _⟩ := hall i n hi hn
        exact ⟨qi, g1, le_of_lt (lt_of_le_of_lt g2 hgt), fun _ => lt_of_le_of_lt g2 hgt⟩
      · subst hn; exact ⟨q1, hq1, le_refl _, fun h => by omega⟩
    · rw [if_neg hgt, if_neg hgt]
      right
      refine ⟨j, n0, q, rfl, rfl, hq, hj, by rw [hold j hjlt]; exact hjn, hjs, ?_⟩
      intro i n hi hin
      rcases hsplit i n hin with ⟨hc, hn⟩ | ⟨he, hn⟩
      · exact hall i n hi hn
      · subst hn; exact ⟨q1, hq1, not_lt.mp hgt, fun h => by omega⟩

theorem create_item_row (t : ResultsTree) (p_parent : Option Nat) (cells : TreeItem) :
    ∃ row, (t.create_item p_parent cells).1.items = t.items ++ [row] ∧
      (t.create_item p_parent cells).2 = t.items.length ∧
      row.selected = cells.selected ∧ row.scored_name = cells.scored_name := by
  unfold ResultsTree.create_item
  cases p_parent with
  | some p => exact ⟨_, rfl, rfl, rfl, rfl⟩
  | none =>
    cases hr : t.root with
    | none => exact ⟨_, rfl, rfl, rfl, rfl⟩
    | some r => exact ⟨_, rfl, rfl, rfl, rfl⟩

theorem building_add (host : Host) (s : Runner) (p : Option Nat) (cells : TreeItem)
    (hsel : cells.selected = false) (h : Building host s) :
    Building host (add_scored_row host s p cells) := by
  obtain ⟨hne, hun, hbest⟩ := h
  obtain ⟨row, g1, g2, g3, g4⟩ := create_item_row s.results_tree p cells
  have hitems : (add_scored_row host s p cells).results_tree.items =
      s.results_tree.items ++ [row] := g1
  have hnames : scored_names (add_scored_row host s p cells) =
      scored_names s ++ [cells.scored_name] := by
    unfold scored_names
    rw [hitems, List.map_append, List.map_singleton, g4]
  have hnn : scored_names s ≠ [] := by
    unfold scored_names
    intro e
    exact hne (List.map_eq_nil_iff.mp e)
  refine ⟨by rw [hitems]; simp, ?_, ?_⟩
  · intro r hr
    rw [hitems, List.mem_append, List.mem_singleton] at hr
    rcases hr with hr | hr
    · exact hun r hr
    · rw [hr, g3, hsel]
  · intro hnamed
    unfold Named at hnamed
    rw [hnames, List.tail_append_of_ne_nil hnn] at hnamed
    have hold : Named s := fun n hn => hnamed n (List.mem_append_left _ hn)
    have hnew : cells.scored_name ≠ [] :=
      hnamed _ (List.mem_append_right _ (List.mem_singleton.mpr rfl))
    have hb := best_snoc host s.term (scored_names s) s.matched_item s.match_highest_score
      cells.scored_name hnn hnew (hbest hold)
    unfold BestSoFar
    rw [hnames]
    have hlen : (scored_names s).length = (s.results_tree.create_item p cells).2 := by
      rw [g2]; unfold scored_names; simp
    rw [hlen] at hb
    exact hb

theorem pass_inv_early (host : Host) (p : Int) (s : Runner) (h : p ≤ 1) : PassInv host p s := by
  unfold PassInv; rw [if_pos h]; trivial

theorem pass_inv_reset (host : Host) (p : Int) (s : Runner) (h2 : 2 ≤ p) (h5 : p ≤ 5) :
    PassInv host p s ↔ (s.matched_item = none ∧ s.match_highest_score = Score.finite 0) := by
  unfold PassInv; rw [if_neg (by omega), if_pos h5]

theorem pass_inv_building (host : Host) (p : Int) (s : Runner) (h6 : 6 ≤ p) (h9 : p ≤ 9) :
    PassInv host p s ↔ Building host s := by
  unfold PassInv; rw [if_neg (by omega), if_neg (by omega), if_pos h9]

theorem pass_inv_selected (host : Host) (p : Int) (s : Runner) (h : 10 ≤ p) :
    PassInv host p s ↔ Selected host s := by
  unfold PassInv; rw [if_neg (by omega), if_neg (by omega), if_neg (by omega)]

theorem match_classes_init_reset (host : Host) (selector_ui : Selector) (s : Runner) :
    (_phase_match_classes_init host selector_ui s).1.matched_item = none ∧
    (_phase_match_classes_init host selector_ui s).1.match_highest_score = Score.finite 0 := by
  unfold _phase_match_classes_init
  simp only []
  split
  · exact ⟨rfl, rfl⟩
  · split <;> exact ⟨rfl, rfl⟩

theorem node_classes_build_best (s : Runner) (r : Runner × Bool)
    (h : _phase_node_classes_build s = some r) :
    r.1.matched_item = s.matched_item ∧ r.1.match_highest_score = s.match_highest_score := by
  unfold _phase_node_classes_build at h
  split at h
  · cases h; exact ⟨rfl, rfl⟩
  · simp only [] at h
    split at h
    · simp at h
    · cases h; exact ⟨rfl, rfl⟩
    · cases h; exact ⟨rfl, rfl⟩

theorem match_classes_best (host : Host) (selector_ui : Selector) (s : Runner)
    (r : Runner × Bool) (h : _phase_match_classes host selector_ui s = some r) :
    r.1.matched_item = s.matched_item ∧ r.1.match_highest_score = s.match_highest_score := by
  unfold _phase_match_classes at h
  split at h
  · simp at h
  · simp only [] at h
    cases h
    split <;> exact ⟨rfl, rfl⟩

theorem class_items_init_building (host : Host) (s : Runner)
    (h : s.matched_item = none ∧ s.match_highest_score = Score.finite 0) :
    Building host (_phase_class_items_init s).1 := by
  refine ⟨?_, ?_, ?_⟩
  · simp [_phase_class_items_init, ResultsTree.create_item, ResultsTree.clear]
  · intro r hr
    simp [_phase_class_items_init, ResultsTree.create_item, ResultsTree.clear] at hr
    rw [hr]; rfl
  · intro _
    left
    refine ⟨?_, h.1, h.2⟩
    simp [scored_names, _phase_class_items_init, ResultsTree.create_item, ResultsTree.clear]

theorem select_row_names (t : ResultsTree) (j : Nat) :
    (select_row t j).items.map (fun r => r.scored_name) =
      t.items.map (fun r => r.scored_name) := by
  unfold select_row
  cases h : List.get? t.items j with
  | none => rfl
  | some row =>
    simp only []
    apply List.ext_getElem?
    intro i
    simp only [List.getElem?_map, List.getElem?_set]
    by_cases hij : j = i
    · subst hij
      rw [if_pos rfl]
      have h1 : t.items[j]? = some row := by simpa using h
      have hlt := getElem?_lt _ _ _ h1
      rw [if_pos hlt, h1]
      rfl
    · rw [if_neg hij]

theorem select_row_selected (t : ResultsTree) (j : Nat)
    (hun : ∀ r ∈ t.items, r.selected = false) :
    ∀ i r, (select_row t j).items[i]? = some r → (r.selected = true ↔ some j = some i) := by
  intro i r hr
  unfold select_row at hr
  cases h : List.get? t.items j with
  | none =>
    rw [h] at hr
    simp only [] at hr
    have hf : r.selected = false := hun r (List.getElem?_mem hr)
    have hne : j ≠ i := by
      intro e; subst e
      have h1 : t.items[j]? = none := by simpa using h
      rw [h1] at hr; simp at hr
    rw [hf]; simp [hne]
  | some row =>
    rw [h] at hr
    simp only [List.getElem?_set] at hr
    by_cases hij : j = i
    · subst hij
      rw [if_pos rfl] at hr
      split at hr
      · cases hr; simp
      · simp at hr
    · rw [if_neg hij] at hr
      have hf : r.selected = false := hun r (List.getElem?_mem hr)
      rw [hf]; simp [hij]

theorem select_row_state (host : Host) (s : Runner) (j : Nat) (hm : s.matched_item = some j)
    (h : Building host s) :
    Selected host { s with results_tree := select_row s.results_tree j } := by
  obtain ⟨hne, hun, hbest⟩ := h
  have hnames : scored_names { s with results_tree := select_row s.results_tree j } =
      scored_names s := select_row_names s.results_tree j
  intro hnamed
  have hold : Named s := by
    unfold Named at hnamed ⊢
    rw [hnames] at hnamed
    exact hnamed
  refine ⟨?_, ?_⟩
  · have hb := hbest hold
    unfold BestSoFar at hb ⊢
    rw [hnames]
    exact hb
  · intro i r hr
    show r.selected = true ↔ s.matched_item = some i
    rw [hm]
    exact select_row_selected s.results_tree j hun i r hr

theorem select_match_selected (host : Host) (s : Runner) (h : Building host s) :
    Selected host (_phase_select_match s).1 := by
  unfold _phase_select_match
  split
  · rename_i item hm
    exact select_row_state host s item hm h
  · rename_i hm
    obtain ⟨hne, hun, hbest⟩ := h
    intro hnamed
    refine ⟨hbest hnamed, ?_⟩
    intro i r hr
    have hf : r.selected = false := hun r (List.getElem?_mem hr)
    show r.selected = true ↔ s.matched_item = some i
    rw [hf, hm]; simp

theorem select_match_done (s : Runner) : (_phase_select_match s).2 = true := by
  unfold _phase_select_match
  split <;> rfl

set_option maxHeartbeats 1600000 in
/-- Every slice keeps the invariant of a pass. -/
theorem slice_pass_inv (host : Host) (selector_ui : Selector) (s s1 : Runner) (r : Bool)
    (hJ : PassInv host s.phase s) (hs : _slice host selector_ui s = some (s1, r)) :
    PassInv host s1.phase s1 := by
  unfold _slice at hs
  split at hs
  · cases hs; exact hJ
  · simp at hs
  · rename_i s2 done hh
    simp only [Option.some.injEq, Prod.mk.injEq] at hs
    obtain ⟨hs1, _⟩ := hs
    obtain ⟨hp, _, _⟩ := phase_handler_phase host selector_ui s (s2, done) hh
    simp only [] at hp
    have key : (done = false → PassInv host s.phase s2) →
        (done = true → PassInv host (s.phase + 1) s2) → PassInv host s1.phase s1 := by
      intro k1 k2
      rw [← hs1]
      cases done
      · simp only [Bool.false_eq_true, if_false]
        rw [hp]; exact k1 rfl
      · simp only [if_true]
        show PassInv host (s2.phase + 1) s2
        rw [hp]; exact k2 rfl
    unfold phase_handler at hh
    split at hh
    · rename_i hc
      rw [hc] at key
      exact key (fun _ => pass_inv_early host _ _ (by decide))
        (fun _ => pass_inv_early host _ _ (by decide))
    split at hh
    · rename_i hc
      rw [hc] at key
      simp only [Option.some.injEq] at hh
      have e := match_classes_init_reset host selector_ui s
      rw [hh] at e
      exact key (fun _ => pass_inv_early host _ _ (by decide))
        (fun _ => (pass_inv_reset host _ _ (by decide) (by decide)).mpr e)
    split at hh
    · rename_i hc
      rw [hc] at key hJ
      simp only [Option.some.injEq] at hh
      have hJ1 := (pass_inv_reset host _ _ (by decide) (by decide)).mp hJ
      have e : s2 = (_phase_node_classes_init host s).1 := by rw [hh]
      have e1 : s2.matched_item = none ∧ s2.match_highest_score = Score.finite 0 := by
        rw [e]; exact hJ1
      exact key (fun _ => (pass_inv_reset host _ _ (by decide) (by decide)).mpr e1)
        (fun _ => (pass_inv_reset host _ _ (by decide) (by decide)).mpr e1)
    split at hh
    · rename_i hc
      rw [hc] at key hJ
      simp only [Option.some.injEq] at hh
      have hJ1 := (pass_inv_reset host _ _ (by decide) (by decide)).mp hJ
      obtain ⟨g1, g2⟩ := node_classes_build_best s (s2, done) hh
      have e1 : s2.matched_item = none ∧ s2.match_highest_score = Score.finite 0 :=
        ⟨g1.trans hJ1.1, g2.trans hJ1.2⟩
      exact key (fun _ => (pass_inv_reset host _ _ (by decide) (by decide)).mpr e1)
        (fun _ => (pass_inv_reset host _ _ (by decide) (by decide)).mpr e1)
    split at hh
    · rename_i hc
      rw [hc] at key hJ
      simp only [Option.some.injEq] at hh
      have hJ1 := (pass_inv_reset host _ _ (by decide) (by decide)).mp hJ
      obtain ⟨g1, g2⟩ := match_classes_best host selector_ui s (s2, done) hh
      have e1 : s2.matched_item = none ∧ s2.match_highest_score = Score.finite 0 :=
        ⟨g1.trans hJ1.1, g2.trans hJ1.2⟩
      exact key (fun _ => (pass_inv_reset host _ _ (by decide) (by decide)).mpr e1)
        (fun _ => (pass_inv_reset host _ _ (by decide) (by decide)).mpr e1)
    split at hh
    · rename_i hc
      rw [hc] at key hJ
      simp only [Option.some.injEq] at hh
      have hJ1 := (pass_inv_reset host _ _ (by decide) (by decide)).mp hJ
      have e : s2 = (_phase_class_items_init s).1 := by rw [hh]
      have e1 : s2.matched_item = none ∧ s2.match_highest_score = Score.finite 0 := by
        rw [e]; exact hJ1
      have e2 : Building host s2 := by rw [e]; exact class_items_init_building host s hJ1
      exact key (fun _ => (pass_inv_reset host _ _ (by decide) (by decide)).mpr e1)
        (fun _ => (pass_inv_building host _ _ (by decide) (by decide)).mpr e2)
    split at hh
    · rename_i hc
      rw [hc] at key hJ
      simp only [Option.some.injEq] at hh
      have hJ1 := (pass_inv_building host _ _ (by decide) (by decide)).mp hJ
      have e2 : Building host s2 :=
        phase_class_items_induct host (Building host) (building_add host)
          (fun _ _ hx => hx) (fun _ _ hx => hx) s (s2, done) hh hJ1
      exact key (fun _ => (pass_inv_building host _ _ (by decide) (by decide)).mpr e2)
        (fun _ => (pass_inv_building host _ _ (by decide) (by decide)).mpr e2)
    split at hh
    · rename_i hc
      rw [hc] at key hJ
      simp only [Option.some.injEq] at hh
      have hJ1 := (pass_inv_building host _ _ (by decide) (by decide)).mp hJ
      have e : s2 = (_phase_member_items_init s).1 := by rw [hh]
      have e2 : Building host s2 := by rw [e]; exact hJ1
      exact key (fun _ => (pass_inv_building host _ _ (by decide) (by decide)).mpr e2)
        (fun _ => (pass_inv_building host _ _ (by decide) (by decide)).mpr e2)
    split at hh
    · rename_i hc
      rw [hc] at key hJ
      simp only [Option.some.injEq] at hh
      have hJ1 := (pass_inv_building host _ _ (by decide) (by decide)).mp hJ
      have e : s2 = (_phase_member_items host s).1 := by rw [hh]
      have e2 : Building host s2 := by
        rw [e]
        exact phase_member_items_induct host (Building host) (building_add host)
          (fun _ _ hx => hx) (fun _ _ hx => hx) s hJ1
      exact key (fun _ => (pass_inv_building host _ _ (by decide) (by decide)).mpr e2)
        (fun _ => (pass_inv_building host _ _ (by decide) (by decide)).mpr e2)
    split at hh
    · rename_i hc
      rw [hc] at key hJ
      simp only [Option.some.injEq] at hh
      have hJ1 := (pass_inv_building host _ _ (by decide) (by decide)).mp hJ
      have e : s2 = (_phase_select_match s).1 := by rw [hh]
      have ed : done = true := by
        have := select_match_done s
        rw [hh] at this
        exact this
      have e2 : Selected host s2 := by rw [e]; exact select_match_selected host s hJ1
      exact key (fun hd => by rw [ed] at hd; cases hd)
        (fun _ => (pass_inv_selected host _ _ (by decide)).mpr e2)
    · simp at hh

/-- C16. Best-match selection: at the end of a pass (`PHASE_MAX` reached by slices from
`PHASE_INIT`) in which every row but the root has a non-empty name, `matched_item`
is a row whose score, as `_match_item` computes it in `float`, is the highest of
all rows, the first of the rows with that score, `match_highest_score` is its
score, and it is the one selected row; with no row but the root, there is no
matched item. -/
theorem best_match_selection (host : Host) (selector_ui : Selector) (s0 : Runner)
    (h0 : s0.phase = PHASE_INIT) (n : Nat) (s : Runner)
    (hreach : slices host selector_ui n s0 = some s) (hend : s.phase = PHASE_MAX)
    (hnamed : ∀ row ∈ s.results_tree.items.tail, row.scored_name ≠ []) :
    (s.results_tree.items.tail = [] → s.matched_item = none) ∧
    (s.results_tree.items.tail ≠ [] →
      ∃ j row q, s.matched_item = some j ∧ 1 ≤ j ∧ s.results_tree.items[j]? = some row ∧
        float_score host s.term row.scored_name = Score.finite q ∧
        s.match_highest_score = Score.finite q ∧ row.selected = true ∧
        ∀ i r, 1 ≤ i → s.results_tree.items[i]? = some r →
          (∃ qi, float_score host s.term r.scored_name = Score.finite qi ∧ qi ≤ q ∧
            (i < j → qi < q)) ∧
          (r.selected = true → i = j)) := by
  have hinv : PassInv host s.phase s := by
    refine slices_invariant host selector_ui (fun x => PassInv host x.phase x) ?_ n s0 s ?_ hreach
    · intro x x1 r hx hs
      exact slice_pass_inv host selector_ui x x1 r hx hs
    · exact pass_inv_early host _ _ (by rw [h0]; decide)
  rw [hend] at hinv
  have hsel := (pass_inv_selected host _ _ (by decide)).mp hinv
  have hnm : Named s := by
    intro n hn
    unfold scored_names at hn
    rw [← List.map_tail, List.mem_map] at hn
    obtain ⟨row, hrow, he⟩ := hn
    rw [← he]
    exact hnamed row hrow
  obtain ⟨hbest, hflags⟩ := hsel hnm
  have hlen : (scored_names s).length = s.results_tree.items.length := by
    unfold scored_names; simp
  have hget : ∀ (i : Nat) (n : Str), (scored_names s)[i]? = some n →
      ∃ row : TreeItem, s.results_tree.items[i]? = some row ∧ row.scored_name = n := by
    intro i n hi
    unfold scored_names at hi
    rw [List.getElem?_map] at hi
    cases hr : s.results_tree.items[i]? with
    | none => rw [hr] at hi; simp at hi
    | some row => rw [hr] at hi; exact ⟨row, rfl, by simpa using hi⟩
  have hget2 : ∀ (i : Nat) (row : TreeItem), s.results_tree.items[i]? = some row →
      (scored_names s)[i]? = some row.scored_name := by
    intro i row hi
    unfold scored_names
    rw [List.getElem?_map, hi]; rfl
  constructor
  · intro ht
    rcases hbest with ⟨_, hm, _⟩ | ⟨j, nm, q, _, _, _, hj, hjn, _⟩
    · exact hm
    · have hlt := getElem?_lt _ _ _ hjn
      rw [hlen] at hlt
      have : s.results_tree.items.tail.length = 0 := by rw [ht]; rfl
      rw [List.length_tail] at this
      omega
  · intro ht
    rcases hbest with ⟨hl, _, _⟩ | ⟨j, nm, q, hm, hs, hq, hj, hjn, hjs, hall⟩
    · exfalso
      apply ht
      apply List.eq_nil_of_length_eq_zero
      rw [List.length_tail, ← hlen]
      omega
    · obtain ⟨row, hrow, hrn⟩ := hget j nm hjn
      refine ⟨j, row, q, hm, hj, hrow, by rw [hrn]; exact hjs, hs,
        (hflags j row hrow).mpr hm, ?_⟩
      intro i r hi hir
      refine ⟨hall i r.scored_name hi (hget2 i r hir), fun hsel => ?_⟩
      have := (hflags i r hir).mp hsel
      rw [hm] at this
      exact (Option.some.inj this).symm

set_option maxRecDepth 8000 in
theorem best_match_selection_witness :
    (Example.finished.results_tree.items.tail = [] → Example.finished.matched_item = none) ∧
    (Example.finished.results_tree.items.tail ≠ [] →
      ∃ j row q, Example.finished.matched_item = some j ∧ 1 ≤ j ∧
        Example.finished.results_tree.items[j]? = some row ∧
        float_score Example.host_foo Example.finished.term row.scored_name = Score.finite q ∧
        Example.finished.match_highest_score = Score.finite q ∧ row.selected = true ∧
        ∀ i r, 1 ≤ i → Example.finished.results_tree.items[i]? = some r →
          (∃ qi, float_score Example.host_foo Example.finished.term r.scored_name =
              Score.finite qi ∧ qi ≤ q ∧ (i < j → qi < q)) ∧
          (r.selected = true → i = j)) :=
  best_match_selection Example.host_foo Example.flat_all (Example.fresh Example.flat_all) rfl 16
    Example.finished (by with_unfolding_all rfl) (by with_unfolding_all rfl)
    (by with_unfolding_all decide)

set_option maxRecDepth 8000 in
/-- Rounding tells apart two scores that are equal over exact rationals: for the term
`abcdefghi` the names `tie_short` and `tie_long` both have the exact score 126/169,
the `float` score of `tie_long` is the higher one, and the pass over the two
classes, `tie_short` first, ends with the row of `tie_long` as matched item. -/
theorem float_rounding_breaks_exact_tie :
    item_score Example.host_tie (lit "abcdefghi") Example.tie_short =
      Score.finite (126 / 169) ∧
    item_score Example.host_tie (lit "abcdefghi") Example.tie_long =
      Score.finite (126 / 169) ∧
    float_score Example.host_tie (lit "abcdefghi") Example.tie_short =
      Score.finite (1563557 / 2097152) ∧
    float_score Example.host_tie (lit "abcdefghi") Example.tie_long =
      Score.finite (12508457 / 16777216) ∧
    slices Example.host_tie Example.selector_tie 19 (Example.fresh Example.selector_tie) =
      some Example.tie_finished ∧
    Example.tie_finished.phase = PHASE_MAX ∧
    Example.tie_finished.results_tree.items.map (fun r => r.scored_name) =
      [[], Example.tie_short, Example.tie_long] ∧
    Example.tie_finished.matched_item = some 2 :=
  ⟨by decide!, by decide!, by decide!, by decide!, by with_unfolding_all rfl,
    by with_unfolding_all rfl, by with_unfolding_all rfl, by with_unfolding_all rfl⟩

/-! ## The class hierarchy -/

theorem nodup_keys_length (M : HashMap ClassMatch) (visited : List Str) (hnd : visited.Nodup)
    (hsub : ∀ v ∈ visited, HashMap.has M v = true) : visited.length ≤ M.length := by
  have hs : visited ⊆ M.map Prod.fst := fun v hv => (HashMap.has_iff_mem_keys M v).mp (hsub v hv)
  have := (List.Nodup.subperm hnd hs).length_le
  simpa using this

theorem parent_ok_append (M : HashMap ClassMatch) (items rows : List TreeItem) (row : TreeItem)
    (h : ParentOk M items row) : ParentOk M (items ++ rows) row := by
  obtain ⟨m, h1, h2, h3⟩ := h
  refine ⟨m, h1, ?_, h3⟩
  intro hc
  obtain ⟨j, prow, g1, g2, g3, g4⟩ := h2 hc
  refine ⟨j, prow, g1, ?_, g3, g4⟩
  rw [List.getElem?_append_left (getElem?_lt _ _ _ g2)]
  exact g2

theorem create_class_item_some (host : Host) (s : Runner) (p : Nat) (p_doc : ClassDoc)
    (p_gray : Bool) :
    ∃ row, (_create_class_item host s (some p) p_doc p_gray).1.results_tree.items =
        s.results_tree.items ++ [row] ∧
      (_create_class_item host s (some p) p_doc p_gray).2 = s.results_tree.items.length ∧
      row.metadata0 = p_doc.name ∧ row.parent = some p ∧
      (_create_class_item host s (some p) p_doc p_gray).1.class_items = s.class_items ∧
      (_create_class_item host s (some p) p_doc p_gray).1.matches_ = s.matches_ ∧
      (_create_class_item host s (some p) p_doc p_gray).1.root_item = s.root_item :=
  ⟨_, rfl, rfl, rfl, rfl, rfl, rfl, rfl⟩

/-- The invariant is kept when `_create_class_hierarchy` creates the row of a class
that has none yet, under the parent it resolved. -/
theorem hinv_create (host : Host) (M : HashMap ClassMatch) (s : Runner) (m : ClassMatch)
    (p : Nat) (h : HInv M s) (hm : HashMap.get? M m.doc.name = some m)
    (hnew : HashMap.get? s.class_items m.doc.name = none)
    (hpar : ((m.doc.inherits ≠ [] ∧ HashMap.has M m.doc.inherits = true) →
        1 ≤ p ∧ ∃ prow, s.results_tree.items[p]? = some prow ∧
          prow.metadata0 = m.doc.inherits) ∧
      (¬ (m.doc.inherits ≠ [] ∧ HashMap.has M m.doc.inherits = true) → p = 0)) :
    HInv M { (_create_class_item host s (some p) m.doc (!m.name)).1 with
      class_items := HashMap.set
        (_create_class_item host s (some p) m.doc (!m.name)).1.class_items m.doc.name
        (some (_create_class_item host s (some p) m.doc (!m.name)).2) } ∧
    ∃ row, (_create_class_item host s (some p) m.doc (!m.name)).1.results_tree.items =
        s.results_tree.items ++ [row] ∧
      (_create_class_item host s (some p) m.doc (!m.name)).2 = s.results_tree.items.length ∧
      row.metadata0 = m.doc.name := by
  obtain ⟨row, g1, g2, g3, g4, g5, g6, g7⟩ := create_class_item_some host s p m.doc (!m.name)
  refine ⟨?_, row, g1, g2, g3⟩
  have hlast : (s.results_tree.items ++ [row])[s.results_tree.items.length]? = some row := by
    rw [List.getElem?_append_right (le_refl _)]; simp
  have hsplit : ∀ (i : Nat) (r : TreeItem), (s.results_tree.items ++ [row])[i]? = some r →
      (i < s.results_tree.items.length ∧ s.results_tree.items[i]? = some r) ∨
        (i = s.results_tree.items.length ∧ r = row) := by
    intro i r hi
    have hlt := getElem?_lt _ _ _ hi
    simp only [List.length_append, List.length_singleton] at hlt
    by_cases hc : i < s.results_tree.items.length
    · left; exact ⟨hc, by rw [← List.getElem?_append_left hc]; exact hi⟩
    · right
      have he : i = s.results_tree.items.length := by omega
      subst he
      rw [hlast] at hi
      exact ⟨rfl, (Option.some.inj hi).symm⟩
  have hlen : 1 ≤ s.results_tree.items.length := by
    cases hi : s.results_tree.items with
    | nil => exact absurd hi h.nonempty
    | cons a t => simp
  constructor
  · show (_create_class_item host s (some p) m.doc (!m.name)).1.matches_ = M
    rw [g6]; exact h.matches_eq
  · show (_create_class_item host s (some p) m.doc (!m.name)).1.root_item = some 0
    rw [g7]; exact h.root
  · show (_create_class_item host s (some p) m.doc (!m.name)).1.results_tree.items ≠ []
    rw [g1]; simp
  · intro k v hk
    change HashMap.get? (HashMap.set
      (_create_class_item host s (some p) m.doc (!m.name)).1.class_items m.doc.name
      (some (_create_class_item host s (some p) m.doc (!m.name)).2)) k = some v at hk
    show ∃ id r, v = some id ∧ 1 ≤ id ∧
      (_create_class_item host s (some p) m.doc (!m.name)).1.results_tree.items[id]? = some r ∧
      r.metadata0 = k
    rw [g1]
    rw [HashMap.get?_set, g5, g2] at hk
    by_cases hc : m.doc.name = k
    · rw [if_pos hc] at hk
      cases hk
      exact ⟨_, row, rfl, hlen, hlast, g3.trans hc⟩
    · rw [if_neg hc] at hk
      obtain ⟨id, r, e1, e2, e3, e4⟩ := h.memo k v hk
      refine ⟨id, r, e1, e2, ?_, e4⟩
      rw [List.getElem?_append_left (getElem?_lt _ _ _ e3)]; exact e3
  · intro id r hid hr
    change (_create_class_item host s (some p) m.doc (!m.name)).1.results_tree.items[id]? =
      some r at hr
    show HashMap.get? (HashMap.set
        (_create_class_item host s (some p) m.doc (!m.name)).1.class_items m.doc.name
        (some (_create_class_item host s (some p) m.doc (!m.name)).2)) r.metadata0 =
          some (some id) ∧
      ParentOk M (_create_class_item host s (some p) m.doc (!m.name)).1.results_tree.items r
    rw [g1] at hr ⊢
    rw [HashMap.get?_set, g5, g2]
    rcases hsplit id r hr with ⟨hc, hr1⟩ | ⟨he, hr1⟩
    · obtain ⟨e1, e2⟩ := h.rows id r hid hr1
      have hne : ¬ m.doc.name = r.metadata0 := by
        intro e
        rw [← e, hnew] at e1
        cases e1
      rw [if_neg hne]
      exact ⟨e1, parent_ok_append M _ _ r e2⟩
    · subst hr1
      rw [if_pos g3.symm, he]
      refine ⟨rfl, m, by rw [g3]; exact hm, ?_, ?_⟩
      · intro hc
        obtain ⟨hp1, prow, hp2, hp3⟩ := hpar.1 hc
        refine ⟨p, prow, hp1, ?_, hp3, g4⟩
        rw [List.getElem?_append_left (getElem?_lt _ _ _ hp2)]; exact hp2
      · intro hc
        rw [g4, hpar.2 hc]

/-- The body of `_create_class_hierarchy` for a class that has no item yet. -/
theorem create_class_hierarchy_succ (host : Host) (fuel : Nat) (s : Runner) (m : ClassMatch)
    (hnew : HashMap.has s.class_items m.doc.name = false) (s1 : Runner) (parent : Option Nat)
    (hres : (if m.doc.inherits ≠ [] then
        if HashMap.has s.class_items m.doc.inherits then
          some (s, (HashMap.index s.class_items m.doc.inherits none).2)
        else
          match HashMap.get? s.matches_ m.doc.inherits with
          | some base_match => _create_class_hierarchy host fuel s base_match
          | none => some (s, s.root_item)
      else some (s, s.root_item)) = some (s1, parent)) :
    _create_class_hierarchy host (fuel + 1) s m =
      some ({ (_create_class_item host s1 parent m.doc (!m.name)).1 with
          class_items := HashMap.set
            (_create_class_item host s1 parent m.doc (!m.name)).1.class_items m.doc.name
            (some (_create_class_item host s1 parent m.doc (!m.name)).2) },
        some (_create_class_item host s1 parent m.doc (!m.name)).2) := by
  have key : ∀ res : Option (Runner × Option Nat), res = some (s1, parent) →
      (match res with
        | none => none
        | some (s1, parent) =>
          some ({ (_create_class_item host s1 parent m.doc (!m.name)).1 with
              class_items := HashMap.set
                (_create_class_item host s1 parent m.doc (!m.name)).1.class_items m.doc.name
                (some (_create_class_item host s1 parent m.doc (!m.name)).2) },
            some (_create_class_item host s1 parent m.doc (!m.name)).2)) =
      some ({ (_create_class_item host s1 parent m.doc (!m.name)).1 with
          class_items := HashMap.set
            (_create_class_item host s1 parent m.doc (!m.name)).1.class_items m.doc.name
            (some (_create_class_item host s1 parent m.doc (!m.name)).2) },
        some (_create_class_item host s1 parent m.doc (!m.name)).2) := by
    intro res hr
    subst hr
    rfl
  unfold _create_class_hierarchy
  rw [if_neg (by rw [hnew]; simp)]
  exact key _ hres

theorem index_of_get? {V : Type} (m : HashMap V) (k : Str) (v dflt : V)
    (h : HashMap.get? m k = some v) : (HashMap.index m k dflt).2 = v := by
  unfold HashMap.index
  rw [h]

/-- With no class among its own ancestors, `_create_class_hierarchy` returns once
the fuel covers the classes of the match map not yet visited, and keeps the
invariant; the rows it adds are those of the class and of ancestors of it. -/
theorem hierarchy_total (host : Host) (M : HashMap ClassMatch) (hk : Keyed M)
    (ha : Acyclic M) :
    ∀ (fuel : Nat) (s : Runner) (m : ClassMatch) (visited : List Str),
      HInv M s → HashMap.get? M m.doc.name = some m → visited.Nodup →
      (∀ v ∈ visited, HashMap.has M v = true ∧
        Relation.TransGen (follows M) v m.doc.name) →
      M.length + 1 ≤ visited.length + fuel →
      ∃ s1 id row rows, _create_class_hierarchy host fuel s m = some (s1, some id) ∧
        HInv M s1 ∧ 1 ≤ id ∧ s1.results_tree.items[id]? = some row ∧
        row.metadata0 = m.doc.name ∧
        s1.results_tree.items = s.results_tree.items ++ rows ∧
        ∀ r ∈ rows, r.metadata0 = m.doc.name ∨
          Relation.TransGen (follows M) m.doc.name r.metadata0 := by
  intro fuel
  induction fuel with
  | zero =>
    intro s m visited h hm hnd hv hlen
    have := nodup_keys_length M visited hnd (fun v hv2 => (hv v hv2).1)
    omega
  | succ f ih =>
    intro s m visited h hm hnd hv hlen
    cases hhas : HashMap.has s.class_items m.doc.name with
    | true =>
      obtain ⟨v, hget⟩ := (HashMap.has_iff_get? _ _).mp hhas
      obtain ⟨id, row, e1, e2, e3, e4⟩ := h.memo _ _ hget
      refine ⟨s, id, row, [], ?_, h, e2, e3, e4, by simp, by simp⟩
      unfold _create_class_hierarchy
      rw [if_pos hhas, index_of_get? _ _ _ _ hget, e1]
    | false =>
      have hnotin : m.doc.name ∉ visited := fun hin => ha _ (hv _ hin).2
      have hMhas : HashMap.has M m.doc.name = true := (HashMap.has_iff_get? _ _).mpr ⟨m, hm⟩
      -- the parent is resolved
      have hstep : ∃ s1 p rows0,
          (if m.doc.inherits ≠ [] then
            if HashMap.has s.class_items m.doc.inherits then
              some (s, (HashMap.index s.class_items m.doc.inherits none).2)
            else
              match HashMap.get? s.matches_ m.doc.inherits with
              | some base_match => _create_class_hierarchy host f s base_match
              | none => some (s, s.root_item)
          else some (s, s.root_item)) = some (s1, some p) ∧
          HInv M s1 ∧ s1.results_tree.items = s.results_tree.items ++ rows0 ∧
          (∀ r ∈ rows0, Relation.TransGen (follows M) m.doc.name r.metadata0) ∧
          ((m.doc.inherits ≠ [] ∧ HashMap.has M m.doc.inherits = true) →
            1 ≤ p ∧ ∃ prow, s1.results_tree.items[p]? = some prow ∧
              prow.metadata0 = m.doc.inherits) ∧
          (¬ (m.doc.inherits ≠ [] ∧ HashMap.has M m.doc.inherits = true) → p = 0) := by
        by_cases hin : m.doc.inherits ≠ []
        · rw [if_pos hin]
          cases hci : HashMap.has s.class_items m.doc.inherits with
          | true =>
            obtain ⟨v, hget⟩ := (HashMap.has_iff_get? _ _).mp hci
            obtain ⟨j, prow, e1, e2, e3, e4⟩ := h.memo _ _ hget
            refine ⟨s, j, [], ?_, h, by simp, by simp, fun _ => ⟨e2, prow, e3, e4⟩, ?_⟩
            · rw [if_pos rfl, index_of_get? _ _ _ _ hget, e1]
            · intro hc
              exfalso
              apply hc
              obtain ⟨_, m2, hm2, _⟩ := h.rows j prow e2 e3
              rw [e4] at hm2
              exact ⟨hin, (HashMap.has_iff_get? _ _).mpr ⟨m2, hm2⟩⟩
          | false =>
            rw [if_neg (by simp)]
            rw [h.matches_eq]
            cases hb : HashMap.get? M m.doc.inherits with
            | none =>
              simp only []
              refine ⟨s, 0, [], by rw [h.root], h, by simp, by simp, ?_, fun _ => rfl⟩
              intro hc
              have := (HashMap.has_false_iff M m.doc.inherits).mpr hb
              rw [this] at hc
              exact absurd hc.2 (by simp)
            | some base =>
              simp only []
              have hbn : base.doc.name = m.doc.inherits :=
                hk.2 (m.doc.inherits, base) (HashMap.get?_mem _ _ _ hb)
              have hbhas : HashMap.has M m.doc.inherits = true :=
                (HashMap.has_iff_get? _ _).mpr ⟨base, hb⟩
              have hfol : follows M m.doc.name m.doc.inherits := ⟨m, hm, rfl, hin, hbhas⟩
              obtain ⟨s1, id, row, rows, g1, g2, g3, g4, g5, g6, g7⟩ :=
                ih s base (m.doc.name :: visited) h (by rw [hbn]; exact hb)
                  (List.nodup_cons.mpr ⟨hnotin, hnd⟩)
                  (by
                    intro v hv2
                    rw [hbn]
                    rcases List.mem_cons.mp hv2 with e | e
                    · rw [e]; exact ⟨hMhas, Relation.TransGen.single hfol⟩
                    · exact ⟨(hv v e).1, Relation.TransGen.tail (hv v e).2 hfol⟩)
                  (by simp only [List.length_cons]; omega)
              refine ⟨s1, id, rows, g1, g2, g6, ?_, fun _ => ⟨g3, row, g4, g5.trans hbn⟩, ?_⟩
              · intro r hr
                rcases g7 r hr with e | e
                · rw [e, hbn]; exact Relation.TransGen.single hfol
                · rw [hbn] at e; exact Relation.TransGen.head hfol e
              · intro hc
                exact absurd ⟨hin, hbhas⟩ hc
        · rw [if_neg hin]
          refine ⟨s, 0, [], by rw [h.root], h, by simp, by simp, ?_, fun _ => rfl⟩
          intro hc
          exact absurd hc.1 hin
      obtain ⟨s1, p, rows0, hres, hinv1, hitems1, hanc, hpar⟩ := hstep
      have hnew1 : HashMap.get? s1.class_items m.doc.name = none := by
        cases hg : HashMap.get? s1.class_items m.doc.name with
        | none => rfl
        | some v =>
          exfalso
          obtain ⟨id, row, e1, e2, e3, e4⟩ := hinv1.memo _ _ hg
          rw [hitems1] at e3
          by_cases hc : id < s.results_tree.items.length
          · rw [List.getElem?_append_left hc] at e3
            obtain ⟨q1, _⟩ := h.rows id row e2 e3
            rw [e4] at q1
            have := (HashMap.has_iff_get? _ _).mpr ⟨_, q1⟩
            rw [hhas] at this
            cases this
          · rw [List.getElem?_append_right (not_lt.mp hc)] at e3
            have := hanc row (List.getElem?_mem e3)
            rw [e4] at this
            exact ha _ this
      obtain ⟨hfin, row, k1, k2, k3⟩ := hinv_create host M s1 m p hinv1 hm hnew1 hpar
      have hlen1 : 1 ≤ s1.results_tree.items.length := by
        cases hi : s1.results_tree.items with
        | nil => exact absurd hi hinv1.nonempty
        | cons a t => simp
      refine ⟨_, _, row, rows0 ++ [row],
        create_class_hierarchy_succ host f s m hhas s1 (some p) hres, hfin, ?_, ?_, k3, ?_, ?_⟩
      · rw [k2]; exact hlen1
      · show (_create_class_item host s1 (some p) m.doc (!m.name)).1.results_tree.items[
          (_create_class_item host s1 (some p) m.doc (!m.name)).2]? = some row
        rw [k1, k2, List.getElem?_append_right (le_refl _)]; simp
      · show (_create_class_item host s1 (some p) m.doc (!m.name)).1.results_tree.items = _
        rw [k1, hitems1, List.append_assoc]
      · intro r hr
        rcases List.mem_append.mp hr with e | e
        · exact Or.inr (hanc r e)
        · rw [List.mem_singleton.mp e]; exact Or.inl k3

theorem hinv_congr (M : HashMap ClassMatch) (s1 s2 : Runner) (h : HInv M s2)
    (e1 : s1.matches_ = s2.matches_) (e2 : s1.root_item = s2.root_item)
    (e3 : s1.results_tree = s2.results_tree) (e4 : s1.class_items = s2.class_items) :
    HInv M s1 := by
  constructor
  · rw [e1]; exact h.matches_eq
  · rw [e2]; exact h.root
  · rw [e3]; exact h.nonempty
  · rw [e3, e4]; exact h.memo
  · rw [e3, e4]; exact h.rows

theorem covered_append (M : HashMap ClassMatch) (items rows : List TreeItem) (i : Nat)
    (h : Covered M items i) : Covered M (items ++ rows) i := by
  intro idx key m hi hm hr
  obtain ⟨id, row, g1, g2, g3⟩ := h idx key m hi hm hr
  refine ⟨id, row, g1, ?_, g3⟩
  rw [List.getElem?_append_left (getElem?_lt _ _ _ g2)]; exact g2

/-- One slice of the class items phase in hierarchy mode, in terms of the state
`s2` the handler leaves before it moves the iterator. -/
theorem hier_slice_of (host : Host) (selector_ui : Selector) (s s2 : Runner) (i : Nat)
    (hp : s.phase = PHASE_CLASS_ITEMS) (hit : s.iterator_match = some i)
    (hpc : _phase_class_items host s =
      some ({ s2 with iterator_match := HashMap.next s.matches_ s.iterator_match },
        (HashMap.next s.matches_ s.iterator_match).isNone))
    (hph2 : s2.phase = s.phase) :
    ∃ s1, _slice host selector_ui s = some (s1, false) ∧
      s1.phase = (if i + 1 < s.matches_.length then PHASE_CLASS_ITEMS
        else PHASE_MEMBER_ITEMS_INIT) ∧
      s1.iterator_match = HashMap.next s.matches_ (some i) ∧
      s1.matches_ = s2.matches_ ∧ s1.root_item = s2.root_item ∧
      s1.results_tree = s2.results_tree ∧ s1.class_items = s2.class_items ∧
      s1.search_flags = s2.search_flags := by
  have hh := handler_class_items host selector_ui s hp
  rw [hpc] at hh
  have hsl := slice_of_handler host selector_ui s _ _ hh
  rw [hit] at hsl
  refine ⟨_, hsl, ?_⟩
  have hph7 : s.phase + 1 = PHASE_MEMBER_ITEMS_INIT := by rw [hp]; rfl
  by_cases hlt : i + 1 < s.matches_.length
  · have hnx : HashMap.next s.matches_ (some i) = some (i + 1) := by simp [HashMap.next, hlt]
    rw [hnx, if_pos hlt]
    exact ⟨hph2.trans hp, rfl, rfl, rfl, rfl, rfl, rfl⟩
  · have hnx : HashMap.next s.matches_ (some i) = none := by simp [HashMap.next, hlt]
    rw [hnx, if_neg hlt]
    refine ⟨?_, rfl, rfl, rfl, rfl, rfl, rfl⟩
    show s2.phase + 1 = PHASE_MEMBER_ITEMS_INIT
    rw [hph2]; exact hph7

/-- One slice of the class items phase in hierarchy mode. -/
theorem hier_class_slice (host : Host) (selector_ui : Selector) (M : HashMap ClassMatch)
    (hk : Keyed M) (ha : Acyclic M) (s : Runner) (i : Nat) (key : Str) (m : ClassMatch)
    (hp : s.phase = PHASE_CLASS_ITEMS)
    (hflag : flag_set s.search_flags SEARCH_SHOW_HIERARCHY = true)
    (hinv : HInv M s) (hit : s.iterator_match = some i)
    (hent : M[i]? = some (key, m)) :
    ∃ s1, _slice host selector_ui s = some (s1, false) ∧ HInv M s1 ∧
      s1.search_flags = s.search_flags ∧
      s1.iterator_match = HashMap.next M (some i) ∧
      s1.phase = (if i + 1 < M.length then PHASE_CLASS_ITEMS else PHASE_MEMBER_ITEMS_INIT) ∧
      ∃ rows, s1.results_tree.items = s.results_tree.items ++ rows ∧
        (m.required = true →
          ∃ id row, 1 ≤ id ∧ s1.results_tree.items[id]? = some row ∧ row.metadata0 = key) := by
  have hmem : (key, m) ∈ M := List.getElem?_mem hent
  have hname : m.doc.name = key := hk.2 _ hmem
  have hget : HashMap.get? M m.doc.name = some m := by
    rw [hname]; exact HashMap.get?_of_mem M hk.1 key m hmem
  have hentry : HashMap.entry s.matches_ s.iterator_match = some (key, m) := by
    rw [hit, hinv.matches_eq]
    show List.get? M i = some (key, m)
    rw [List.get?_eq_getElem?]; exact hent
  have hlenM : s.matches_.length = M.length := by rw [hinv.matches_eq]
  cases hreq : m.required with
  | false =>
    have hpc : _phase_class_items host s =
        some ({ s with iterator_match := HashMap.next s.matches_ s.iterator_match },
          (HashMap.next s.matches_ s.iterator_match).isNone) := by
      unfold _phase_class_items
      rw [hentry]
      simp only [hflag, hreq, if_true]
      rfl
    obtain ⟨s1, g1, g2, g3, g4, g5, g6, g7, g8⟩ :=
      hier_slice_of host selector_ui s s i hp hit hpc rfl
    exact ⟨s1, g1, hinv_congr M s1 s hinv g4 g5 g6 g7, g8, by rw [g3, hinv.matches_eq],
      by rw [g2, hlenM], [], by rw [g6]; simp, fun h => by cases h⟩
  | true =>
    obtain ⟨s2, id, row, rows, c1, c2, c3, c4, c5, c6, _⟩ :=
      hierarchy_total host M hk ha (M.length + 1) s m [] hinv hget List.nodup_nil
        (by simp) (by simp)
    have hP := create_class_hierarchy_induct host
      (fun x => x.search_flags = s.search_flags ∧ x.phase = s.phase)
      (fun _ _ _ _ hx => hx) (fun _ _ hx => hx) _ _ _ _ c1 ⟨rfl, rfl⟩
    have hpc : _phase_class_items host s =
        some ({ s2 with iterator_match := HashMap.next s.matches_ s.iterator_match },
          (HashMap.next s.matches_ s.iterator_match).isNone) := by
      unfold _phase_class_items
      rw [hentry]
      simp only [hflag, hreq, if_true, hlenM, c1, Option.map_some']
    obtain ⟨s1, g1, g2, g3, g4, g5, g6, g7, g8⟩ :=
      hier_slice_of host selector_ui s s2 i hp hit hpc hP.2
    refine ⟨s1, g1, hinv_congr M s1 s2 c2 g4 g5 g6 g7, g8.trans hP.1,
      by rw [g3, hinv.matches_eq], by rw [g2, hlenM], rows, by rw [g6]; exact c6, fun _ => ?_⟩
    refine ⟨id, row, c3, by rw [g6]; exact c4, c5.trans hname⟩

/-- The slices of `_phase_class_items` in hierarchy mode, from the entry at `i` to
the end of the match map. -/
theorem hier_class_loop (host : Host) (selector_ui : Selector) (M : HashMap ClassMatch)
    (hk : Keyed M) (ha : Acyclic M) :
    ∀ (k : Nat) (s : Runner) (i : Nat), i + k + 1 = M.length →
      s.phase = PHASE_CLASS_ITEMS →
      flag_set s.search_flags SEARCH_SHOW_HIERARCHY = true →
      HInv M s → s.iterator_match = some i → Covered M s.results_tree.items i →
      ∃ n s1, slices host selector_ui n s = some s1 ∧ s1.phase = PHASE_MEMBER_ITEMS_INIT ∧
        HInv M s1 ∧ Covered M s1.results_tree.items M.length := by
  intro k
  induction k with
  | zero =>
    intro s i hlen hp hflag hinv hit hcov
    have hi : i < M.length := by omega
    have hent : M[i]? = some (M[i].1, M[i].2) := by rw [List.getElem?_eq_getElem hi]
    obtain ⟨s1, hsl, hinv1, hfl, hnx, hph, rows, hrows, hreq⟩ :=
      hier_class_slice host selector_ui M hk ha s i _ _ hp hflag hinv hit hent
    have hnlt : ¬ i + 1 < M.length := by omega
    rw [if_neg hnlt] at hph
    refine ⟨1, s1, slices_one host selector_ui s s1 false hsl, hph, hinv1, ?_⟩
    intro idx key m hidx hm hr
    by_cases hc : idx < i
    · rw [hrows]
      exact covered_append M _ rows i hcov idx key m hc hm hr
    · have he : idx = i := by omega
      subst he
      rw [hent] at hm
      cases hm
      exact hreq hr
  | succ k ih =>
    intro s i hlen hp hflag hinv hit hcov
    have hi : i < M.length := by omega
    have hent : M[i]? = some (M[i].1, M[i].2) := by rw [List.getElem?_eq_getElem hi]
    obtain ⟨s1, hsl, hinv1, hfl, hnx, hph, rows, hrows, hreq⟩ :=
      hier_class_slice host selector_ui M hk ha s i _ _ hp hflag hinv hit hent
    have hlt : i + 1 < M.length := by omega
    rw [if_pos hlt] at hph
    have hnx2 : s1.iterator_match = some (i + 1) := by rw [hnx]; simp [HashMap.next, hlt]
    have hcov1 : Covered M s1.results_tree.items (i + 1) := by
      intro idx key m hidx hm hr
      by_cases hc : idx < i
      · rw [hrows]
        exact covered_append M _ rows i hcov idx key m hc hm hr
      · have he : idx = i := by omega
        subst he
        rw [hent] at hm
        cases hm
        exact hreq hr
    obtain ⟨n, s2, hn, hph2, hinv2, hcov2⟩ := ih s1 (i + 1) (by omega) hph
      (by rw [hfl]; exact hflag) hinv1 hnx2 hcov1
    exact ⟨n + 1, s2, slices_succ host selector_ui n s s1 s2 false hsl hn, hph2, hinv2, hcov2⟩

theorem acyclic_of_rank (M : HashMap ClassMatch) (rank : Str → Nat)
    (h : ∀ k k2, follows M k k2 → rank k2 < rank k) : Acyclic M := by
  have key : ∀ k k2, Relation.TransGen (follows M) k k2 → rank k2 < rank k := by
    intro k k2 ht
    induction ht with
    | single hf => exact h _ _ hf
    | tail _ hf ih => exact lt_trans (h _ _ hf) ih
  intro k hk
  exact lt_irrefl _ (key k k hk)

theorem chain_acyclic : Acyclic Example.chain := by
  apply acyclic_of_rank _ Example.chain_rank
  rintro k k2 ⟨m, hm, hi, hne, _⟩
  unfold Example.chain HashMap.get? at hm
  split at hm
  · rename_i hk
    cases hm
    rw [← hk, ← hi]
    decide
  · unfold HashMap.get? at hm
    split at hm
    · cases hm
      exact absurd hi.symm hne
    · unfold HashMap.get? at hm
      split at hm
      · rename_i hk
        cases hm
        rw [← hk, ← hi]
        decide
      · simp [HashMap.get?] at hm

/-- What the invariant of the hierarchy says of the rows at the end of the phase. -/
theorem hinv_result (M : HashMap ClassMatch) (s1 : Runner) (h : HInv M s1)
    (hc : Covered M s1.results_tree.items M.length) :
    s1.root_item = some 0 ∧
    (∀ (i j : Nat) (ri rj : TreeItem), 1 ≤ i → 1 ≤ j → s1.results_tree.items[i]? = some ri →
      s1.results_tree.items[j]? = some rj → ri.metadata0 = rj.metadata0 → i = j) ∧
    (∀ k m, HashMap.get? M k = some m → m.required = true →
      ∃ i row, 1 ≤ i ∧ s1.results_tree.items[i]? = some row ∧ row.metadata0 = k) ∧
    (∀ (i : Nat) (row : TreeItem), 1 ≤ i → s1.results_tree.items[i]? = some row →
      HashMap.get? s1.class_items row.metadata0 = some (some i) ∧
      ∃ m, HashMap.get? M row.metadata0 = some m ∧
        ((m.doc.inherits ≠ [] ∧ HashMap.has M m.doc.inherits = true) →
          ∃ j prow, 1 ≤ j ∧ s1.results_tree.items[j]? = some prow ∧
            prow.metadata0 = m.doc.inherits ∧ row.parent = some j) ∧
        (¬ (m.doc.inherits ≠ [] ∧ HashMap.has M m.doc.inherits = true) →
          row.parent = some 0)) := by
  refine ⟨h.root, ?_, ?_, ?_⟩
  · intro i j ri rj hi hj hri hrj he
    have a := (h.rows i ri hi hri).1
    have b := (h.rows j rj hj hrj).1
    rw [he, b] at a
    simpa using a.symm
  · intro k m hm hr
    obtain ⟨idx, hidx⟩ := List.mem_iff_getElem?.mp (HashMap.get?_mem M k m hm)
    exact hc idx k m (getElem?_lt _ _ _ hidx) hidx hr
  · intro i row hi hrow
    exact h.rows i row hi hrow

/-- C12. Hierarchy memoization: in hierarchy mode, over a match map in which no class
is among its own ancestors (entries in any order), the class items phase ends, and
at its end no two rows are rows of the same class, every required class has a row,
and every row is the row of a class of the match map, recorded under its name in
`class_items`, whose parent is the row of the class it inherits when the match map
has that class and the root (row 0) otherwise. -/
theorem hierarchy_memoization (host : Host) (selector_ui : Selector) (s : Runner)
    (hp : s.phase = PHASE_CLASS_ITEMS_INIT)
    (hflag : Int.land s.search_flags SEARCH_SHOW_HIERARCHY ≠ 0)
    (hk : Keyed s.matches_) (ha : Acyclic s.matches_) :
    ∃ n s1, slices host selector_ui n s = some s1 ∧ s1.phase = PHASE_MEMBER_ITEMS_INIT ∧
      s1.root_item = some 0 ∧
      (∀ (i j : Nat) (ri rj : TreeItem), 1 ≤ i → 1 ≤ j →
        s1.results_tree.items[i]? = some ri → s1.results_tree.items[j]? = some rj →
        ri.metadata0 = rj.metadata0 → i = j) ∧
      (∀ k m, HashMap.get? s.matches_ k = some m → m.required = true →
        ∃ i row, 1 ≤ i ∧ s1.results_tree.items[i]? = some row ∧ row.metadata0 = k) ∧
      (∀ (i : Nat) (row : TreeItem), 1 ≤ i → s1.results_tree.items[i]? = some row →
        HashMap.get? s1.class_items row.metadata0 = some (some i) ∧
        ∃ m, HashMap.get? s.matches_ row.metadata0 = some m ∧
          ((m.doc.inherits ≠ [] ∧ HashMap.has s.matches_ m.doc.inherits = true) →
            ∃ j prow, 1 ≤ j ∧ s1.results_tree.items[j]? = some prow ∧
              prow.metadata0 = m.doc.inherits ∧ row.parent = some j) ∧
          (¬ (m.doc.inherits ≠ [] ∧ HashMap.has s.matches_ m.doc.inherits = true) →
            row.parent = some 0)) := by
  have hf : flag_set s.search_flags SEARCH_SHOW_HIERARCHY = true := by
    simp [flag_set, hflag]
  have hh := handler_class_items_init host selector_ui s hp
  have hsl := slice_of_handler host selector_ui s _ _ hh
  simp only [_phase_class_items_init, if_true] at hsl
  generalize hs1 : ({ ({ s with
      results_tree := (s.results_tree.clear.create_item none TreeItem.blank).1
      iterator_match := HashMap.begin s.matches_
      root_item := some (s.results_tree.clear.create_item none TreeItem.blank).2
      class_items := [] } : Runner) with phase := s.phase + 1 } : Runner) = s1 at hsl
  have h1p : s1.phase = PHASE_CLASS_ITEMS := by rw [← hs1]; show s.phase + 1 = _; rw [hp]; rfl
  have h1f : s1.search_flags = s.search_flags := by rw [← hs1]
  have h1m : s1.matches_ = s.matches_ := by rw [← hs1]
  have h1r : s1.root_item = some 0 := by rw [← hs1]; rfl
  have h1t : s1.results_tree = { items := [TreeItem.blank], root := some 0 } := by
    rw [← hs1]; rfl
  have h1c : s1.class_items = [] := by rw [← hs1]
  have h1i : s1.iterator_match = HashMap.begin s.matches_ := by rw [← hs1]
  have hinv1 : HInv s.matches_ s1 := by
    constructor
    · exact h1m
    · exact h1r
    · rw [h1t]; simp
    · intro k v hkv
      rw [h1c] at hkv
      simp [HashMap.get?] at hkv
    · intro id row hid hrow
      rw [h1t] at hrow
      have := getElem?_lt _ _ _ hrow
      simp at this
      omega
  cases hM : s.matches_ with
  | nil =>
    have hent : HashMap.entry s1.matches_ s1.iterator_match = none := by
      rw [h1i, hM]; rfl
    have hci : _phase_class_items host s1 = some (s1, true) := by
      unfold _phase_class_items; rw [hent]
    have hh2 := handler_class_items host selector_ui s1 h1p
    rw [hci] at hh2
    have hsl2 := slice_of_handler host selector_ui s1 _ _ hh2
    rw [hM] at hinv1
    have hres := hinv_result [] s1 hinv1 (fun idx key m hidx => by simp at hidx)
    refine ⟨2, _, slices_succ host selector_ui 1 s s1 _ false hsl
      (slices_one host selector_ui s1 _ false hsl2), ?_, hres⟩
    show s1.phase + 1 = _; rw [h1p]; rfl
  | cons e rest =>
    have hbegin : s1.iterator_match = some 0 := by rw [h1i, hM]; rfl
    obtain ⟨n, s2, hn, hph2, hinv2, hcov2⟩ :=
      hier_class_loop host selector_ui s.matches_ hk ha rest.length s1 0
        (by rw [hM]; simp) h1p (by rw [h1f]; exact hf) hinv1 hbegin
        (fun idx key m hidx => by omega)
    have hres := hinv_result s.matches_ s2 hinv2 hcov2
    rw [hM] at hres
    exact ⟨n + 1, s2, slices_succ host selector_ui n s s1 s2 false hsl hn, hph2, hres⟩

theorem hierarchy_memoization_witness :
    (slices Example.host Example.selector 4 Example.chain_listing).map
        (fun s => s.results_tree.items.map (fun r => (r.metadata0, r.parent))) =
      some [([], none), (lit "A", some 0), (lit "B", some 1), (lit "C", some 2)] ∧
    ∃ n s1, slices Example.host Example.selector n Example.chain_listing = some s1 ∧
      s1.phase = PHASE_MEMBER_ITEMS_INIT ∧ s1.root_item = some 0 ∧
      (∀ (i j : Nat) (ri rj : TreeItem), 1 ≤ i → 1 ≤ j →
        s1.results_tree.items[i]? = some ri → s1.results_tree.items[j]? = some rj →
        ri.metadata0 = rj.metadata0 → i = j) ∧
      (∀ k m, HashMap.get? Example.chain_listing.matches_ k = some m → m.required = true →
        ∃ i row, 1 ≤ i ∧ s1.results_tree.items[i]? = some row ∧ row.metadata0 = k) ∧
      (∀ (i : Nat) (row : TreeItem), 1 ≤ i → s1.results_tree.items[i]? = some row →
        HashMap.get? s1.class_items row.metadata0 = some (some i) ∧
        ∃ m, HashMap.get? Example.chain_listing.matches_ row.metadata0 = some m ∧
          ((m.doc.inherits ≠ [] ∧
              HashMap.has Example.chain_listing.matches_ m.doc.inherits = true) →
            ∃ j prow, 1 ≤ j ∧ s1.results_tree.items[j]? = some prow ∧
              prow.metadata0 = m.doc.inherits ∧ row.parent = some j) ∧
          (¬ (m.doc.inherits ≠ [] ∧
              HashMap.has Example.chain_listing.matches_ m.doc.inherits = true) →
            row.parent = some 0)) :=
  ⟨by with_unfolding_all rfl,
    hierarchy_memoization Example.host Example.selector Example.chain_listing rfl (by decide)
      ⟨by decide, by decide⟩ chain_acyclic⟩

/-! ## Termination of a pass -/

theorem handler_init (host : Host) (selector_ui : Selector) (s : Runner)
    (hp : s.phase = PHASE_INIT) :
    phase_handler host selector_ui s = some (some (_phase_init selector_ui s)) := by
  simp [phase_handler, hp]

theorem handler_match_classes_init (host : Host) (selector_ui : Selector) (s : Runner)
    (hp : s.phase = PHASE_MATCH_CLASSES_INIT) :
    phase_handler host selector_ui s =
      some (some (_phase_match_classes_init host selector_ui s)) := by
  simp [phase_handler, hp, PHASE_INIT, PHASE_MATCH_CLASSES_INIT]

theorem handler_node_classes_init (host : Host) (selector_ui : Selector) (s : Runner)
    (hp : s.phase = PHASE_NODE_CLASSES_INIT) :
    phase_handler host selector_ui s = some (some (_phase_node_classes_init host s)) := by
  simp [phase_handler, hp, PHASE_INIT, PHASE_MATCH_CLASSES_INIT, PHASE_NODE_CLASSES_INIT]

theorem handler_node_classes_build (host : Host) (selector_ui : Selector) (s : Runner)
    (hp : s.phase = PHASE_NODE_CLASSES_BUILD) :
    phase_handler host selector_ui s = some (_phase_node_classes_build s) := by
  simp [phase_handler, hp, PHASE_INIT, PHASE_MATCH_CLASSES_INIT, PHASE_NODE_CLASSES_INIT,
    PHASE_NODE_CLASSES_BUILD]

theorem handler_match_classes (host : Host) (selector_ui : Selector) (s : Runner)
    (hp : s.phase = PHASE_MATCH_CLASSES) :
    phase_handler host selector_ui s = some (_phase_match_classes host selector_ui s) := by
  simp [phase_handler, hp, PHASE_INIT, PHASE_MATCH_CLASSES_INIT, PHASE_NODE_CLASSES_INIT,
    PHASE_NODE_CLASSES_BUILD, PHASE_MATCH_CLASSES]

theorem handler_member_items_init (host : Host) (selector_ui : Selector) (s : Runner)
    (hp : s.phase = PHASE_MEMBER_ITEMS_INIT) :
    phase_handler host selector_ui s = some (some (_phase_member_items_init s)) := by
  simp [phase_handler, hp, PHASE_INIT, PHASE_MATCH_CLASSES_INIT, PHASE_NODE_CLASSES_INIT,
    PHASE_NODE_CLASSES_BUILD, PHASE_MATCH_CLASSES, PHASE_CLASS_ITEMS_INIT, PHASE_CLASS_ITEMS,
    PHASE_MEMBER_ITEMS_INIT]

theorem handler_member_items (host : Host) (selector_ui : Selector) (s : Runner)
    (hp : s.phase = PHASE_MEMBER_ITEMS) :
    phase_handler host selector_ui s = some (some (_phase_member_items host s)) := by
  simp [phase_handler, hp, PHASE_INIT, PHASE_MATCH_CLASSES_INIT, PHASE_NODE_CLASSES_INIT,
    PHASE_NODE_CLASSES_BUILD, PHASE_MATCH_CLASSES, PHASE_CLASS_ITEMS_INIT, PHASE_CLASS_ITEMS,
    PHASE_MEMBER_ITEMS_INIT, PHASE_MEMBER_ITEMS]

theorem handler_select_match (host : Host) (selector_ui : Selector) (s : Runner)
    (hp : s.phase = PHASE_SELECT_MATCH) :
    phase_handler host selector_ui s = some (some (_phase_select_match s)) := by
  simp [phase_handler, hp, PHASE_INIT, PHASE_MATCH_CLASSES_INIT, PHASE_NODE_CLASSES_INIT,
    PHASE_NODE_CLASSES_BUILD, PHASE_MATCH_CLASSES, PHASE_CLASS_ITEMS_INIT, PHASE_CLASS_ITEMS,
    PHASE_MEMBER_ITEMS_INIT, PHASE_MEMBER_ITEMS, PHASE_SELECT_MATCH]

theorem handler_max (host : Host) (selector_ui : Selector) (s : Runner)
    (hp : s.phase = PHASE_MAX) : phase_handler host selector_ui s = none := by
  simp [phase_handler, hp, PHASE_INIT, PHASE_MATCH_CLASSES_INIT, PHASE_NODE_CLASSES_INIT,
    PHASE_NODE_CLASSES_BUILD, PHASE_MATCH_CLASSES, PHASE_CLASS_ITEMS_INIT, PHASE_CLASS_ITEMS,
    PHASE_MEMBER_ITEMS_INIT, PHASE_MEMBER_ITEMS, PHASE_SELECT_MATCH, PHASE_MAX]

/-- At `PHASE_MAX` a slice reports the end and leaves the state as it is. -/
theorem slice_at_max (host : Host) (selector_ui : Selector) (s : Runner)
    (hp : s.phase = PHASE_MAX) : _slice host selector_ui s = some (s, true) := by
  simp [_slice, handler_max host selector_ui s hp]

/-- The slice of a phase whose handler always reports the phase done. -/
theorem slice_of_done (host : Host) (selector_ui : Selector) (s : Runner) (r : Runner × Bool)
    (h : phase_handler host selector_ui s = some (some r)) (hd : r.2 = true) :
    _slice host selector_ui s = some ({ r.1 with phase := r.1.phase + 1 }, false) := by
  have := slice_of_handler host selector_ui s r.1 r.2 h
  rw [hd] at this
  simpa using this

theorem set_length_ge {V : Type} (m : HashMap V) (k : Str) (v : V) :
    m.length ≤ (HashMap.set m k v).length := by
  induction m with
  | nil => simp [HashMap.set]
  | cons e rest ih =>
    obtain ⟨k1, v1⟩ := e
    unfold HashMap.set
    split
    · simp
    · simp only [List.length_cons]; omega

theorem begin_of_pos {V : Type} (m : HashMap V) (h : 0 < m.length) :
    HashMap.begin m = some 0 := by
  cases m with
  | nil => simp at h
  | cons a t => rfl

/-- The slice of `PHASE_INIT`. -/
theorem step_init (host : Host) (selector_ui : Selector) (s : Runner)
    (hp : s.phase = PHASE_INIT) :
    ∃ s1, _slice host selector_ui s = some (s1, false) ∧
      s1.phase = PHASE_MATCH_CLASSES_INIT ∧
      s1.search_flags = (_phase_init selector_ui s).1.search_flags ∧
      s1.vs_nodes = s.vs_nodes := by
  refine ⟨_, slice_of_done host selector_ui s _ (handler_init host selector_ui s hp) rfl,
    ?_, rfl, rfl⟩
  show s.phase + 1 = _
  rw [hp]; rfl

theorem match_classes_init_done (host : Host) (selector_ui : Selector) (s : Runner) :
    (_phase_match_classes_init host selector_ui s).2 = true ∧
    (_phase_match_classes_init host selector_ui s).1.search_flags = s.search_flags ∧
    (_phase_match_classes_init host selector_ui s).1.vs_nodes = s.vs_nodes ∧
    (_phase_match_classes_init host selector_ui s).1.matches_ = [] ∧
    (_phase_match_classes_init host selector_ui s).1.iterator_doc =
      HashMap.begin (_phase_match_classes_init host selector_ui s).1.combined_docs ∧
    host.class_list.length ≤
      (_phase_match_classes_init host selector_ui s).1.combined_docs.length := by
  unfold _phase_match_classes_init
  simp only []
  split
  · exact ⟨rfl, rfl, rfl, rfl, rfl, le_refl _⟩
  · split
    · exact ⟨rfl, rfl, rfl, rfl, rfl, le_refl _⟩
    · exact ⟨rfl, rfl, rfl, rfl, rfl, set_length_ge _ _ _⟩

/-- The slice of `PHASE_MATCH_CLASSES_INIT` over a catalog that is not empty. -/
theorem step_match_classes_init (host : Host) (selector_ui : Selector) (s : Runner)
    (hp : s.phase = PHASE_MATCH_CLASSES_INIT) (hcat : host.class_list ≠ []) :
    ∃ s1, _slice host selector_ui s = some (s1, false) ∧
      s1.phase = PHASE_NODE_CLASSES_INIT ∧ s1.search_flags = s.search_flags ∧
      s1.vs_nodes = s.vs_nodes ∧ s1.matches_ = [] ∧ s1.iterator_doc = some 0 ∧
      0 < s1.combined_docs.length := by
  obtain ⟨d1, d2, d3, d4, d5, d6⟩ := match_classes_init_done host selector_ui s
  have hpos : 0 < (_phase_match_classes_init host selector_ui s).1.combined_docs.length := by
    have : 0 < host.class_list.length := List.length_pos.mpr hcat
    omega
  refine ⟨_, slice_of_done host selector_ui s _
    (handler_match_classes_init host selector_ui s hp) d1, ?_, d2, d3, d4, ?_, hpos⟩
  · show (_phase_match_classes_init host selector_ui s).1.phase + 1 = _
    rw [match_classes_init_phase, hp]; rfl
  · show (_phase_match_classes_init host selector_ui s).1.iterator_doc = some 0
    rw [d5]; exact begin_of_pos _ hpos

/-- The slice of `PHASE_NODE_CLASSES_INIT`. -/
theorem step_node_classes_init (host : Host) (selector_ui : Selector) (s : Runner)
    (hp : s.phase = PHASE_NODE_CLASSES_INIT) :
    ∃ s1, _slice host selector_ui s = some (s1, false) ∧
      s1.phase = PHASE_NODE_CLASSES_BUILD ∧ s1.search_flags = s.search_flags ∧
      s1.vs_nodes = s.vs_nodes ++ host.registered_node_names ∧ s1.matches_ = s.matches_ ∧
      s1.iterator_doc = s.iterator_doc ∧ s.combined_docs.length ≤ s1.combined_docs.length := by
  refine ⟨_, slice_of_done host selector_ui s _
    (handler_node_classes_init host selector_ui s hp) rfl, ?_, rfl, rfl, rfl, rfl, ?_⟩
  · show s.phase + 1 = _
    rw [hp]; rfl
  · show s.combined_docs.length ≤ (HashMap.set (HashMap.set s.combined_docs _ _) _ _).length
    exact le_trans (set_length_ge _ _ _) (set_length_ge _ _ _)

/-- The slices of `PHASE_NODE_CLASSES_BUILD` over node names whose pieces the `if`
chain can read. -/
theorem node_classes_build_loop (host : Host) (selector_ui : Selector) :
    ∀ (names : List Str) (s : Runner), s.vs_nodes = names →
      (∀ x ∈ names, node_class_doc x ≠ none) → s.phase = PHASE_NODE_CLASSES_BUILD →
      ∃ n s1, slices host selector_ui n s = some s1 ∧ s1.phase = PHASE_MATCH_CLASSES ∧
        s1.search_flags = s.search_flags ∧ s1.matches_ = s.matches_ ∧
        s1.iterator_doc = s.iterator_doc ∧ s.combined_docs.length ≤ s1.combined_docs.length := by
  intro names
  induction names with
  | nil =>
    intro s hv _ hp
    have hb : _phase_node_classes_build s = some (s, true) := by
      unfold _phase_node_classes_build; rw [hv]
    have hh := handler_node_classes_build host selector_ui s hp
    rw [hb] at hh
    have hsl := slice_of_done host selector_ui s (s, true) hh rfl
    refine ⟨1, _, slices_one host selector_ui s _ false hsl, ?_, rfl, rfl, rfl, le_refl _⟩
    show s.phase + 1 = _
    rw [hp]; rfl
  | cons x rest ih =>
    intro s hv hok hp
    have hx := hok x (List.mem_cons_self _ _)
    have hstep : ∃ s1, _phase_node_classes_build s = some (s1, false) ∧ s1.vs_nodes = rest ∧
        s1.phase = s.phase ∧ s1.search_flags = s.search_flags ∧ s1.matches_ = s.matches_ ∧
        s1.iterator_doc = s.iterator_doc ∧
        s.combined_docs.length ≤ s1.combined_docs.length := by
      unfold _phase_node_classes_build
      rw [hv]
      simp only []
      cases hn : node_class_doc x with
      | none => exact absurd hn hx
      | some o =>
        cases o with
        | none => exact ⟨_, rfl, rfl, rfl, rfl, rfl, rfl, le_refl _⟩
        | some pr =>
          obtain ⟨inh, cat⟩ := pr
          exact ⟨_, rfl, rfl, rfl, rfl, rfl, rfl, set_length_ge _ _ _⟩
    obtain ⟨s1, hb, e1, e2, e3, e4, e5, e6⟩ := hstep
    have hh := handler_node_classes_build host selector_ui s hp
    rw [hb] at hh
    have hsl := slice_of_handler host selector_ui s s1 false hh
    simp only [Bool.false_eq_true, if_false] at hsl
    obtain ⟨n, s2, g1, g2, g3, g4, g5, g6⟩ := ih s1 e1
      (fun y hy => hok y (List.mem_cons_of_mem _ hy)) (e2.trans hp)
    exact ⟨n + 1, s2, slices_succ host selector_ui n s s1 s2 false hsl g1, g2, g3.trans e3,
      g4.trans e4, g5.trans e5, le_trans e6 g6⟩

theorem mem_set {V : Type} (m : HashMap V) (k : Str) (v : V) :
    ∀ e ∈ HashMap.set m k v, e = (k, v) ∨ e ∈ m := by
  induction m with
  | nil => intro e he; simp [HashMap.set] at he; exact Or.inl he
  | cons a rest ih =>
    obtain ⟨k1, v1⟩ := a
    intro e he
    unfold HashMap.set at he
    split at he
    · rename_i hk
      rcases List.mem_cons.mp he with h | h
      · left; rw [h, hk]
      · right; exact List.mem_cons_of_mem _ h
    · rcases List.mem_cons.mp he with h | h
      · right; rw [h]; exact List.mem_cons_self _ _
      · rcases ih e h with g | g
        · exact Or.inl g
        · exact Or.inr (List.mem_cons_of_mem _ g)

theorem set_keys_mem {V : Type} (m : HashMap V) (k : Str) (v : V) :
    ∀ x ∈ (HashMap.set m k v).map Prod.fst, x = k ∨ x ∈ m.map Prod.fst := by
  intro x hx
  obtain ⟨e, he, hxe⟩ := List.mem_map.mp hx
  rcases mem_set m k v e he with g | g
  · left; rw [← hxe, g]
  · right; exact List.mem_map.mpr ⟨e, g, hxe⟩

theorem set_keys_nodup {V : Type} (m : HashMap V) (k : Str) (v : V)
    (h : (m.map Prod.fst).Nodup) : ((HashMap.set m k v).map Prod.fst).Nodup := by
  induction m with
  | nil => simp [HashMap.set]
  | cons a rest ih =>
    obtain ⟨k1, v1⟩ := a
    simp only [List.map_cons, List.nodup_cons] at h
    unfold HashMap.set
    split
    · simp only [List.map_cons, List.nodup_cons]
      exact h
    · rename_i hk
      simp only [List.map_cons, List.nodup_cons]
      refine ⟨?_, ih h.2⟩
      intro hin
      rcases set_keys_mem rest k v k1 hin with g | g
      · exact hk g
      · exact h.1 g

theorem keyed_set (M : HashMap ClassMatch) (k : Str) (m : ClassMatch) (h : Keyed M)
    (hm : m.doc.name = k) : Keyed (HashMap.set M k m) := by
  refine ⟨set_keys_nodup M k m h.1, ?_⟩
  intro e he
  rcases mem_set M k m e he with g | g
  · rw [g]; exact hm
  · exact h.2 e g

theorem put_value_length {V : Type} (m : HashMap V) (it : Option Nat) (v : V) :
    (HashMap.put_value m it v).length = m.length := by
  unfold HashMap.put_value
  cases it with
  | none => rfl
  | some i =>
    simp only []
    cases List.get? m i with
    | none => rfl
    | some e => obtain ⟨k, _⟩ := e; simp

/-- One slice of `PHASE_MATCH_CLASSES` with a valid iterator. -/
theorem match_classes_slice (host : Host) (selector_ui : Selector) (s : Runner) (i : Nat)
    (hp : s.phase = PHASE_MATCH_CLASSES) (hit : s.iterator_doc = some i)
    (hi : i < s.combined_docs.length) (hk : Keyed s.matches_) :
    ∃ s1, _slice host selector_ui s = some (s1, false) ∧
      s1.phase = (if i + 1 < s.combined_docs.length then PHASE_MATCH_CLASSES
        else PHASE_CLASS_ITEMS_INIT) ∧
      s1.search_flags = s.search_flags ∧ s1.combined_docs.length = s.combined_docs.length ∧
      s1.iterator_doc = HashMap.next s.combined_docs (some i) ∧ Keyed s1.matches_ := by
  have hent : HashMap.entry s.combined_docs s.iterator_doc =
      some (s.combined_docs.get ⟨i, hi⟩) := by
    rw [hit]; exact List.get?_eq_get hi
  generalize s.combined_docs.get ⟨i, hi⟩ = e at hent
  obtain ⟨key, class_doc⟩ := e
  have hstep : ∃ s2 : Runner, _phase_match_classes host selector_ui s =
      some ({ s2 with iterator_doc := HashMap.next s.combined_docs s.iterator_doc },
        (HashMap.next s.combined_docs s.iterator_doc).isNone) ∧
      s2.phase = s.phase ∧ s2.search_flags = s.search_flags ∧
      s2.combined_docs.length = s.combined_docs.length ∧ Keyed s2.matches_ := by
    refine ⟨if class_is_matched host selector_ui s class_doc = true then
        { s with
          combined_docs := HashMap.put_value s.combined_docs s.iterator_doc
            (rewritten_doc host s class_doc)
          matches_ := HashMap.set s.matches_ (rewritten_doc host s class_doc).name
            (fill_match host s.search_flags s.term
              (_match_visual_script s.search_flags class_doc) (rewritten_doc host s class_doc)) }
      else s, ?_, ?_⟩
    · unfold _phase_match_classes
      rw [hent]
    · split
      · exact ⟨rfl, rfl, put_value_length _ _ _, keyed_set _ _ _ hk rfl⟩
      · exact ⟨rfl, rfl, rfl, hk⟩
  obtain ⟨s2, hb, e1, e2, e3, e4⟩ := hstep
  have hh := handler_match_classes host selector_ui s hp
  rw [hb] at hh
  have hsl := slice_of_handler host selector_ui s _ _ hh
  rw [hit] at hsl
  refine ⟨_, hsl, ?_⟩
  by_cases hlt : i + 1 < s.combined_docs.length
  · have hnx : HashMap.next s.combined_docs (some i) = some (i + 1) := by
      simp [HashMap.next, hlt]
    rw [hnx, if_pos hlt]
    exact ⟨e1.trans hp, e2, e3, rfl, e4⟩
  · have hnx : HashMap.next s.combined_docs (some i) = none := by simp [HashMap.next, hlt]
    rw [hnx, if_neg hlt]
    refine ⟨?_, e2, e3, rfl, e4⟩
    show s2.phase + 1 = _
    rw [e1, hp]; rfl

/-- The slices of `PHASE_MATCH_CLASSES` from a valid iterator to the end of the docs. -/
theorem match_classes_loop (host : Host) (selector_ui : Selector) :
    ∀ (k : Nat) (s : Runner) (i : Nat), i + k + 1 = s.combined_docs.length →
      s.phase = PHASE_MATCH_CLASSES → s.iterator_doc = some i → Keyed s.matches_ →
      ∃ n s1, slices host selector_ui n s = some s1 ∧ s1.phase = PHASE_CLASS_ITEMS_INIT ∧
        s1.search_flags = s.search_flags ∧ Keyed s1.matches_ := by
  intro k
  induction k with
  | zero =>
    intro s i hlen hp hit hk
    obtain ⟨s1, hsl, e1, e2, _, _, e5⟩ :=
      match_classes_slice host selector_ui s i hp hit (by omega) hk
    rw [if_neg (by omega)] at e1
    exact ⟨1, s1, slices_one host selector_ui s s1 false hsl, e1, e2, e5⟩
  | succ k ih =>
    intro s i hlen hp hit hk
    obtain ⟨s1, hsl, e1, e2, e3, e4, e5⟩ :=
      match_classes_slice host selector_ui s i hp hit (by omega) hk
    have hlt : i + 1 < s.combined_docs.length := by omega
    rw [if_pos hlt] at e1
    have hnx : s1.iterator_doc = some (i + 1) := by rw [e4]; simp [HashMap.next, hlt]
    obtain ⟨n, s2, g1, g2, g3, g4⟩ := ih s1 (i + 1) (by rw [e3]; omega) e1 hnx e5
    exact ⟨n + 1, s2, slices_succ host selector_ui n s s1 s2 false hsl g1, g2, g3.trans e2, g4⟩

/-- The slice of `PHASE_MEMBER_ITEMS_INIT`. -/
theorem step_member_items_init (host : Host) (selector_ui : Selector) (s : Runner)
    (hp : s.phase = PHASE_MEMBER_ITEMS_INIT) :
    ∃ s1, _slice host selector_ui s = some (s1, false) ∧ s1.phase = PHASE_MEMBER_ITEMS ∧
      s1.matches_ = s.matches_ ∧ s1.iterator_match = HashMap.begin s.matches_ := by
  refine ⟨_, slice_of_done host selector_ui s _
    (handler_member_items_init host selector_ui s hp) rfl, ?_, rfl, rfl⟩
  show s.phase + 1 = _
  rw [hp]; rfl

/-- One slice of `PHASE_MEMBER_ITEMS`. -/
theorem member_items_slice (host : Host) (selector_ui : Selector) (s : Runner)
    (hp : s.phase = PHASE_MEMBER_ITEMS)
    (hval : ∀ i, s.iterator_match = some i → i < s.matches_.length) :
    ∃ s1, _slice host selector_ui s = some (s1, false) ∧
      s1.phase = (if (HashMap.next s.matches_ s.iterator_match).isNone then PHASE_SELECT_MATCH
        else PHASE_MEMBER_ITEMS) ∧
      s1.matches_ = s.matches_ ∧
      s1.iterator_match = HashMap.next s.matches_ s.iterator_match := by
  have hP := phase_member_items_induct host
    (fun x => x.phase = s.phase ∧ x.matches_ = s.matches_)
    (fun _ _ _ _ hx => hx) (fun _ _ hx => hx) (fun _ _ hx => hx) s ⟨rfl, rfl⟩
  have hres : (_phase_member_items host s).2 =
        (HashMap.next s.matches_ s.iterator_match).isNone ∧
      (_phase_member_items host s).1.iterator_match =
        HashMap.next s.matches_ s.iterator_match := by
    cases hit : s.iterator_match with
    | none =>
      unfold _phase_member_items
      rw [hit]
      exact ⟨rfl, hit⟩
    | some i =>
      have hi := hval i hit
      have hent : HashMap.entry s.matches_ (some i) = some (s.matches_.get ⟨i, hi⟩) :=
        List.get?_eq_get hi
      unfold _phase_member_items
      rw [hit, hent]
      exact ⟨rfl, rfl⟩
  have hsl := slice_of_handler host selector_ui s (_phase_member_items host s).1
    (_phase_member_items host s).2 (handler_member_items host selector_ui s hp)
  rw [hres.1] at hsl
  refine ⟨_, hsl, ?_⟩
  cases hn : (HashMap.next s.matches_ s.iterator_match).isNone with
  | true =>
    simp only [if_true]
    refine ⟨?_, hP.2, hres.2⟩
    show (_phase_member_items host s).1.phase + 1 = _
    rw [hP.1, hp]; rfl
  | false =>
    simp only [Bool.false_eq_true, if_false]
    exact ⟨hP.1.trans hp, hP.2, hres.2⟩

/-- The slices of `PHASE_MEMBER_ITEMS` from a valid iterator to the end of the match
map. -/
theorem member_items_loop (host : Host) (selector_ui : Selector) :
    ∀ (k : Nat) (s : Runner) (i : Nat), i + k + 1 = s.matches_.length →
      s.phase = PHASE_MEMBER_ITEMS → s.iterator_match = some i →
      ∃ n s1, slices host selector_ui n s = some s1 ∧ s1.phase = PHASE_SELECT_MATCH := by
  intro k
  induction k with
  | zero =>
    intro s i hlen hp hit
    obtain ⟨s1, hsl, e1, _, _⟩ := member_items_slice host selector_ui s hp
      (fun j hj => by rw [hit] at hj; cases hj; omega)
    have hnx : HashMap.next s.matches_ s.iterator_match = none := by
      rw [hit]; simp [HashMap.next]; omega
    rw [hnx] at e1
    exact ⟨1, s1, slices_one host selector_ui s s1 false hsl, e1⟩
  | succ k ih =>
    intro s i hlen hp hit
    obtain ⟨s1, hsl, e1, e2, e3⟩ := member_items_slice host selector_ui s hp
      (fun j hj => by rw [hit] at hj; cases hj; omega)
    have hlt : i + 1 < s.matches_.length := by omega
    have hnx : HashMap.next s.matches_ s.iterator_match = some (i + 1) := by
      rw [hit]; simp [HashMap.next, hlt]
    rw [hnx] at e1 e3
    obtain ⟨n, s2, g1, g2⟩ := ih s1 (i + 1) (by rw [e2]; omega) e1 e3
    exact ⟨n + 1, s2, slices_succ host selector_ui n s s1 s2 false hsl g1, g2⟩

/-- The member items phase ends. -/
theorem member_items_phase (host : Host) (selector_ui : Selector) (s : Runner)
    (hp : s.phase = PHASE_MEMBER_ITEMS_INIT) :
    ∃ n s1, slices host selector_ui n s = some s1 ∧ s1.phase = PHASE_SELECT_MATCH := by
  obtain ⟨s1, hsl, e1, e2, e3⟩ := step_member_items_init host selector_ui s hp
  cases hM : s.matches_ with
  | nil =>
    have hit : s1.iterator_match = none := by rw [e3, hM]; rfl
    obtain ⟨s2, hsl2, g1, _, _⟩ := member_items_slice host selector_ui s1 e1
      (fun j hj => by rw [hit] at hj; cases hj)
    have hnx : HashMap.next s1.matches_ s1.iterator_match = none := by rw [hit]; rfl
    rw [hnx] at g1
    exact ⟨2, s2, slices_succ host selector_ui 1 s s1 s2 false hsl
      (slices_one host selector_ui s1 s2 false hsl2), g1⟩
  | cons e rest =>
    have hit : s1.iterator_match = some 0 := by rw [e3, hM]; rfl
    obtain ⟨n, s2, g1, g2⟩ := member_items_loop host selector_ui rest.length s1 0
      (by rw [e2, hM]; simp) e1 hit
    exact ⟨n + 1, s2, slices_succ host selector_ui n s s1 s2 false hsl g1, g2⟩

/-- The slice of `PHASE_SELECT_MATCH`. -/
theorem step_select_match (host : Host) (selector_ui : Selector) (s : Runner)
    (hp : s.phase = PHASE_SELECT_MATCH) :
    ∃ s1, _slice host selector_ui s = some (s1, false) ∧ s1.phase = PHASE_MAX := by
  refine ⟨_, slice_of_done host selector_ui s _
    (handler_select_match host selector_ui s hp) (select_match_done s), ?_⟩
  show (_phase_select_match s).1.phase + 1 = _
  rw [select_match_phase, hp]; rfl

/-- The hierarchy flag `_phase_init` computes is the state of the hierarchy button. -/
theorem init_hierarchy_flag (selector_ui : Selector) (s : Runner) :
    flag_set (_phase_init selector_ui s).1.search_flags SEARCH_SHOW_HIERARCHY =
      selector_ui.hierarchy_button := by
  obtain ⟨bt, bs, txt, b1, b2, b3, b4, b5, b6, b7, b8, b9, b10, sc⟩ := selector_ui
  cases b1 <;> cases b2 <;> cases b3 <;> cases b4 <;> cases b5 <;> cases b6 <;> cases b7 <;>
    cases b8 <;> cases b9 <;> cases b10 <;> rfl

theorem slices_fixed (host : Host) (selector_ui : Selector) (s : Runner)
    (h : _slice host selector_ui s = some (s, true)) :
    ∀ n, slices host selector_ui n s = some s := by
  intro n
  induction n with
  | zero => rfl
  | succ n ih => unfold slices; rw [h]; exact ih

/-- Slices that start in a phase of the enum and end before `PHASE_MAX` all return
false. -/
theorem slices_false (host : Host) (selector_ui : Selector) :
    ∀ (n : Nat) (s s1 : Runner), slices host selector_ui n s = some s1 →
      PHASE_INIT ≤ s.phase → s1.phase < PHASE_MAX →
      false_slices host selector_ui n s = some s1 := by
  intro n
  induction n with
  | zero => intro s s1 h _ _; simpa [slices, false_slices] using h
  | succ n ih =>
    intro s s1 h hlo hhi
    unfold slices at h
    split at h
    · simp at h
    · rename_i s2 r hs
      obtain ⟨ht, hf⟩ := slice_phase host selector_ui s s2 r hs
      cases r with
      | false =>
        obtain ⟨_, _, hor⟩ := hf rfl
        unfold false_slices
        rw [hs]
        apply ih s2 s1 h _ hhi
        simp only [PHASE_INIT] at *
        rcases hor with e | e <;> omega
      | true =>
        obtain ⟨he, hout⟩ := ht rfl
        subst he
        rw [slices_fixed host selector_ui s2 hs n] at h
        cases h
        simp only [PHASE_INIT, PHASE_MAX] at *
        omega

/-- Every slice of a run of slices that all return false. -/
theorem false_slices_prefix (host : Host) (selector_ui : Selector) :
    ∀ (N : Nat) (s sN : Runner), false_slices host selector_ui N s = some sN →
      ∀ n, n < N → ∃ a b, slices host selector_ui n s = some a ∧
        _slice host selector_ui a = some (b, false) ∧
        slices host selector_ui (n + 1) s = some b := by
  intro N
  induction N with
  | zero => intro s sN _ n hn; omega
  | succ N ih =>
    intro s sN h n hn
    unfold false_slices at h
    split at h
    · rename_i s1 hs
      cases n with
      | zero => exact ⟨s, s1, rfl, hs, slices_one host selector_ui s s1 false hs⟩
      | succ n =>
        obtain ⟨a, b, g1, g2, g3⟩ := ih s1 sN h n (by omega)
        exact ⟨a, b, slices_succ host selector_ui n s s1 a false hs g1, g2,
          slices_succ host selector_ui (n + 1) s s1 b false hs g3⟩
    · simp at h

/-- A call `work(0)` in a state where `_slice` returns false, the clock having
advanced between the two readings: one slice, and the call returns false. -/
theorem work_zero_step (host : Host) (selector_ui : Selector) (ticks : Nat → Nat)
    (fuel reads : Nat) (s s1 : Runner) (hfuel : 1 ≤ fuel)
    (hs : _slice host selector_ui s = some (s1, false))
    (hclock : get_ticks_usec ticks reads < get_ticks_usec ticks (reads + 1)) :
    work host selector_ui ticks 0 fuel reads s = some (s1, reads + 2, false) := by
  obtain ⟨f, rfl⟩ : ∃ f, fuel = f + 1 := ⟨fuel - 1, by omega⟩
  have hlt : get_ticks_usec ticks reads < 2 ^ 64 := Nat.mod_lt _ (by norm_num)
  unfold work
  simp only [Nat.add_zero]
  rw [Nat.mod_eq_of_lt hlt]
  unfold work_loop
  rw [hs]
  simp only []
  rw [if_pos hclock]

/-- A call of `work` in a state where `_slice` returns true. -/
theorem work_last (host : Host) (selector_ui : Selector) (ticks : Nat → Nat)
    (slot fuel reads : Nat) (s : Runner) (hfuel : 1 ≤ fuel)
    (hs : _slice host selector_ui s = some (s, true)) :
    work host selector_ui ticks slot fuel reads s = some (s, reads + 1, true) := by
  obtain ⟨f, rfl⟩ : ∃ f, fuel = f + 1 := ⟨fuel - 1, by omega⟩
  unfold work
  simp only []
  unfold work_loop
  rw [hs]

/-- A call of `work` in a state where the handler of the phase crashes or does not
end has no outcome. -/
theorem work_none (host : Host) (selector_ui : Selector) (ticks : Nat → Nat)
    (slot fuel reads : Nat) (s : Runner) (hs : _slice host selector_ui s = none) :
    work host selector_ui ticks slot fuel reads s = none := by
  unfold work
  simp only []
  cases fuel with
  | zero => rfl
  | succ f => unfold work_loop; rw [hs]

/-- Two classes that inherit each other and have no item yet: no amount of nesting
makes `_create_class_hierarchy` return for either. -/
theorem cycle_never_returns (host : Host) (s : Runner) (a b : ClassMatch)
    (ha : HashMap.has s.class_items a.doc.name = false)
    (hb : HashMap.has s.class_items b.doc.name = false)
    (hai : a.doc.inherits = b.doc.name) (hbi : b.doc.inherits = a.doc.name)
    (hane : a.doc.inherits ≠ []) (hbne : b.doc.inherits ≠ [])
    (hga : HashMap.get? s.matches_ a.doc.inherits = some b)
    (hgb : HashMap.get? s.matches_ b.doc.inherits = some a) :
    ∀ fuel, _create_class_hierarchy host fuel s a = none ∧
      _create_class_hierarchy host fuel s b = none := by
  intro fuel
  induction fuel with
  | zero => exact ⟨rfl, rfl⟩
  | succ f ih =>
    constructor
    · unfold _create_class_hierarchy
      rw [ha]
      simp only [Bool.false_eq_true, if_false, if_pos hane]
      rw [hai, hb]
      simp only [Bool.false_eq_true, if_false]
      rw [← hai, hga]
      simp only []
      rw [ih.2]
    · unfold _create_class_hierarchy
      rw [hb]
      simp only [Bool.false_eq_true, if_false, if_pos hbne]
      rw [hbi, ha]
      simp only [Bool.false_eq_true, if_false]
      rw [← hbi, hgb]
      simp only []
      rw [ih.1]

theorem slices_trans (host : Host) (selector_ui : Selector) (a b : Nat) (s s1 s2 : Runner)
    (h1 : slices host selector_ui a s = some s1) (h2 : slices host selector_ui b s1 = some s2) :
    slices host selector_ui (a + b) s = some s2 := by
  rw [slices_add, h1]
  exact h2

/-- The slice of `PHASE_CLASS_ITEMS_INIT`. -/
theorem step_class_items_init (host : Host) (selector_ui : Selector) (s : Runner)
    (hp : s.phase = PHASE_CLASS_ITEMS_INIT) :
    ∃ s1, _slice host selector_ui s = some (s1, false) ∧ s1.phase = PHASE_CLASS_ITEMS ∧
      s1.search_flags = s.search_flags ∧ s1.matches_ = s.matches_ ∧
      s1.root_item = some 0 ∧
      s1.results_tree = { items := [TreeItem.blank], root := some 0 } ∧
      s1.class_items = [] ∧ s1.iterator_match = HashMap.begin s.matches_ := by
  refine ⟨_, slice_of_done host selector_ui s _
    (handler_class_items_init host selector_ui s hp) rfl, ?_, rfl, rfl, rfl, rfl, rfl, rfl⟩
  show s.phase + 1 = _
  rw [hp]; rfl

/-- The class items phase ends: always in flat mode, and in hierarchy mode when no
class of the match map is among its own ancestors. -/
theorem class_items_phase_ends (host : Host) (selector_ui : Selector) (s : Runner)
    (hp : s.phase = PHASE_CLASS_ITEMS_INIT) (hk : Keyed s.matches_)
    (ha : flag_set s.search_flags SEARCH_SHOW_HIERARCHY = true → Acyclic s.matches_) :
    ∃ n s1, slices host selector_ui n s = some s1 ∧ s1.phase = PHASE_MEMBER_ITEMS_INIT := by
  obtain ⟨s1, hsl, h1p, h1f, h1m, h1r, h1t, h1c, h1i⟩ :=
    step_class_items_init host selector_ui s hp
  cases hM : s.matches_ with
  | nil =>
    have hent : HashMap.entry s1.matches_ s1.iterator_match = none := by
      rw [h1i, hM]; rfl
    have hci : _phase_class_items host s1 = some (s1, true) := by
      unfold _phase_class_items; rw [hent]
    have hh2 := handler_class_items host selector_ui s1 h1p
    rw [hci] at hh2
    have hsl2 := slice_of_done host selector_ui s1 (s1, true) hh2 rfl
    refine ⟨2, _, slices_succ host selector_ui 1 s s1 _ false hsl
      (slices_one host selector_ui s1 _ false hsl2), ?_⟩
    show s1.phase + 1 = _
    rw [h1p]; rfl
  | cons e rest =>
    have hbegin : s1.iterator_match = some 0 := by rw [h1i, hM]; rfl
    cases hfl : flag_set s.search_flags SEARCH_SHOW_HIERARCHY with
    | false =>
      obtain ⟨n, s2, hn, hph2, _⟩ := flat_class_loop host selector_ui 0 rest.length s1 0
        (by rw [h1m, hM]; simp) h1p (by rw [h1f]; exact hfl) h1r hbegin
      exact ⟨n + 1, s2, slices_succ host selector_ui n s s1 s2 false hsl hn, hph2⟩
    | true =>
      have hinv1 : HInv s.matches_ s1 := by
        constructor
        · exact h1m
        · exact h1r
        · rw [h1t]; simp
        · intro k v hkv
          rw [h1c] at hkv
          simp [HashMap.get?] at hkv
        · intro id row hid hrow
          rw [h1t] at hrow
          have := getElem?_lt _ _ _ hrow
          simp at this
          omega
      obtain ⟨n, s2, hn, hph2, _⟩ :=
        hier_class_loop host selector_ui s.matches_ hk (ha hfl) rest.length s1 0
          (by rw [hM]; simp) h1p (by rw [h1f]; exact hfl) hinv1 hbegin
          (fun idx key m hidx => by omega)
      exact ⟨n + 1, s2, slices_succ host selector_ui n s s1 s2 false hsl hn, hph2⟩

/-- A pass over a catalog that is not empty, with node names the `if` chain can read
and, in hierarchy mode, a match map without a class among its own ancestors, comes
to `PHASE_MAX` by slices that all return false. -/
theorem run_completes (host : Host) (selector_ui : Selector) (tree0 : ResultsTree)
    (hcat : host.class_list ≠ [])
    (hnodes : ∀ x ∈ host.registered_node_names, node_class_doc x ≠ none)
    (hacyc : selector_ui.hierarchy_button = true →
      ∀ n s, slices host selector_ui n (new selector_ui tree0) = some s →
        s.phase = PHASE_CLASS_ITEMS_INIT → Acyclic s.matches_) :
    ∃ N sN, 1 ≤ N ∧ false_slices host selector_ui N (new selector_ui tree0) = some sN ∧
      sN.phase = PHASE_MAX := by
  obtain ⟨s1, h1, p1, f1, v1⟩ := step_init host selector_ui (new selector_ui tree0) rfl
  obtain ⟨s2, h2, p2, f2, v2, m2, i2, c2⟩ :=
    step_match_classes_init host selector_ui s1 p1 hcat
  obtain ⟨s3, h3, p3, f3, v3, m3, i3, c3⟩ := step_node_classes_init host selector_ui s2 p2
  have hv3 : s3.vs_nodes = host.registered_node_names := by
    rw [v3, v2, v1]; rfl
  obtain ⟨n4, s4, h4, p4, f4, m4, i4, c4⟩ :=
    node_classes_build_loop host selector_ui s3.vs_nodes s3 rfl
      (by rw [hv3]; exact hnodes) p3
  have hk4 : Keyed s4.matches_ := by
    rw [m4, m3, m2]
    exact ⟨List.nodup_nil, fun e he => absurd he (List.not_mem_nil e)⟩
  have hi4 : s4.iterator_doc = some 0 := by rw [i4, i3, i2]
  have hc4 : 0 < s4.combined_docs.length := by omega
  obtain ⟨n5, s5, h5, p5, f5, k5⟩ :=
    match_classes_loop host selector_ui (s4.combined_docs.length - 1) s4 0 (by omega) p4 hi4 hk4
  have hflags : s5.search_flags = (_phase_init selector_ui (new selector_ui tree0)).1.search_flags := by
    rw [f5, f4, f3, f2, f1]
  have hreach5 : slices host selector_ui (1 + (1 + (1 + (n4 + n5)))) (new selector_ui tree0) =
      some s5 :=
    slices_trans host selector_ui 1 _ _ s1 s5 (slices_one host selector_ui _ s1 false h1)
      (slices_trans host selector_ui 1 _ s1 s2 s5 (slices_one host selector_ui s1 s2 false h2)
        (slices_trans host selector_ui 1 _ s2 s3 s5 (slices_one host selector_ui s2 s3 false h3)
          (slices_trans host selector_ui n4 n5 s3 s4 s5 h4 h5)))
  have hphase67 : ∃ n6 s7, slices host selector_ui n6 s5 = some s7 ∧
      s7.phase = PHASE_MEMBER_ITEMS_INIT := by
    apply class_items_phase_ends host selector_ui s5 p5 k5
    intro hfl
    have hbutton : selector_ui.hierarchy_button = true := by
      rw [← init_hierarchy_flag selector_ui (new selector_ui tree0), ← hflags]
      exact hfl
    exact hacyc hbutton _ s5 hreach5 p5
  obtain ⟨n6, s7, h6, p7⟩ := hphase67
  obtain ⟨n8, s9, h8, p9⟩ := member_items_phase host selector_ui s7 p7
  obtain ⟨s10, h9, p10⟩ := step_select_match host selector_ui s9 p9
  have hreach9 := slices_trans host selector_ui _ _ _ s5 s9 hreach5
    (slices_trans host selector_ui n6 n8 s5 s7 s9 h6 h8)
  have hfalse9 := slices_false host selector_ui _ _ s9 hreach9 (le_refl _)
    (by rw [p9]; decide)
  have hlast : false_slices host selector_ui 1 s9 = some s10 := by
    simp [false_slices, h9]
  exact ⟨_ + 1, s10, by omega,
    false_slices_add host selector_ui _ 1 _ s9 s10 hfalse9 hlast, p10⟩

/-- The phase does not go down along slices. -/
theorem slices_phase_mono (host : Host) (selector_ui : Selector) :
    ∀ (n : Nat) (s s1 : Runner), slices host selector_ui n s = some s1 →
      s.phase ≤ s1.phase := by
  intro n
  induction n with
  | zero => intro s s1 h; simp only [slices, Option.some.injEq] at h; rw [h]
  | succ n ih =>
    intro s s1 h
    unfold slices at h
    split at h
    · simp at h
    · rename_i s2 r hs
      obtain ⟨ht, hf⟩ := slice_phase host selector_ui s s2 r hs
      have h2 := ih s2 s1 h
      cases r with
      | false =>
        obtain ⟨_, _, hor⟩ := hf rfl
        rcases hor with e | e <;> omega
      | true =>
        obtain ⟨he, _⟩ := ht rfl
        rw [he] at h2
        exact h2

/-- A match map in which no class inherits a class of the map has no class among
its own ancestors. -/
theorem acyclic_of_no_base (M : HashMap ClassMatch)
    (h : ∀ e ∈ M, e.2.doc.inherits = [] ∨ HashMap.has M e.2.doc.inherits = false) :
    Acyclic M := by
  apply acyclic_of_rank M (fun _ => 0)
  rintro k k2 ⟨m, hm, hi, hne, hhas⟩
  exfalso
  rcases h (k, m) (HashMap.get?_mem M k m hm) with e | e
  · exact hne (hi ▸ e)
  · rw [← hi, e] at hhas
    cases hhas

/-- The pass over `Example.host_foo` in hierarchy mode is at `PHASE_CLASS_ITEMS_INIT`
after seven slices only, with a match map in which no class inherits another. -/
theorem foo_pass_acyclic (n : Nat) (s : Runner)
    (hreach : slices Example.host_foo Example.hierarchy_all n
      (Example.fresh Example.hierarchy_all) = some s)
    (hp : s.phase = PHASE_CLASS_ITEMS_INIT) : Acyclic s.matches_ := by
  have hlow : ∀ k, k < 7 → (slices Example.host_foo Example.hierarchy_all k
      (Example.fresh Example.hierarchy_all)).map (fun x => x.phase) ≠
        some PHASE_CLASS_ITEMS_INIT := by
    with_unfolding_all decide
  have h7 : ∃ s7, slices Example.host_foo Example.hierarchy_all 7
      (Example.fresh Example.hierarchy_all) = some s7 ∧
      ∀ e ∈ s7.matches_, e.2.doc.inherits = [] ∨
        HashMap.has s7.matches_ e.2.doc.inherits = false :=
    ⟨_, by with_unfolding_all rfl, by with_unfolding_all decide⟩
  have h8 : ∃ s8, slices Example.host_foo Example.hierarchy_all 8
      (Example.fresh Example.hierarchy_all) = some s8 ∧
      s8.phase = PHASE_CLASS_ITEMS :=
    ⟨_, by with_unfolding_all rfl, by with_unfolding_all rfl⟩
  by_cases hn : n < 7
  · exfalso
    apply hlow n hn
    rw [hreach]
    exact congrArg some hp
  · by_cases hn7 : n = 7
    · subst hn7
      obtain ⟨s7, g1, g2⟩ := h7
      rw [hreach] at g1
      cases g1
      exact acyclic_of_no_base _ g2
    · exfalso
      obtain ⟨s8, g1, g2⟩ := h8
      obtain ⟨k, rfl⟩ : ∃ k, n = 8 + k := ⟨n - 8, by omega⟩
      rw [slices_add, g1] at hreach
      have := slices_phase_mono _ _ k s8 s hreach
      rw [g2, hp] at this
      exact absurd this (by decide)

/-- C19, as amended. Zero-budget progress and termination: on a fresh runner over a
catalog that is not empty, with node names of which the `if` chain of
`_phase_node_classes_build` can read the pieces and, in hierarchy mode, a match map
in which no class is among its own ancestors, there is a number `N ≥ 1` of calls
such that, the clock advancing between its first `2 * N + 1` readings, each of the
first `N` calls `work(0)` runs one slice and returns false, and the next call
returns true at `PHASE_MAX`. -/
theorem zero_budget_progress (host : Host) (selector_ui : Selector) (tree0 : ResultsTree)
    (hcat : host.class_list ≠ [])
    (hnodes : ∀ x ∈ host.registered_node_names, node_class_doc x ≠ none)
    (hacyc : selector_ui.hierarchy_button = true →
      ∀ n s, slices host selector_ui n (new selector_ui tree0) = some s →
        s.phase = PHASE_CLASS_ITEMS_INIT → Acyclic s.matches_) :
    ∃ N, 1 ≤ N ∧ ∀ (ticks : Nat → Nat) (fuel : Nat), 1 ≤ fuel →
      (∀ k, k < 2 * N → get_ticks_usec ticks k < get_ticks_usec ticks (k + 1)) →
      (∀ n, n < N → ∃ s s1, slices host selector_ui n (new selector_ui tree0) = some s ∧
        slices host selector_ui (n + 1) (new selector_ui tree0) = some s1 ∧
        work host selector_ui ticks 0 fuel (2 * n) s = some (s1, 2 * n + 2, false)) ∧
      ∃ sN, slices host selector_ui N (new selector_ui tree0) = some sN ∧
        sN.phase = PHASE_MAX ∧
        work host selector_ui ticks 0 fuel (2 * N) sN = some (sN, 2 * N + 1, true) := by
  obtain ⟨N, sN, hN, hrun, hmax⟩ := run_completes host selector_ui tree0 hcat hnodes hacyc
  refine ⟨N, hN, ?_⟩
  intro ticks fuel hfuel hclock
  constructor
  · intro n hn
    obtain ⟨a, b, g1, g2, g3⟩ := false_slices_prefix host selector_ui N _ sN hrun n hn
    exact ⟨a, b, g1, g3, work_zero_step host selector_ui ticks fuel (2 * n) a b hfuel g2
      (hclock (2 * n) (by omega))⟩
  · exact ⟨sN, false_slices_slices host selector_ui N _ sN hrun, hmax,
      work_last host selector_ui ticks 0 fuel (2 * N) sN hfuel
        (slice_at_max host selector_ui sN hmax)⟩

theorem zero_budget_progress_witness :
    ∃ N, 1 ≤ N ∧ ∀ (ticks : Nat → Nat) (fuel : Nat), 1 ≤ fuel →
      (∀ k, k < 2 * N → get_ticks_usec ticks k < get_ticks_usec ticks (k + 1)) →
      (∀ n, n < N → ∃ s s1,
        slices Example.host_foo Example.hierarchy_all n
          (Example.fresh Example.hierarchy_all) = some s ∧
        slices Example.host_foo Example.hierarchy_all (n + 1)
          (Example.fresh Example.hierarchy_all) = some s1 ∧
        work Example.host_foo Example.hierarchy_all ticks 0 fuel (2 * n) s =
          some (s1, 2 * n + 2, false)) ∧
      ∃ sN, slices Example.host_foo Example.hierarchy_all N
          (Example.fresh Example.hierarchy_all) = some sN ∧
        sN.phase = PHASE_MAX ∧
        work Example.host_foo Example.hierarchy_all ticks 0 fuel (2 * N) sN =
          some (sN, 2 * N + 1, true) :=
  zero_budget_progress Example.host_foo Example.hierarchy_all _ (by decide)
    (fun x hx => absurd hx (List.not_mem_nil x)) (fun _ => foo_pass_acyclic)

/-- C19, the claim as stated fails on a catalog of two classes that inherit each other,
in hierarchy mode: nine slices return false and bring the runner to the first row
of the class items phase; there no call of `work` has an outcome, whatever its
budget and clock, because `_create_class_hierarchy` does not return for the class
`A`, however deep the nesting allowed. -/
theorem cyclic_catalog_run_never_finishes :
    Example.host_cycle.class_list ≠ [] ∧ Example.host_cycle.registered_node_names = [] ∧
    false_slices Example.host_cycle Example.hierarchy_all 9
      (Example.fresh Example.hierarchy_all) = some Example.cycle_state ∧
    (∀ (ticks : Nat → Nat) (slot fuel reads : Nat),
      work Example.host_cycle Example.hierarchy_all ticks slot fuel reads Example.cycle_state =
        none) ∧
    ∀ fuel, _create_class_hierarchy Example.host_cycle fuel Example.cycle_state
      Example.cycle_match_a = none := by
  refine ⟨by decide, rfl, by with_unfolding_all rfl, ?_, ?_⟩
  · intro ticks slot fuel reads
    exact work_none _ _ ticks slot fuel reads _ (by with_unfolding_all rfl)
  · intro fuel
    exact (cycle_never_returns Example.host_cycle Example.cycle_state Example.cycle_match_a
      Example.cycle_match_b (by with_unfolding_all rfl) (by with_unfolding_all rfl) rfl rfl
      (by decide) (by decide) (by with_unfolding_all rfl) (by with_unfolding_all rfl) fuel).1

/-! ## Filters, flags and scores -/

/-- C21, as amended. With `SEARCH_OPERATORS` set, a class doc whose name begins with
`operators` passes the enabled test of `_phase_match_classes` whatever the scope
flags, the base type and the feature profile say of it, and gets a match record
under the name the custom node rewrite leaves it. -/
theorem operator_bucket_exempt_from_scope (host : Host) (selector_ui : Selector) (s : Runner)
    (key : Str) (doc : ClassDoc)
    (hent : HashMap.entry s.combined_docs s.iterator_doc = some (key, doc))
    (hname : begins_with doc.name (lit "operators") = true)
    (hops : Int.land s.search_flags SEARCH_OPERATORS ≠ 0) :
    class_is_matched host selector_ui s doc = true ∧
    ∃ s1 done, _phase_match_classes host selector_ui s = some (s1, done) ∧
      ∃ m, HashMap.get? s1.matches_ (rewritten_doc host s doc).name = some m ∧
        m.doc = rewritten_doc host s doc := by
  have hvs : _match_visual_script s.search_flags doc = true := by
    simp [_match_visual_script, hname, flag_set, hops]
  have hen : class_is_matched host selector_ui s doc = true := by
    simp [class_is_matched, hvs]
  refine ⟨hen, ?_⟩
  unfold _phase_match_classes
  rw [hent]
  simp only [hen, if_true]
  exact ⟨_, _, rfl, _, HashMap.get?_set_self _ _ _, rfl⟩

theorem operator_bucket_exempt_from_scope_witness :
    _is_class_disabled_by_scope Example.host Example.selector
      Example.operators_in_search.scope_flags Example.class_operators.name = true ∧
    class_is_matched Example.host Example.selector Example.operators_in_search
      Example.class_operators = true ∧
    ∃ s1 done, _phase_match_classes Example.host Example.selector Example.operators_in_search =
        some (s1, done) ∧
      ∃ m, HashMap.get? s1.matches_
          (rewritten_doc Example.host Example.operators_in_search Example.class_operators).name =
          some m ∧
        m.doc = rewritten_doc Example.host Example.operators_in_search Example.class_operators :=
  ⟨by decide, operator_bucket_exempt_from_scope Example.host Example.selector
    Example.operators_in_search (lit "operators") Example.class_operators rfl (by decide)
    (by decide)⟩

/-- C21, the claim as stated fails: with every search kind but operators enabled and the
scope `SCOPE_RELATED`, the bucket `operators` is disabled by scope and
`_phase_match_classes` leaves the match map without an entry for it. -/
theorem operator_bucket_filtered_without_operator_search :
    begins_with Example.class_operators.name (lit "operators") = true ∧
    Int.land Example.operators_out_of_scope.search_flags SEARCH_OPERATORS = 0 ∧
    _is_class_disabled_by_scope Example.host Example.selector
      Example.operators_out_of_scope.scope_flags Example.class_operators.name = true ∧
    HashMap.entry Example.operators_out_of_scope.combined_docs
      Example.operators_out_of_scope.iterator_doc =
      some (lit "operators", Example.class_operators) ∧
    (_phase_match_classes Example.host Example.selector Example.operators_out_of_scope).map
      (fun r => r.1.matches_.map Prod.fst) = some [] := by
  refine ⟨by decide, by decide, by decide, rfl, ?_⟩
  rfl

/-- C22. When the unquoted base script name is not empty, not `.` and not a class of the
Document Source, and loading `res://` + name yields no script,
`_phase_match_classes_init` returns done and leaves `combined_docs` equal to the
class list of the Document Source, `iterator_doc` at its beginning, and the match
state reset. -/
theorem unresolvable_base_script_is_skipped (host : Host) (selector_ui : Selector) (s : Runner)
    (h1 : (unquote selector_ui.base_script).length ≠ 0)
    (h2 : unquote selector_ui.base_script ≠ lit ".")
    (h3 : HashMap.has host.class_list (unquote selector_ui.base_script) = false)
    (h4 : host.load_script (lit "res://" ++ unquote selector_ui.base_script) = none) :
    _phase_match_classes_init host selector_ui s =
      ({ s with
         combined_docs := host.class_list
         matches_ := []
         matched_item := none
         match_highest_score := Score.finite 0
         iterator_doc := HashMap.begin host.class_list }, true) := by
  unfold _phase_match_classes_init
  simp only []
  rw [if_neg (by simp [h1, h2, h3]), h4]

theorem unresolvable_base_script_is_skipped_witness :
    _phase_match_classes_init Example.host_foo Example.selector_script
        (Example.fresh Example.selector_script) =
      ({ Example.fresh Example.selector_script with
         combined_docs := Example.host_foo.class_list
         matches_ := []
         matched_item := none
         match_highest_score := Score.finite 0
         iterator_doc := HashMap.begin Example.host_foo.class_list }, true) :=
  unresolvable_base_script_is_skipped Example.host_foo Example.selector_script
    (Example.fresh Example.selector_script) (by decide) (by decide) (by decide) rfl

theorem init_flags_bits :
    ∀ b1 b2 b3 b4 b5 b6 b7 b8 b9 b10 : Bool,
      init_flags b1 b2 b3 b4 b5 b6 b7 b8 b9 b10 =
        (if b1 then SEARCH_VISUAL_SCRIPT_NODES else 0) + (if b2 then SEARCH_CLASSES else 0) +
        SEARCH_CONSTRUCTORS + (if b3 then SEARCH_METHODS else 0) +
        (if b4 then SEARCH_OPERATORS else 0) + (if b5 then SEARCH_SIGNALS else 0) +
        (if b6 then SEARCH_CONSTANTS else 0) + (if b7 then SEARCH_PROPERTIES else 0) +
        (if b8 then SEARCH_THEME_ITEMS else 0) + (if b9 then SEARCH_CASE_SENSITIVE else 0) +
        (if b10 then SEARCH_SHOW_HIERARCHY else 0) ∧
      flag_set (init_flags b1 b2 b3 b4 b5 b6 b7 b8 b9 b10) SEARCH_VISUAL_SCRIPT_NODES = b1 ∧
      flag_set (init_flags b1 b2 b3 b4 b5 b6 b7 b8 b9 b10) SEARCH_CLASSES = b2 ∧
      flag_set (init_flags b1 b2 b3 b4 b5 b6 b7 b8 b9 b10) SEARCH_CONSTRUCTORS = true ∧
      flag_set (init_flags b1 b2 b3 b4 b5 b6 b7 b8 b9 b10) SEARCH_METHODS = b3 ∧
      flag_set (init_flags b1 b2 b3 b4 b5 b6 b7 b8 b9 b10) SEARCH_OPERATORS = b4 ∧
      flag_set (init_flags b1 b2 b3 b4 b5 b6 b7 b8 b9 b10) SEARCH_SIGNALS = b5 ∧
      flag_set (init_flags b1 b2 b3 b4 b5 b6 b7 b8 b9 b10) SEARCH_CONSTANTS = b6 ∧
      flag_set (init_flags b1 b2 b3 b4 b5 b6 b7 b8 b9 b10) SEARCH_PROPERTIES = b7 ∧
      flag_set (init_flags b1 b2 b3 b4 b5 b6 b7 b8 b9 b10) SEARCH_THEME_ITEMS = b8 ∧
      flag_set (init_flags b1 b2 b3 b4 b5 b6 b7 b8 b9 b10) SEARCH_CASE_SENSITIVE = b9 ∧
      flag_set (init_flags b1 b2 b3 b4 b5 b6 b7 b8 b9 b10) SEARCH_SHOW_HIERARCHY = b10 := by
  decide!

/-- C23. Flag resolver: `_phase_init` returns done and changes `search_flags` and
`scope_flags` only; `scope_flags` becomes the id selected in the scope combo and
`search_flags` the sum of the bits of the pressed toggles and of
`SEARCH_CONSTRUCTORS`, so that each of the eleven flags is set exactly when its
toggle is pressed, `SEARCH_CONSTRUCTORS` always. -/
theorem phase_init_resolves_flags (selector_ui : Selector) (s : Runner) :
    _phase_init selector_ui s =
      ({ s with
         search_flags := (_phase_init selector_ui s).1.search_flags
         scope_flags := selector_ui.scope_combo_selected_id }, true) ∧
    (_phase_init selector_ui s).1.search_flags =
      (if selector_ui.search_visual_script_nodes then SEARCH_VISUAL_SCRIPT_NODES else 0) +
      (if selector_ui.search_classes then SEARCH_CLASSES else 0) +
      SEARCH_CONSTRUCTORS +
      (if selector_ui.search_methods then SEARCH_METHODS else 0) +
      (if selector_ui.search_operators then SEARCH_OPERATORS else 0) +
      (if selector_ui.search_signals then SEARCH_SIGNALS else 0) +
      (if selector_ui.search_constants then SEARCH_CONSTANTS else 0) +
      (if selector_ui.search_properties then SEARCH_PROPERTIES else 0) +
      (if selector_ui.search_theme_items then SEARCH_THEME_ITEMS else 0) +
      (if selector_ui.case_sensitive_button then SEARCH_CASE_SENSITIVE else 0) +
      (if selector_ui.hierarchy_button then SEARCH_SHOW_HIERARCHY else 0) ∧
    flag_set (_phase_init selector_ui s).1.search_flags SEARCH_VISUAL_SCRIPT_NODES =
      selector_ui.search_visual_script_nodes ∧
    flag_set (_phase_init selector_ui s).1.search_flags SEARCH_CLASSES =
      selector_ui.search_classes ∧
    flag_set (_phase_init selector_ui s).1.search_flags SEARCH_CONSTRUCTORS = true ∧
    flag_set (_phase_init selector_ui s).1.search_flags SEARCH_METHODS =
      selector_ui.search_methods ∧
    flag_set (_phase_init selector_ui s).1.search_flags SEARCH_OPERATORS =
      selector_ui.search_operators ∧
    flag_set (_phase_init selector_ui s).1.search_flags SEARCH_SIGNALS =
      selector_ui.search_signals ∧
    flag_set (_phase_init selector_ui s).1.search_flags SEARCH_CONSTANTS =
      selector_ui.search_constants ∧
    flag_set (_phase_init selector_ui s).1.search_flags SEARCH_PROPERTIES =
      selector_ui.search_properties ∧
    flag_set (_phase_init selector_ui s).1.search_flags SEARCH_THEME_ITEMS =
      selector_ui.search_theme_items ∧
    flag_set (_phase_init selector_ui s).1.search_flags SEARCH_CASE_SENSITIVE =
      selector_ui.case_sensitive_button ∧
    flag_set (_phase_init selector_ui s).1.search_flags SEARCH_SHOW_HIERARCHY =
      selector_ui.hierarchy_button := by
  have hf : (_phase_init selector_ui s).1.search_flags =
      init_flags selector_ui.search_visual_script_nodes selector_ui.search_classes
        selector_ui.search_methods selector_ui.search_operators selector_ui.search_signals
        selector_ui.search_constants selector_ui.search_properties
        selector_ui.search_theme_items selector_ui.case_sensitive_button
        selector_ui.hierarchy_button := rfl
  refine ⟨rfl, ?_⟩
  rw [hf]
  exact init_flags_bits _ _ _ _ _ _ _ _ _ _

/-- The walk of `_is_class_disabled_by_feature_profile` with enough fuel finds a
disabled class exactly when one stands on the chain of parents before the first
empty or unregistered name. -/
theorem profile_walk_true_iff (db : ClassDB) (dis : Str → Bool) :
    ∀ (fuel : Nat) (c : Str), db.rank c < fuel →
      (profile_walk db dis fuel c = true ↔
        ∃ k, (∀ j, j ≤ k → db.get_parent_class^[j] c ≠ [] ∧
            db.class_exists (db.get_parent_class^[j] c) = true) ∧
          dis (db.get_parent_class^[k] c) = true) := by
  intro fuel
  induction fuel with
  | zero => intro c h; omega
  | succ f ih =>
    intro c hr
    unfold profile_walk
    by_cases hc : c = []
    · rw [if_pos hc]
      constructor
      · intro h; cases h
      · rintro ⟨k, hk, _⟩
        exact absurd hc (hk 0 (Nat.zero_le _)).1
    · rw [if_neg hc]
      cases he : db.class_exists c with
      | false =>
        simp only [Bool.not_false, if_true]
        constructor
        · intro h; cases h
        · rintro ⟨k, hk, _⟩
          have := (hk 0 (Nat.zero_le _)).2
          simp only [Function.iterate_zero, id_eq] at this
          rw [he] at this
          cases this
      | true =>
        simp only [Bool.not_true, Bool.false_eq_true, if_false]
        cases hd : dis c with
        | true =>
          simp only [if_true, true_iff]
          refine ⟨0, ?_, hd⟩
          intro j hj
          have : j = 0 := by omega
          subst this
          exact ⟨hc, he⟩
        | false =>
          simp only [Bool.false_eq_true, if_false]
          have hrank := db.rank_parent c he
          rw [ih (db.get_parent_class c) (by omega)]
          constructor
          · rintro ⟨k, hk, hdk⟩
            refine ⟨k + 1, ?_, ?_⟩
            · intro j hj
              cases j with
              | zero => exact ⟨hc, he⟩
              | succ j =>
                rw [Function.iterate_succ_apply]
                exact hk j (by omega)
            · rw [Function.iterate_succ_apply]; exact hdk
          · rintro ⟨k, hk, hdk⟩
            cases k with
            | zero =>
              simp only [Function.iterate_zero, id_eq] at hdk
              rw [hd] at hdk; cases hdk
            | succ k =>
              refine ⟨k, ?_, ?_⟩
              · intro j hj
                have := hk (j + 1) (by omega)
                rw [Function.iterate_succ_apply] at this
                exact this
              · rw [Function.iterate_succ_apply] at hdk; exact hdk

/-- C24. Without a current feature profile, and for a class that is not registered,
`_is_class_disabled_by_feature_profile` returns false; with a profile it returns
true exactly when the class or one of its ancestors is disabled in the profile,
every class on the way up to that one being named and registered. The loop ends:
any number of iterations above the rank of the class gives the same value. -/
theorem feature_profile_missing_means_enabled (host : Host) (p_class : Str) :
    (host.current_profile = none →
      _is_class_disabled_by_feature_profile host p_class = false) ∧
    (host.classdb.class_exists p_class = false →
      _is_class_disabled_by_feature_profile host p_class = false) ∧
    (∀ is_class_disabled, host.current_profile = some is_class_disabled →
      (_is_class_disabled_by_feature_profile host p_class = true ↔
        ∃ k, (∀ j, j ≤ k → host.classdb.get_parent_class^[j] p_class ≠ [] ∧
            host.classdb.class_exists (host.classdb.get_parent_class^[j] p_class) = true) ∧
          is_class_disabled (host.classdb.get_parent_class^[k] p_class) = true) ∧
      ∀ fuel, host.classdb.rank p_class < fuel →
        profile_walk host.classdb is_class_disabled fuel p_class =
          _is_class_disabled_by_feature_profile host p_class) := by
  have key : ∀ is_class_disabled, host.current_profile = some is_class_disabled →
      _is_class_disabled_by_feature_profile host p_class =
        profile_walk host.classdb is_class_disabled (host.classdb.rank p_class + 1) p_class := by
    intro d hd
    unfold _is_class_disabled_by_feature_profile
    rw [hd]
  refine ⟨?_, ?_, ?_⟩
  · intro h
    unfold _is_class_disabled_by_feature_profile
    rw [h]
  · intro h
    cases hp : host.current_profile with
    | none =>
      unfold _is_class_disabled_by_feature_profile
      rw [hp]
    | some d =>
      rw [key d hp]
      unfold profile_walk
      split
      · rfl
      · simp [h]
  · intro d hd
    rw [key d hd]
    refine ⟨profile_walk_true_iff _ d _ p_class (by omega), ?_⟩
    intro fuel hfuel
    have h1 := profile_walk_true_iff host.classdb d fuel p_class hfuel
    have h2 := profile_walk_true_iff host.classdb d (host.classdb.rank p_class + 1) p_class
      (by omega)
    cases ha : profile_walk host.classdb d fuel p_class <;>
      cases hb : profile_walk host.classdb d (host.classdb.rank p_class + 1) p_class
    · rfl
    · exact absurd (h1.mpr (h2.mp hb)) (by rw [ha]; simp)
    · exact absurd (h2.mpr (h1.mp ha)) (by rw [hb]; simp)
    · rfl

theorem feature_profile_missing_means_enabled_witness :
    _is_class_disabled_by_feature_profile Example.host_profiled (lit "Sprite2D") = true ∧
    ∃ k, (∀ j, j ≤ k →
        Example.host_profiled.classdb.get_parent_class^[j] (lit "Sprite2D") ≠ [] ∧
        Example.host_profiled.classdb.class_exists
          (Example.host_profiled.classdb.get_parent_class^[j] (lit "Sprite2D")) = true) ∧
      (fun c => decide (c = lit "Node"))
        (Example.host_profiled.classdb.get_parent_class^[k] (lit "Sprite2D")) = true :=
  ⟨by decide,
    ((feature_profile_missing_means_enabled Example.host_profiled (lit "Sprite2D")).2.2
      _ rfl).1.mp (by decide)⟩

/-- An integer without a set bit is zero. -/
theorem int_eq_zero_of_testBit (x : Int) (h : ∀ k, Int.testBit x k = false) : x = 0 := by
  cases x with
  | ofNat n =>
    have : n = 0 := by
      apply Nat.eq_of_testBit_eq
      intro i
      have := h i
      simp only [Int.testBit] at this
      rw [this, Nat.zero_testBit]
    rw [this]; rfl
  | negSucc n =>
    exfalso
    have := h n
    simp only [Int.testBit] at this
    have h2 : Nat.testBit n n = false := Nat.testBit_lt_two_pow (Nat.lt_two_pow n)
    rw [h2] at this
    cases this

/-- A flag that is set in `f` is set in every value that contains all bits of `f`. -/
theorem flag_set_mono (f g bit : Int) (hsub : Int.land g f = f)
    (h : flag_set f bit = true) : flag_set g bit = true := by
  unfold flag_set at *
  simp only [bne_iff_ne, ne_eq] at *
  intro hz
  apply h
  apply int_eq_zero_of_testBit
  intro k
  have h1 : Int.testBit (Int.land g bit) k = false := by
    rw [hz]
    show Nat.testBit 0 k = false
    exact Nat.zero_testBit k
  rw [Int.testBit_land] at h1 ⊢
  have h2 : Int.testBit f k = (Int.testBit g k && Int.testBit f k) := by
    rw [← Int.testBit_land, hsub]
  rw [h2]
  cases hg : Int.testBit g k <;> cases hb : Int.testBit bit k <;> simp_all

/-- C29. With `scope_flags = SCOPE_ALL` no class is disabled by scope; with none of
`SCOPE_BASE`, `SCOPE_INHERITERS`, `SCOPE_UNRELATED` set every class is; and a class
that is not disabled under `f` is not disabled under any `g` that contains all
bits of `f`. -/
theorem scope_filter_monotone (host : Host) (selector_ui : Selector) (p_class : Str) :
    _is_class_disabled_by_scope host selector_ui SCOPE_ALL p_class = false ∧
    (∀ f, flag_set f SCOPE_BASE = false → flag_set f SCOPE_INHERITERS = false →
      flag_set f SCOPE_UNRELATED = false →
      _is_class_disabled_by_scope host selector_ui f p_class = true) ∧
    (∀ f g, Int.land g f = f →
      _is_class_disabled_by_scope host selector_ui f p_class = false →
      _is_class_disabled_by_scope host selector_ui g p_class = false) := by
  refine ⟨?_, ?_, ?_⟩
  · have h1 : flag_set SCOPE_ALL SCOPE_BASE = true := by decide
    have h2 : flag_set SCOPE_ALL SCOPE_INHERITERS = true := by decide
    have h3 : flag_set SCOPE_ALL SCOPE_UNRELATED = true := by decide
    unfold _is_class_disabled_by_scope
    simp only [h1, h2, h3, Bool.true_and]
    cases decide (p_class = selector_ui.base_script) <;>
      cases decide (selector_ui.base_type = p_class) <;>
      cases decide (p_class ∈ host.classdb.get_inheriters_from_class selector_ui.base_type) <;>
      simp
  · intro f h1 h2 h3
    unfold _is_class_disabled_by_scope
    simp [h1, h2, h3]
  · intro f g hsub hf
    have m1 := flag_set_mono f g SCOPE_BASE hsub
    have m2 := flag_set_mono f g SCOPE_INHERITERS hsub
    have m3 := flag_set_mono f g SCOPE_UNRELATED hsub
    unfold _is_class_disabled_by_scope at hf ⊢
    simp only [] at hf ⊢
    cases e1 : flag_set f SCOPE_BASE <;> cases e2 : flag_set f SCOPE_INHERITERS <;>
      cases e3 : flag_set f SCOPE_UNRELATED <;>
      cases e4 : flag_set g SCOPE_BASE <;> cases e5 : flag_set g SCOPE_INHERITERS <;>
      cases e6 : flag_set g SCOPE_UNRELATED <;>
      simp_all

theorem findn_pos_length (lc : Char → Char) (s p : Str) (h : findn lc s p > -1) :
    s.length ≠ 0 := by
  intro hs
  unfold findn find at h
  rw [if_pos (Or.inr (by simp [to_lower, hs]))] at h
  exact absurd h (by decide)

/-- C25, as amended. Two names that contain the term with the first occurrence at the
same position `pos`: when `pos = 0`, or when `pos` is at least a third of the
length of the longer name, the score of the shorter name is at least the score of
the longer one. -/
theorem shorter_name_scores_higher (host : Host) (term n1 n2 : Str) (pos : Int)
    (h1 : findn host.find_lower n1 term = pos) (h2 : findn host.find_lower n2 term = pos)
    (hpos : pos > -1) (hlen : n1.length ≤ n2.length)
    (hcase : pos = 0 ∨ (n2.length : Int) ≤ 3 * pos) :
    ∃ q1 q2, item_score host term n1 = Score.finite q1 ∧
      item_score host term n2 = Score.finite q2 ∧ q2 ≤ q1 := by
  have hl1 : n1.length ≠ 0 := findn_pos_length _ _ _ (by rw [h1]; exact hpos)
  have hl2 : n2.length ≠ 0 := findn_pos_length _ _ _ (by rw [h2]; exact hpos)
  have p1 : (0 : ℚ) < (n1.length : ℚ) := by exact_mod_cast Nat.pos_of_ne_zero hl1
  have p2 : (0 : ℚ) < (n2.length : ℚ) := by exact_mod_cast Nat.pos_of_ne_zero hl2
  have hle : (n1.length : ℚ) ≤ (n2.length : ℚ) := by exact_mod_cast hlen
  have hinv : 1 / (n2.length : ℚ) ≤ 1 / (n1.length : ℚ) := one_div_le_one_div_of_le p1 hle
  have hmin : min (1 : ℚ) (3 * (pos : ℚ) * (1 / (n1.length : ℚ))) =
      min (1 : ℚ) (3 * (pos : ℚ) * (1 / (n2.length : ℚ))) := by
    rcases hcase with h | h
    · rw [h]; simp
    · have hq : (n2.length : ℚ) ≤ 3 * (pos : ℚ) := by exact_mod_cast h
      have e2 : (1 : ℚ) ≤ 3 * (pos : ℚ) * (1 / (n2.length : ℚ)) := by
        rw [mul_one_div, le_div_iff₀ p2]; linarith
      have e1 : (1 : ℚ) ≤ 3 * (pos : ℚ) * (1 / (n1.length : ℚ)) := by
        rw [mul_one_div, le_div_iff₀ p1]; linarith
      rw [min_eq_left e1, min_eq_left e2]
  have hm1 : min (1 : ℚ) (3 * (pos : ℚ) * (1 / (n2.length : ℚ))) ≤ 1 := min_le_left _ _
  have e1 : item_score host term n1 = Score.finite
      ((1 - 1 / 2 * min 1 (3 * (pos : ℚ) * (1 / (n1.length : ℚ)))) *
        (1 - 1 / 10 + 1 / 10 * ((term.length : ℚ) * (1 / (n1.length : ℚ))))) := by
    simp only [item_score, if_neg hl1, h1, if_pos hpos]
  have e2 : item_score host term n2 = Score.finite
      ((1 - 1 / 2 * min 1 (3 * (pos : ℚ) * (1 / (n2.length : ℚ)))) *
        (1 - 1 / 10 + 1 / 10 * ((term.length : ℚ) * (1 / (n2.length : ℚ))))) := by
    simp only [item_score, if_neg hl2, h2, if_pos hpos]
  refine ⟨_, _, e1, e2, ?_⟩
  rw [hmin]
  apply mul_le_mul_of_nonneg_left
  · have ht : (0 : ℚ) ≤ (term.length : ℚ) := by positivity
    have := mul_le_mul_of_nonneg_left hinv ht
    linarith
  · linarith

theorem shorter_name_scores_higher_witness :
    ∃ q1 q2, item_score Example.host (lit "ab") (lit "abc") = Score.finite q1 ∧
      item_score Example.host (lit "ab") (lit "abcdef") = Score.finite q2 ∧ q2 ≤ q1 :=
  shorter_name_scores_higher Example.host (lit "ab") (lit "abc") (lit "abcdef") 0
    (by decide) (by decide) (by decide) (by decide) (Or.inl rfl)

/-- C25, the claim as stated fails: the term `a` first occurs at position 1 in `xab` and in
`xabcde`, and the longer name has the higher score, 11/16 against 7/15, because the
position counts relative to the length of the name. -/
theorem longer_name_can_score_higher :
    findn Example.host.find_lower (lit "xab") (lit "a") = 1 ∧
    findn Example.host.find_lower (lit "xabcde") (lit "a") = 1 ∧
    item_score Example.host (lit "a") (lit "xab") = Score.finite (7 / 15) ∧
    item_score Example.host (lit "a") (lit "xabcde") = Score.finite (11 / 16) ∧
    Score.gt (item_score Example.host (lit "a") (lit "xabcde"))
      (item_score Example.host (lit "a") (lit "xab")) = true := by
  have p1 : findn Example.host.find_lower (lit "xab") (lit "a") = 1 := by decide
  have p2 : findn Example.host.find_lower (lit "xabcde") (lit "a") = 1 := by decide
  have l0 : (lit "a").length = 1 := rfl
  have l1 : (lit "xab").length = 3 := rfl
  have l2 : (lit "xabcde").length = 6 := rfl
  have s1 : item_score Example.host (lit "a") (lit "xab") = Score.finite (7 / 15) := by
    simp only [item_score, p1, l0, l1]; norm_num
  have s2 : item_score Example.host (lit "a") (lit "xabcde") = Score.finite (11 / 16) := by
    simp only [item_score, p2, l0, l2]; norm_num
  refine ⟨p1, p2, s1, s2, ?_⟩
  rw [s1, s2]; simp [Score.gt]; norm_num

/-- C27. Evaluation at the failing input: in the class doc `_phase_match_classes_init`
synthesizes for a live base script with one method, one signal and one property,
the method and the signal have the description `No description available` and
the property has the empty description. -/
theorem synthesized_property_has_empty_description :
    (HashMap.get?
        (_phase_match_classes_init Example.host_live_script Example.selector_script
          (Example.fresh Example.selector_script)).1.combined_docs (lit "player.vs")).map
      (fun d => (d.methods.map (fun m => m.description),
        d.signals.map (fun m => m.description),
        d.properties.map (fun p => p.description))) =
      some ([lit "No description available"], [lit "No description available"], [[]]) := by
  rfl

/-! ## Depth of the class hierarchy -/

/-- A class of the match map inherits at most one class. -/
theorem follows_unique (M : HashMap ClassMatch) (k a b : Str) (ha : follows M k a)
    (hb : follows M k b) : a = b := by
  obtain ⟨m1, g1, g2, _⟩ := ha
  obtain ⟨m2, e1, e2, _⟩ := hb
  rw [g1] at e1
  cases e1
  rw [← g2, ← e2]

/-- With enough fuel for its ancestor chain, `_create_class_hierarchy` returns. -/
theorem hierarchy_returns_of_chain (host : Host) (M : HashMap ClassMatch) (hk : Keyed M)
    (k : Str) (d : Nat) (hchain : AncestorChain M k d) :
    ∀ (s : Runner) (m : ClassMatch) (fuel : Nat), s.matches_ = M →
      HashMap.get? M k = some m → m.doc.name = k → d + 1 ≤ fuel →
      ∃ r, _create_class_hierarchy host fuel s m = some r := by
  induction hchain with
  | last k hno =>
    intro s m fuel hs hm hn hfuel
    obtain ⟨f, rfl⟩ : ∃ f, fuel = f + 1 := ⟨fuel - 1, by omega⟩
    cases hhas : HashMap.has s.class_items m.doc.name with
    | true => exact ⟨_, by unfold _create_class_hierarchy; rw [if_pos hhas]⟩
    | false =>
      have hres : ∃ q, (if m.doc.inherits ≠ [] then
          if HashMap.has s.class_items m.doc.inherits then
            some (s, (HashMap.index s.class_items m.doc.inherits none).2)
          else
            match HashMap.get? s.matches_ m.doc.inherits with
            | some base_match => _create_class_hierarchy host f s base_match
            | none => some (s, s.root_item)
        else some (s, s.root_item)) = some q := by
        by_cases hin : m.doc.inherits ≠ []
        · rw [if_pos hin]
          cases hci : HashMap.has s.class_items m.doc.inherits with
          | true => exact ⟨_, by rw [if_pos rfl]⟩
          | false =>
            rw [if_neg (by simp), hs]
            cases hb : HashMap.get? M m.doc.inherits with
            | none => exact ⟨_, rfl⟩
            | some base =>
              exfalso
              exact hno m.doc.inherits ⟨m, hm, rfl, hin,
                (HashMap.has_iff_get? _ _).mpr ⟨base, hb⟩⟩
        · rw [if_neg hin]; exact ⟨_, rfl⟩
      obtain ⟨⟨s1, parent⟩, hq⟩ := hres
      exact ⟨_, create_class_hierarchy_succ host f s m hhas s1 parent hq⟩
  | step k k2 d hf _ ih =>
    intro s m fuel hs hm hn hfuel
    obtain ⟨f, rfl⟩ : ∃ f, fuel = f + 1 := ⟨fuel - 1, by omega⟩
    cases hhas : HashMap.has s.class_items m.doc.name with
    | true => exact ⟨_, by unfold _create_class_hierarchy; rw [if_pos hhas]⟩
    | false =>
      have hres : ∃ q, (if m.doc.inherits ≠ [] then
          if HashMap.has s.class_items m.doc.inherits then
            some (s, (HashMap.index s.class_items m.doc.inherits none).2)
          else
            match HashMap.get? s.matches_ m.doc.inherits with
            | some base_match => _create_class_hierarchy host f s base_match
            | none => some (s, s.root_item)
        else some (s, s.root_item)) = some q := by
        by_cases hin : m.doc.inherits ≠ []
        · rw [if_pos hin]
          cases hci : HashMap.has s.class_items m.doc.inherits with
          | true => exact ⟨_, by rw [if_pos rfl]⟩
          | false =>
            rw [if_neg (by simp), hs]
            cases hb : HashMap.get? M m.doc.inherits with
            | none => exact ⟨_, rfl⟩
            | some base =>
              simp only []
              have hfol : follows M k m.doc.inherits := ⟨m, hm, rfl, hin,
                (HashMap.has_iff_get? _ _).mpr ⟨base, hb⟩⟩
              have he : k2 = m.doc.inherits := follows_unique M k _ _ hf hfol
              have hbn : base.doc.name = m.doc.inherits :=
                hk.2 (m.doc.inherits, base) (HashMap.get?_mem _ _ _ hb)
              exact ih s base f hs (by rw [he]; exact hb) (by rw [he]; exact hbn) (by omega)
        · rw [if_neg hin]; exact ⟨_, rfl⟩
      obtain ⟨⟨s1, parent⟩, hq⟩ := hres
      exact ⟨_, create_class_hierarchy_succ host f s m hhas s1 parent hq⟩

/-- In a match map without a class among its own ancestors every class has an
ancestor chain, with fewer links than the map has classes. -/
theorem chain_of_acyclic (M : HashMap ClassMatch) (ha : Acyclic M) :
    ∀ (n : Nat) (visited : List Str) (k : Str), visited.Nodup →
      (∀ v ∈ visited, HashMap.has M v = true ∧ Relation.TransGen (follows M) v k) →
      HashMap.has M k = true → M.length ≤ visited.length + n →
      ∃ d, AncestorChain M k d ∧ d + visited.length + 1 ≤ M.length := by
  intro n
  induction n with
  | zero =>
    intro visited k hnd hv hk hlen
    have hnotin : k ∉ visited := fun hin => ha _ (hv _ hin).2
    have := nodup_keys_length M (k :: visited) (List.nodup_cons.mpr ⟨hnotin, hnd⟩)
      (by
        intro v hv2
        rcases List.mem_cons.mp hv2 with e | e
        · rw [e]; exact hk
        · exact (hv v e).1)
    simp only [List.length_cons] at this
    omega
  | succ n ih =>
    intro visited k hnd hv hk hlen
    have hnotin : k ∉ visited := fun hin => ha _ (hv _ hin).2
    have hbound := nodup_keys_length M (k :: visited) (List.nodup_cons.mpr ⟨hnotin, hnd⟩)
      (by
        intro v hv2
        rcases List.mem_cons.mp hv2 with e | e
        · rw [e]; exact hk
        · exact (hv v e).1)
    simp only [List.length_cons] at hbound
    by_cases hf : ∃ k2, follows M k k2
    · obtain ⟨k2, hf2⟩ := hf
      have hk2 : HashMap.has M k2 = true := by
        obtain ⟨_, _, _, _, h⟩ := hf2
        exact h
      obtain ⟨d, hd, hdl⟩ := ih (k :: visited) k2 (List.nodup_cons.mpr ⟨hnotin, hnd⟩)
        (by
          intro v hv2
          rcases List.mem_cons.mp hv2 with e | e
          · rw [e]; exact ⟨hk, Relation.TransGen.single hf2⟩
          · exact ⟨(hv v e).1, Relation.TransGen.tail (hv v e).2 hf2⟩)
        hk2 (by simp only [List.length_cons]; omega)
      simp only [List.length_cons] at hdl
      exact ⟨d + 1, AncestorChain.step k k2 d hf2 hd, by omega⟩
    · exact ⟨0, AncestorChain.last k (fun k2 h => hf ⟨k2, h⟩), by omega⟩

/-- A class whose chain of bases inside the match map never ends, none of the
classes on it having an item: `_create_class_hierarchy` returns for no fuel. -/
theorem hierarchy_never_returns (host : Host) (M : HashMap ClassMatch) (hk : Keyed M)
    (s : Runner) (hs : s.matches_ = M) (name : Str)
    (hstuck : ∀ k, Relation.ReflTransGen (follows M) name k →
      (∃ k2, follows M k k2) ∧ HashMap.has s.class_items k = false) :
    ∀ (fuel : Nat) (k : Str) (m : ClassMatch), Relation.ReflTransGen (follows M) name k →
      HashMap.get? M k = some m → m.doc.name = k →
      _create_class_hierarchy host fuel s m = none := by
  intro fuel
  induction fuel with
  | zero => intro k m _ _ _; rfl
  | succ f ih =>
    intro k m hreach hm hn
    obtain ⟨⟨k2, hf⟩, hno⟩ := hstuck k hreach
    have hf0 := hf
    obtain ⟨m2, g1, g2, g3, g4⟩ := hf
    rw [hm] at g1
    cases g1
    obtain ⟨base, hb⟩ := (HashMap.has_iff_get? _ _).mp g4
    have hbn : base.doc.name = k2 := hk.2 (k2, base) (HashMap.get?_mem _ _ _ hb)
    have hreach2 : Relation.ReflTransGen (follows M) name k2 :=
      Relation.ReflTransGen.tail hreach hf0
    have hno2 := (hstuck k2 hreach2).2
    unfold _create_class_hierarchy
    rw [hn, hno]
    simp only [Bool.false_eq_true, if_false]
    rw [g2, if_pos g3, hno2]
    simp only [Bool.false_eq_true, if_false]
    rw [hs, hb]
    simp only []
    rw [ih k2 base hreach2 hb hbn]

/-- From a class on a cycle of the links every class reached has a base in the map. -/
theorem cycle_has_bases (M : HashMap ClassMatch) (name : Str)
    (hcyc : Relation.TransGen (follows M) name name) :
    ∀ k, Relation.ReflTransGen (follows M) name k → ∃ k2, follows M k k2 := by
  have key : ∀ k, Relation.ReflTransGen (follows M) name k →
      Relation.TransGen (follows M) k name := by
    intro k hreach
    induction hreach with
    | refl => exact hcyc
    | tail _ hjk ih =>
      obtain ⟨b, hjb, hbn⟩ := Relation.TransGen.head'_iff.mp ih
      have e := follows_unique M _ _ _ hjb hjk
      rw [e] at hbn
      exact Relation.TransGen.trans_right hbn hcyc
  intro k hreach
  obtain ⟨b, hb, _⟩ := Relation.TransGen.head'_iff.mp (key k hreach)
  exact ⟨b, hb⟩

/-- The classes `A` and `B` of `Example.cycle_state` inherit each other, and no class
has an item there. -/
theorem cycle_state_links :
    Keyed Example.cycle_state.matches_ ∧
    HashMap.get? Example.cycle_state.matches_ Example.cycle_match_a.doc.name =
      some Example.cycle_match_a ∧
    follows Example.cycle_state.matches_ (lit "A") (lit "B") ∧
    follows Example.cycle_state.matches_ (lit "B") (lit "A") ∧
    Example.cycle_state.class_items = [] :=
  ⟨⟨by with_unfolding_all decide, by with_unfolding_all decide⟩, by with_unfolding_all rfl,
    ⟨Example.cycle_match_a, by with_unfolding_all rfl, rfl, by decide,
      by with_unfolding_all rfl⟩,
    ⟨Example.cycle_match_b, by with_unfolding_all rfl, rfl, by decide,
      by with_unfolding_all rfl⟩,
    by with_unfolding_all rfl⟩

/-- C28. For a class of the match map: when no class of the map is among its own
ancestors, the class has an ancestor chain inside the map, of fewer links than
the map has classes, and `_create_class_hierarchy` returns as soon as the nesting
allowed exceeds the number of links of the chain; when the class lies on a cycle
of `inherits` links and no class reached from it has an item,
`_create_class_hierarchy` returns for no depth of nesting. -/
theorem hierarchy_terminates_without_cycle (host : Host) (s : Runner) (m : ClassMatch)
    (hk : Keyed s.matches_) (hm : HashMap.get? s.matches_ m.doc.name = some m) :
    (Acyclic s.matches_ →
      ∃ d, AncestorChain s.matches_ m.doc.name d ∧ d + 1 ≤ s.matches_.length ∧
        ∀ fuel, d + 1 ≤ fuel → ∃ r, _create_class_hierarchy host fuel s m = some r) ∧
    (Relation.TransGen (follows s.matches_) m.doc.name m.doc.name →
      (∀ k, Relation.ReflTransGen (follows s.matches_) m.doc.name k →
        HashMap.has s.class_items k = false) →
      ∀ fuel, _create_class_hierarchy host fuel s m = none) := by
  constructor
  · intro ha
    obtain ⟨d, hd, hdl⟩ := chain_of_acyclic s.matches_ ha s.matches_.length [] m.doc.name
      List.nodup_nil (by simp) ((HashMap.has_iff_get? _ _).mpr ⟨m, hm⟩) (by simp)
    refine ⟨d, hd, by simpa using hdl, ?_⟩
    intro fuel hfuel
    exact hierarchy_returns_of_chain host s.matches_ hk m.doc.name d hd s m fuel rfl hm rfl hfuel
  · intro hcyc hno fuel
    exact hierarchy_never_returns host s.matches_ hk s rfl m.doc.name
      (fun k hr => ⟨cycle_has_bases s.matches_ m.doc.name hcyc k hr, hno k hr⟩)
      fuel m.doc.name m Relation.ReflTransGen.refl hm rfl

theorem hierarchy_terminates_without_cycle_witness :
    (∃ d, AncestorChain Example.chain_listing.matches_ (Example.name_match "C" "B").doc.name d ∧
      d + 1 ≤ Example.chain_listing.matches_.length ∧
      ∀ fuel, d + 1 ≤ fuel →
        ∃ r, _create_class_hierarchy Example.host fuel Example.chain_listing
          (Example.name_match "C" "B") = some r) ∧
    ∀ fuel, _create_class_hierarchy Example.host_cycle fuel Example.cycle_state
      Example.cycle_match_a = none :=
  ⟨(hierarchy_terminates_without_cycle Example.host Example.chain_listing
      (Example.name_match "C" "B") ⟨by decide, by decide⟩ (by decide)).1 chain_acyclic,
    (hierarchy_terminates_without_cycle Example.host_cycle Example.cycle_state
      Example.cycle_match_a cycle_state_links.1 cycle_state_links.2.1).2
      (Relation.TransGen.tail (Relation.TransGen.single cycle_state_links.2.2.1)
        cycle_state_links.2.2.2.1)
      (fun k _ => by rw [cycle_state_links.2.2.2.2]; rfl)⟩

/-! ## Class items of the hierarchy -/

theorem create_class_item_row (host : Host) (s : Runner) (p_parent : Option Nat)
    (p_doc : ClassDoc) (p_gray : Bool) :
    ∃ row, (_create_class_item host s p_parent p_doc p_gray).1.results_tree.items =
        s.results_tree.items ++ [row] ∧
      (_create_class_item host s p_parent p_doc p_gray).2 = s.results_tree.items.length ∧
      row.metadata0 = p_doc.name ∧ row.gray = p_gray ∧
      (_create_class_item host s p_parent p_doc p_gray).1.class_items = s.class_items ∧
      (_create_class_item host s p_parent p_doc p_gray).1.matches_ = s.matches_ := by
  unfold _create_class_item
  simp only []
  unfold ResultsTree.create_item
  cases p_parent with
  | some p => exact ⟨_, rfl, rfl, rfl, rfl, rfl, rfl⟩
  | none =>
    cases hr : s.results_tree.root with
    | none => exact ⟨_, rfl, rfl, rfl, rfl, rfl, rfl⟩
    | some r => exact ⟨_, rfl, rfl, rfl, rfl, rfl, rfl⟩

theorem has_item_append (s s1 : Runner) (rows : List TreeItem) (k : Str)
    (hi : s1.results_tree.items = s.results_tree.items ++ rows)
    (hc : HashMap.get? s1.class_items k = HashMap.get? s.class_items k)
    (h : HasItem s k) : HasItem s1 k := by
  obtain ⟨id, row, g1, g2, g3, g4⟩ := h
  refine ⟨id, row, by rw [hc]; exact g1, g2, ?_, g4⟩
  rw [hi, List.getElem?_append_left (getElem?_lt _ _ _ g3)]
  exact g3

/-- The class rows are kept, and the class gets an item, when
`_create_class_hierarchy` creates the row of a match of `M`. -/
theorem class_rows_create (host : Host) (M : HashMap ClassMatch) (s1 : Runner)
    (parent : Option Nat) (m : ClassMatch) (key : Str) (hmem : (key, m) ∈ M)
    (h : ClassRows M s1) :
    ClassRows M { (_create_class_item host s1 parent m.doc (!m.name)).1 with
      class_items := HashMap.set
        (_create_class_item host s1 parent m.doc (!m.name)).1.class_items m.doc.name
        (some (_create_class_item host s1 parent m.doc (!m.name)).2) } ∧
    ∀ k, k = m.doc.name ∨ HasItem s1 k →
      HasItem { (_create_class_item host s1 parent m.doc (!m.name)).1 with
        class_items := HashMap.set
          (_create_class_item host s1 parent m.doc (!m.name)).1.class_items m.doc.name
          (some (_create_class_item host s1 parent m.doc (!m.name)).2) } k := by
  obtain ⟨hne, hmemo, hgray⟩ := h
  obtain ⟨row, g1, g2, g3, g4, g5, g6⟩ := create_class_item_row host s1 parent m.doc (!m.name)
  generalize hF : ({ (_create_class_item host s1 parent m.doc (!m.name)).1 with
      class_items := HashMap.set
        (_create_class_item host s1 parent m.doc (!m.name)).1.class_items m.doc.name
        (some (_create_class_item host s1 parent m.doc (!m.name)).2) } : Runner) = F
  have hFi : F.results_tree.items = s1.results_tree.items ++ [row] := by rw [← hF]; exact g1
  have hFc : F.class_items = HashMap.set s1.class_items m.doc.name
      (some s1.results_tree.items.length) := by
    rw [← hF]
    show HashMap.set _ _ _ = _
    rw [g5, g2]
  have hlen : 1 ≤ s1.results_tree.items.length := by
    cases hi : s1.results_tree.items with
    | nil => exact absurd hi hne
    | cons a t => simp
  have hlast : F.results_tree.items[s1.results_tree.items.length]? = some row := by
    rw [hFi, List.getElem?_append_right (le_refl _)]; simp
  have hnew : HasItem F m.doc.name :=
    ⟨_, row, by rw [hFc, HashMap.get?_set_self], hlen, hlast, g3⟩
  have hold : ∀ k, HasItem s1 k → HasItem F k := by
    intro k hk
    by_cases hc : m.doc.name = k
    · rw [← hc]; exact hnew
    · exact has_item_append s1 F [row] k hFi (by rw [hFc, HashMap.get?_set, if_neg hc]) hk
  refine ⟨⟨by rw [hFi]; simp, ?_, ?_⟩, ?_⟩
  · intro k v hkv
    rw [hFc, HashMap.get?_set] at hkv
    by_cases hc : m.doc.name = k
    · rw [← hc]; exact hnew
    · rw [if_neg hc] at hkv
      exact hold k (hmemo k v hkv)
  · intro id r hid hr
    rw [hFi] at hr
    by_cases hc : id < s1.results_tree.items.length
    · rw [List.getElem?_append_left hc] at hr
      exact hgray id r hid hr
    · have hlt := getElem?_lt _ _ _ hr
      simp only [List.length_append, List.length_singleton] at hlt
      have he : id = s1.results_tree.items.length := by omega
      subst he
      rw [← hFi, hlast] at hr
      cases hr
      exact ⟨(key, m), hmem, g3, g4⟩
  · intro k hk
    rcases hk with e | e
    · rw [e]; exact hnew
    · exact hold k e

/-- What a call of `_create_class_hierarchy` that returns leaves: the class rows are
kept, the class of the match has an item, and the classes that had one keep it. -/
theorem hierarchy_rows (host : Host) (M : HashMap ClassMatch) :
    ∀ (fuel : Nat) (s : Runner) (m : ClassMatch) (key : Str) (r : Runner × Option Nat),
      _create_class_hierarchy host fuel s m = some r → s.matches_ = M → (key, m) ∈ M →
      ClassRows M s →
      r.1.matches_ = M ∧ ClassRows M r.1 ∧ HasItem r.1 m.doc.name ∧
        ∀ k, HasItem s k → HasItem r.1 k := by
  intro fuel
  induction fuel with
  | zero => intro s m key r h; simp [_create_class_hierarchy] at h
  | succ f ih =>
    intro s m key r h hs hmem hrows
    cases hhas : HashMap.has s.class_items m.doc.name with
    | true =>
      unfold _create_class_hierarchy at h
      rw [if_pos hhas] at h
      cases h
      obtain ⟨v, hv⟩ := (HashMap.has_iff_get? _ _).mp hhas
      exact ⟨hs, hrows, hrows.2.1 _ v hv, fun k hk => hk⟩
    | false =>
      have hstep : ∃ s1 parent,
          (if m.doc.inherits ≠ [] then
            if HashMap.has s.class_items m.doc.inherits then
              some (s, (HashMap.index s.class_items m.doc.inherits none).2)
            else
              match HashMap.get? s.matches_ m.doc.inherits with
              | some base_match => _create_class_hierarchy host f s base_match
              | none => some (s, s.root_item)
          else some (s, s.root_item)) = some (s1, parent) ∧
          s1.matches_ = M ∧ ClassRows M s1 ∧ ∀ k, HasItem s k → HasItem s1 k := by
        cases hq : (if m.doc.inherits ≠ [] then
            if HashMap.has s.class_items m.doc.inherits then
              some (s, (HashMap.index s.class_items m.doc.inherits none).2)
            else
              match HashMap.get? s.matches_ m.doc.inherits with
              | some base_match => _create_class_hierarchy host f s base_match
              | none => some (s, s.root_item)
          else some (s, s.root_item)) with
        | none =>
          exfalso
          have key : ∀ res : Option (Runner × Option Nat), res = none →
              (match res with
                | none => none
                | some (s1, parent) =>
                  some ({ (_create_class_item host s1 parent m.doc (!m.name)).1 with
                      class_items := HashMap.set
                        (_create_class_item host s1 parent m.doc (!m.name)).1.class_items
                        m.doc.name
                        (some (_create_class_item host s1 parent m.doc (!m.name)).2) },
                    some (_create_class_item host s1 parent m.doc (!m.name)).2)) = some r →
              False := by
            intro res hr hh
            subst hr
            cases hh
          unfold _create_class_hierarchy at h
          rw [if_neg (by rw [hhas]; simp)] at h
          exact key _ hq h
        | some q =>
          obtain ⟨s1, parent⟩ := q
          refine ⟨s1, parent, rfl, ?_⟩
          by_cases hin : m.doc.inherits ≠ []
          · rw [if_pos hin] at hq
            cases hci : HashMap.has s.class_items m.doc.inherits with
            | true =>
              rw [hci] at hq
              simp only [if_true, Option.some.injEq, Prod.mk.injEq] at hq
              obtain ⟨e1, _⟩ := hq
              subst e1
              exact ⟨hs, hrows, fun k hk => hk⟩
            | false =>
              rw [hci] at hq
              simp only [Bool.false_eq_true, if_false] at hq
              cases hb : HashMap.get? s.matches_ m.doc.inherits with
              | none =>
                rw [hb] at hq
                simp only [Option.some.injEq, Prod.mk.injEq] at hq
                obtain ⟨e1, _⟩ := hq
                subst e1
                exact ⟨hs, hrows, fun k hk => hk⟩
              | some base =>
                rw [hb] at hq
                simp only [] at hq
                have hbm : (m.doc.inherits, base) ∈ M := by
                  rw [← hs]; exact HashMap.get?_mem _ _ _ hb
                obtain ⟨g1, g2, _, g4⟩ := ih s base m.doc.inherits (s1, parent) hq hs hbm hrows
                exact ⟨g1, g2, g4⟩
          · rw [if_neg hin] at hq
            simp only [Option.some.injEq, Prod.mk.injEq] at hq
            obtain ⟨e1, _⟩ := hq
            subst e1
            exact ⟨hs, hrows, fun k hk => hk⟩
      obtain ⟨s1, parent, hres, hs1, hrows1, hmono⟩ := hstep
      rw [create_class_hierarchy_succ host f s m hhas s1 parent hres] at h
      cases h
      obtain ⟨c1, c2⟩ := class_rows_create host M s1 parent m key hmem hrows1
      refine ⟨?_, c1, c2 _ (Or.inl rfl), fun k hk => c2 k (Or.inr (hmono k hk))⟩
      show (_create_class_item host s1 parent m.doc (!m.name)).1.matches_ = M
      obtain ⟨_, _, _, _, _, _, g6⟩ := create_class_item_row host s1 parent m.doc (!m.name)
      rw [g6]; exact hs1

theorem get?_append_of_some {V : Type} (m : HashMap V) (k k2 : Str) (v dflt : V)
    (h : HashMap.get? m k = some v) : HashMap.get? (m ++ [(k2, dflt)]) k = some v := by
  induction m with
  | nil => simp [HashMap.get?] at h
  | cons e rest ih =>
    obtain ⟨k1, v1⟩ := e
    show HashMap.get? ((k1, v1) :: (rest ++ [(k2, dflt)])) k = some v
    unfold HashMap.get? at h ⊢
    by_cases hc : k1 = k
    · rw [if_pos hc] at h ⊢; exact h
    · rw [if_neg hc] at h ⊢; exact ih h

/-- The lookup `class_items[k2]` of `_phase_member_items` keeps the items of the
classes that have one. -/
theorem has_item_index (s : Runner) (k k2 : Str) (h : HasItem s k) :
    HasItem { s with class_items := (HashMap.index s.class_items k2 none).1 } k := by
  obtain ⟨id, row, g1, g2, g3, g4⟩ := h
  refine ⟨id, row, ?_, g2, g3, g4⟩
  show HashMap.get? (HashMap.index s.class_items k2 none).1 k = some (some id)
  unfold HashMap.index
  cases hg : HashMap.get? s.class_items k2 with
  | some v => exact g1
  | none => exact get?_append_of_some _ _ _ _ _ g1

theorem has_item_add_scored_row (host : Host) (s : Runner) (p : Option Nat) (cells : TreeItem)
    (k : Str) (h : HasItem s k) : HasItem (add_scored_row host s p cells) k := by
  have hrows : ∃ row, (add_scored_row host s p cells).results_tree.items =
      s.results_tree.items ++ [row] := by
    unfold add_scored_row _match_item ResultsTree.create_item
    cases p with
    | some q => exact ⟨_, rfl⟩
    | none =>
      cases hr : s.results_tree.root with
      | none => exact ⟨_, rfl⟩
      | some r => exact ⟨_, rfl⟩
  obtain ⟨row, hrow⟩ := hrows
  exact has_item_append s _ [row] k hrow rfl h

theorem has_item_select_row (s : Runner) (item : Nat) (k : Str) (h : HasItem s k) :
    HasItem { s with results_tree := select_row s.results_tree item } k := by
  obtain ⟨id, row, g1, g2, g3, g4⟩ := h
  show ∃ id row, HashMap.get? s.class_items k = some (some id) ∧ 1 ≤ id ∧
    (select_row s.results_tree item).items[id]? = some row ∧ row.metadata0 = k
  unfold select_row
  cases hg : List.get? s.results_tree.items item with
  | none => exact ⟨id, row, g1, g2, g3, g4⟩
  | some r =>
    simp only []
    by_cases hc : item = id
    · subst hc
      have h1 : s.results_tree.items[item]? = some r := by simpa using hg
      rw [g3] at h1
      cases h1
      refine ⟨item, { row with selected := true }, g1, g2, ?_, g4⟩
      rw [List.getElem?_set, if_pos rfl, if_pos (getElem?_lt _ _ _ g3)]
    · refine ⟨id, row, g1, g2, ?_, g4⟩
      rw [List.getElem?_set, if_neg hc]
      exact g3

/-- The handler of `PHASE_CLASS_ITEMS` keeps what holds while the class items are
built, and when it reports the phase done every required match has its item. -/
theorem building_classes_step (host : Host) (M : HashMap ClassMatch) (s s2 : Runner)
    (done : Bool) (hb : BuildingClasses M s)
    (h : _phase_class_items host s = some (s2, done)) :
    (done = false → BuildingClasses M s2) ∧
      (done = true → InHierarchy M s2 ∧ ClassRows M s2 ∧ AllItems M s2) := by
  obtain ⟨hm, hflag, hrows, hit⟩ := hb
  rcases hit with ⟨i, hi, hlt, hupto⟩ | ⟨hnil, hi⟩
  · have hlt2 : i < s.matches_.length := by rw [hm]; exact hlt
    obtain ⟨e, he⟩ : ∃ e, M[i]? = some e := ⟨M[i], by simp [hlt]⟩
    obtain ⟨key, m⟩ := e
    have hent : HashMap.entry s.matches_ s.iterator_match = some (key, m) := by
      rw [hi, hm]; simpa [HashMap.entry] using he
    have hmem : (key, m) ∈ M := List.getElem?_mem he
    have hnext : HashMap.next s.matches_ s.iterator_match =
        if i + 1 < M.length then some (i + 1) else none := by
      rw [hi, hm]; rfl
    -- the state after the row of the entry, before the iterator moves
    have hmid : ∃ s1 : Runner, s2 = { s1 with
          iterator_match := HashMap.next s.matches_ s.iterator_match } ∧
        done = (HashMap.next s.matches_ s.iterator_match).isNone ∧
        s1.matches_ = M ∧ flag_set s1.search_flags SEARCH_SHOW_HIERARCHY = true ∧
        ClassRows M s1 ∧ ItemsUpTo M s1 (i + 1) := by
      unfold _phase_class_items at h
      rw [hent] at h
      simp only [hflag, if_true] at h
      cases hreq : m.required with
      | false =>
        rw [hreq] at h
        simp only [Bool.false_eq_true, if_false, Option.some.injEq, Prod.mk.injEq] at h
        refine ⟨s, h.1.symm, h.2.symm, hm, hflag, hrows, ?_⟩
        intro idx key2 m2 hidx hget hr2
        by_cases hc : idx < i
        · exact hupto idx key2 m2 hc hget hr2
        · have hidx2 : idx = i := by omega
          subst hidx2
          rw [he] at hget
          cases hget
          rw [hreq] at hr2
          cases hr2
      | true =>
        rw [hreq] at h
        simp only [if_true] at h
        cases hcall : _create_class_hierarchy host (s.matches_.length + 1) s m with
        | none => rw [hcall] at h; simp at h
        | some r =>
          rw [hcall] at h
          simp only [Option.map_some', Option.some.injEq, Prod.mk.injEq] at h
          obtain ⟨g1, g2, g3, g4⟩ := hierarchy_rows host M _ s m key r hcall hm hmem hrows
          have hfl : flag_set r.1.search_flags SEARCH_SHOW_HIERARCHY = true :=
            create_class_hierarchy_induct host
              (fun x => flag_set x.search_flags SEARCH_SHOW_HIERARCHY = true)
              (fun _ _ _ _ hx => hx) (fun _ _ hx => hx) _ s m r hcall hflag
          refine ⟨r.1, h.1.symm, h.2.symm, g1, hfl, g2, ?_⟩
          intro idx key2 m2 hidx hget hr2
          by_cases hc : idx < i
          · exact g4 _ (hupto idx key2 m2 hc hget hr2)
          · have hidx2 : idx = i := by omega
            subst hidx2
            rw [he] at hget
            cases hget
            exact g3
    obtain ⟨s1, e1, e2, k1, k2, k3, k4⟩ := hmid
    rw [hnext] at e1 e2
    subst e1
    by_cases hc : i + 1 < M.length
    · rw [if_pos hc] at e2
      refine ⟨fun _ => ⟨k1, k2, k3, Or.inl ⟨i + 1, ?_, hc, k4⟩⟩, fun hd => ?_⟩
      · show (if i + 1 < M.length then some (i + 1) else none) = some (i + 1)
        rw [if_pos hc]
      · rw [hd] at e2; simp at e2
    · rw [if_neg hc] at e2
      refine ⟨fun hd => ?_, fun _ => ⟨⟨k1, k2⟩, k3, ?_⟩⟩
      · rw [hd] at e2; simp at e2
      · intro e hemem hreq
        obtain ⟨idx, hidx⟩ := List.mem_iff_getElem?.mp hemem
        have hl := getElem?_lt _ _ _ hidx
        exact k4 idx e.1 e.2 (by omega) hidx hreq
  · have hent : HashMap.entry s.matches_ s.iterator_match = none := by rw [hi]; rfl
    unfold _phase_class_items at h
    rw [hent] at h
    simp only [Option.some.injEq, Prod.mk.injEq] at h
    obtain ⟨e1, e2⟩ := h
    subst e1
    refine ⟨fun hd => ?_, fun _ => ⟨⟨hm, hflag⟩, hrows, ?_⟩⟩
    · rw [hd] at e2; cases e2
    · intro e hemem
      rw [hnil] at hemem
      cases hemem

/-- The first slice of the class items phase starts the building of the class
items. -/
theorem building_classes_init (M : HashMap ClassMatch) (s : Runner) (hm : s.matches_ = M)
    (hflag : flag_set s.search_flags SEARCH_SHOW_HIERARCHY = true) :
    BuildingClasses M (_phase_class_items_init s).1 := by
  refine ⟨hm, hflag, ⟨?_, ?_, ?_⟩, ?_⟩
  · simp [_phase_class_items_init, ResultsTree.create_item, ResultsTree.clear]
  · intro k v hkv
    simp [_phase_class_items_init, HashMap.get?] at hkv
  · intro id row hid hrow
    have hitems : (_phase_class_items_init s).1.results_tree.items = [TreeItem.blank] := rfl
    rw [hitems] at hrow
    have hl := getElem?_lt _ _ _ hrow
    simp only [List.length_singleton] at hl
    omega
  · show (∃ i, HashMap.begin s.matches_ = some i ∧ i < M.length ∧
      ItemsUpTo M (_phase_class_items_init s).1 i) ∨ (M = [] ∧ HashMap.begin s.matches_ = none)
    rw [hm]
    cases hM : M with
    | nil => exact Or.inr ⟨rfl, rfl⟩
    | cons e rest =>
      refine Or.inl ⟨0, rfl, by simp, ?_⟩
      intro idx key m hidx
      omega

/-- The member rows leave the class items of the required matches in place. -/
theorem all_items_member_items (host : Host) (M : HashMap ClassMatch) (s : Runner)
    (h : InHierarchy M s ∧ AllItems M s) :
    InHierarchy M (_phase_member_items host s).1 ∧ AllItems M (_phase_member_items host s).1 :=
  phase_member_items_induct_lookup host (fun x => InHierarchy M x ∧ AllItems M x)
    (fun x p cells _ hx =>
      ⟨hx.1, fun e he hr => has_item_add_scored_row host x p cells _ (hx.2 e he hr)⟩)
    (fun x k hx => ⟨hx.1, fun e he hr => has_item_index x _ k (hx.2 e he hr)⟩)
    (fun _ _ hx => hx) s h

/-- One slice keeps `ClassInv`. -/
theorem class_inv_slice (host : Host) (selector_ui : Selector) (M : HashMap ClassMatch)
    (s s1 : Runner) (r : Bool) (hinv : ClassInv M s.phase s)
    (h : _slice host selector_ui s = some (s1, r)) : ClassInv M s1.phase s1 := by
  obtain ⟨ht, hf⟩ := slice_phase host selector_ui s s1 r h
  cases r with
  | true =>
    rw [(ht rfl).1]; exact hinv
  | false =>
    obtain ⟨hlo, hhi, _⟩ := hf rfl
    have hcase : s.phase = PHASE_CLASS_ITEMS_INIT ∨ s.phase = PHASE_CLASS_ITEMS ∨
        s.phase = PHASE_MEMBER_ITEMS_INIT ∨ s.phase = PHASE_MEMBER_ITEMS ∨
        s.phase = PHASE_SELECT_MATCH := by
      by_contra hnot
      have hlt : s.phase < PHASE_CLASS_ITEMS_INIT := by
        simp only [PHASE_INIT, PHASE_CLASS_ITEMS_INIT, PHASE_CLASS_ITEMS,
          PHASE_MEMBER_ITEMS_INIT, PHASE_MEMBER_ITEMS, PHASE_SELECT_MATCH, PHASE_MAX] at *
        omega
      unfold ClassInv at hinv
      simp only [PHASE_CLASS_ITEMS_INIT, PHASE_CLASS_ITEMS,
        PHASE_MEMBER_ITEMS_INIT, PHASE_MEMBER_ITEMS] at hinv hlt
      rw [if_neg (by omega), if_neg (by omega), if_neg (by omega), if_neg (by omega)] at hinv
      exact hinv
    rcases hcase with hp | hp | hp | hp | hp
    · rw [hp] at hinv
      have hI : InHierarchy M s := hinv
      rw [slice_of_handler host selector_ui s _ true
        (handler_class_items_init host selector_ui s hp)] at h
      simp only [if_true, Option.some.injEq, Prod.mk.injEq, and_true] at h
      rw [← h]
      show ClassInv M (s.phase + 1) _
      rw [hp]
      exact building_classes_init M s hI.1 hI.2
    · rw [hp] at hinv
      have hI : BuildingClasses M s := hinv
      have hh := handler_class_items host selector_ui s hp
      cases hc : _phase_class_items host s with
      | none =>
        rw [hc] at hh
        simp [_slice, hh] at h
      | some q =>
        obtain ⟨s2, done⟩ := q
        rw [hc] at hh
        rw [slice_of_handler host selector_ui s s2 done hh] at h
        simp only [Option.some.injEq, Prod.mk.injEq, and_true] at h
        have hph : s2.phase = PHASE_CLASS_ITEMS := by
          have := phase_class_items_induct host (fun x => x.phase = s.phase)
            (fun _ _ _ _ hx => hx) (fun _ _ hx => hx) (fun _ _ hx => hx) s (s2, done) hc rfl
          rw [← hp]; exact this
        obtain ⟨c1, c2⟩ := building_classes_step host M s s2 done hI hc
        rw [← h]
        cases done with
        | false =>
          show ClassInv M s2.phase s2
          rw [hph]
          exact c1 rfl
        | true =>
          show ClassInv M (s2.phase + 1) { s2 with phase := s2.phase + 1 }
          rw [hph]
          exact c2 rfl
    · rw [hp] at hinv
      have hI : InHierarchy M s ∧ ClassRows M s ∧ AllItems M s := hinv
      rw [slice_of_handler host selector_ui s _ true
        (handler_member_items_init host selector_ui s hp)] at h
      simp only [if_true, Option.some.injEq, Prod.mk.injEq, and_true] at h
      rw [← h]
      show ClassInv M (s.phase + 1) _
      rw [hp]
      exact ⟨hI.1, hI.2.2⟩
    · rw [hp] at hinv
      have hI : InHierarchy M s ∧ AllItems M s := hinv
      have hh := handler_member_items host selector_ui s hp
      have hph : (_phase_member_items host s).1.phase = PHASE_MEMBER_ITEMS := by
        have := phase_member_items_induct host (fun x => x.phase = s.phase)
          (fun _ _ _ _ hx => hx) (fun _ _ hx => hx) (fun _ _ hx => hx) s rfl
        rw [← hp]; exact this
      rw [slice_of_handler host selector_ui s (_phase_member_items host s).1
        (_phase_member_items host s).2 hh] at h
      simp only [Option.some.injEq, Prod.mk.injEq, and_true] at h
      have hA := all_items_member_items host M s hI
      rw [← h]
      cases (_phase_member_items host s).2 with
      | false =>
        show ClassInv M (_phase_member_items host s).1.phase _
        rw [hph]
        exact hA
      | true =>
        show ClassInv M ((_phase_member_items host s).1.phase + 1) _
        rw [hph]
        exact hA
    · rw [hp] at hinv
      have hI : InHierarchy M s ∧ AllItems M s := hinv
      rw [slice_of_handler host selector_ui s _ true
        (by rw [handler_select_match host selector_ui s hp]
            show some (some (_phase_select_match s)) = some (some ((_phase_select_match s).1, true))
            unfold _phase_select_match
            cases s.matched_item <;> rfl)] at h
      simp only [if_true, Option.some.injEq, Prod.mk.injEq, and_true] at h
      rw [← h]
      show ClassInv M ((_phase_select_match s).1.phase + 1) _
      have hph : (_phase_select_match s).1.phase = s.phase := by
        unfold _phase_select_match
        cases s.matched_item <;> rfl
      rw [hph, hp]
      show InHierarchy M (_phase_select_match s).1 ∧ AllItems M (_phase_select_match s).1
      unfold _phase_select_match
      cases hmi : s.matched_item with
      | none => exact hI
      | some item => exact ⟨hI.1, fun e he hr => has_item_select_row s item _ (hI.2 e he hr)⟩

/-- A match with a matched method, signal, constant, property or theme item is
required. -/
theorem required_of_member (m : ClassMatch)
    (h : m.methods ≠ [] ∨ m.signals ≠ [] ∨ m.constants ≠ [] ∨ m.properties ≠ [] ∨
      m.theme_properties ≠ []) : m.required = true := by
  unfold ClassMatch.required
  rcases h with h | h | h | h | h
  all_goals simp [h]

/-- C26 (counterexample). In the search for `bar` over the class `Foo`, whose method
`bar` matches, the match of `Foo` is required, and the item
`_create_class_hierarchy` creates for it is grayed. -/
theorem required_class_item_is_gray :
    slices Example.host_foo Example.selector_bar 7 (Example.fresh Example.selector_bar) =
      some Example.bar_start ∧
    slices Example.host_foo Example.selector_bar 1 Example.bar_start = some Example.member_hit ∧
    HashMap.entry Example.member_hit.matches_ Example.member_hit.iterator_match =
      some (lit "Foo", Example.bar_match) ∧
    Example.bar_match.required = true ∧
    ((_create_class_hierarchy Example.host_foo (Example.member_hit.matches_.length + 1)
      Example.member_hit Example.bar_match).map
        (fun r => (r.2, r.1.results_tree.items[1]?.map (fun row => (row.metadata0, row.gray))))) =
      some (some 1, some (lit "Foo", true)) :=
  ⟨by with_unfolding_all rfl, by with_unfolding_all rfl, by with_unfolding_all rfl,
    by with_unfolding_all rfl, by with_unfolding_all rfl⟩

/-- C26 (amended). In hierarchy mode, in every state reached by slices during the
class items phase and at its end, every row of the tree but the root is the item of
a class of the match map and is grayed if and only if the name of that class did
not match; at the end of the phase every required match, whether its name matched
or not, has such an item. -/
theorem class_item_gray_iff_name_unmatched (host : Host) (selector_ui : Selector) (s : Runner)
    (hp : s.phase = PHASE_CLASS_ITEMS_INIT)
    (hflag : flag_set s.search_flags SEARCH_SHOW_HIERARCHY = true)
    (hk : Keyed s.matches_) (n : Nat) (s1 : Runner)
    (hreach : slices host selector_ui n s = some s1)
    (hph : s1.phase = PHASE_CLASS_ITEMS ∨ s1.phase = PHASE_MEMBER_ITEMS_INIT) :
    (∀ (i : Nat) (row : TreeItem), 1 ≤ i → s1.results_tree.items[i]? = some row →
      ∃ m, HashMap.get? s.matches_ row.metadata0 = some m ∧
        (row.gray = true ↔ m.name = false)) ∧
    (s1.phase = PHASE_MEMBER_ITEMS_INIT → ∀ e ∈ s.matches_, e.2.required = true →
      ∃ (i : Nat) (row : TreeItem), 1 ≤ i ∧ s1.results_tree.items[i]? = some row ∧
        row.metadata0 = e.2.doc.name ∧ (row.gray = true ↔ e.2.name = false)) := by
  have h0 : ClassInv s.matches_ s.phase s := by
    rw [hp]; exact ⟨rfl, hflag⟩
  have h1 : ClassInv s.matches_ s1.phase s1 :=
    slices_invariant host selector_ui (fun x => ClassInv s.matches_ x.phase x)
      (fun x x1 r hx hs => class_inv_slice host selector_ui s.matches_ x x1 r hx hs) n s s1 h0
      hreach
  have hrows : ClassRows s.matches_ s1 := by
    rcases hph with h6 | h7
    · rw [h6] at h1
      have hb : BuildingClasses s.matches_ s1 := h1
      exact hb.2.2.1
    · rw [h7] at h1
      have hb : InHierarchy s.matches_ s1 ∧ ClassRows s.matches_ s1 ∧ AllItems s.matches_ s1 := h1
      exact hb.2.1
  have hgray : ∀ (i : Nat) (row : TreeItem), 1 ≤ i → s1.results_tree.items[i]? = some row →
      ∃ m, HashMap.get? s.matches_ row.metadata0 = some m ∧
        (row.gray = true ↔ m.name = false) := by
    intro i row hi hrow
    obtain ⟨e, hemem, hmeta, hg⟩ := hrows.2.2 i row hi hrow
    obtain ⟨key, m⟩ := e
    have hkey : m.doc.name = key := hk.2 (key, m) hemem
    refine ⟨m, ?_, ?_⟩
    · rw [hmeta]
      show HashMap.get? s.matches_ m.doc.name = some m
      rw [hkey]
      exact HashMap.get?_of_mem _ hk.1 key m hemem
    · rw [hg]
      show (!m.name) = true ↔ m.name = false
      cases m.name <;> simp
  refine ⟨hgray, ?_⟩
  intro h7 e hemem hreq
  rw [h7] at h1
  have hb : InHierarchy s.matches_ s1 ∧ ClassRows s.matches_ s1 ∧ AllItems s.matches_ s1 := h1
  obtain ⟨id, row, _, hid, hrow, hmeta⟩ := hb.2.2 e hemem hreq
  obtain ⟨m, hm, hiff⟩ := hgray id row hid hrow
  refine ⟨id, row, hid, hrow, hmeta, ?_⟩
  have hget : HashMap.get? s.matches_ e.2.doc.name = some e.2 := by
    rw [hk.2 e hemem]
    exact HashMap.get?_of_mem _ hk.1 e.1 e.2 hemem
  rw [hmeta, hget] at hm
  cases hm
  exact hiff

theorem class_item_gray_iff_name_unmatched_witness :
    Example.bar_classes.results_tree.items[1]? = some Example.bar_row ∧
    ∃ m, HashMap.get? Example.bar_start.matches_ Example.bar_row.metadata0 = some m ∧
      (Example.bar_row.gray = true ↔ m.name = false) :=
  ⟨by with_unfolding_all rfl,
    (class_item_gray_iff_name_unmatched Example.host_foo Example.selector_bar
      Example.bar_start (by with_unfolding_all rfl) (by with_unfolding_all decide)
      ⟨by with_unfolding_all decide, by with_unfolding_all decide⟩ 4 Example.bar_classes
      (by with_unfolding_all rfl) (Or.inr (by with_unfolding_all rfl))).1 1 Example.bar_row
      (by decide) (by with_unfolding_all rfl)⟩

/-- C30. In hierarchy mode, in every state reached by slices once the class items
phase is over, the runner still works in hierarchy mode over the same match map,
and for every match with a matched method, signal, constant, property or theme
item the lookup `class_items[name]` of `_phase_member_items` inserts nothing and
yields a row of the tree, other than the root, whose metadata is the name of the
class of the match. -/
theorem member_parent_is_class_item (host : Host) (selector_ui : Selector) (s : Runner)
    (hp : s.phase = PHASE_CLASS_ITEMS_INIT)
    (hflag : flag_set s.search_flags SEARCH_SHOW_HIERARCHY = true)
    (n : Nat) (s1 : Runner) (hreach : slices host selector_ui n s = some s1)
    (hdone : PHASE_MEMBER_ITEMS_INIT ≤ s1.phase) :
    s1.matches_ = s.matches_ ∧ flag_set s1.search_flags SEARCH_SHOW_HIERARCHY = true ∧
    ∀ e ∈ s1.matches_,
      (e.2.methods ≠ [] ∨ e.2.signals ≠ [] ∨ e.2.constants ≠ [] ∨ e.2.properties ≠ [] ∨
        e.2.theme_properties ≠ []) →
      ∃ (id : Nat) (row : TreeItem),
        HashMap.index s1.class_items e.2.doc.name none = (s1.class_items, some id) ∧
        1 ≤ id ∧ s1.results_tree.items[id]? = some row ∧ row.metadata0 = e.2.doc.name := by
  have h0 : ClassInv s.matches_ s.phase s := by
    rw [hp]; exact ⟨rfl, hflag⟩
  have h1 : ClassInv s.matches_ s1.phase s1 :=
    slices_invariant host selector_ui (fun x => ClassInv s.matches_ x.phase x)
      (fun x x1 r hx hs => class_inv_slice host selector_ui s.matches_ x x1 r hx hs) n s s1 h0
      hreach
  have hall : InHierarchy s.matches_ s1 ∧ AllItems s.matches_ s1 := by
    unfold ClassInv at h1
    simp only [PHASE_CLASS_ITEMS_INIT, PHASE_CLASS_ITEMS, PHASE_MEMBER_ITEMS_INIT,
      PHASE_MEMBER_ITEMS] at h1 hdone
    rw [if_neg (by omega), if_neg (by omega)] at h1
    by_cases h7 : s1.phase = 7
    · rw [if_pos h7] at h1
      exact ⟨h1.1, h1.2.2⟩
    · rw [if_neg h7, if_pos (by omega)] at h1
      exact h1
  obtain ⟨⟨hm, hfl⟩, hitems⟩ := hall
  refine ⟨hm, hfl, ?_⟩
  intro e hemem hmember
  rw [hm] at hemem
  obtain ⟨id, row, hget, hid, hrow, hmeta⟩ :=
    hitems e hemem (required_of_member e.2 hmember)
  refine ⟨id, row, ?_, hid, hrow, hmeta⟩
  unfold HashMap.index
  rw [hget]

theorem member_parent_is_class_item_witness :
    ∃ (id : Nat) (row : TreeItem),
      HashMap.index Example.bar_members.class_items Example.bar_match.doc.name none =
        (Example.bar_members.class_items, some id) ∧
      1 ≤ id ∧ Example.bar_members.results_tree.items[id]? = some row ∧
      row.metadata0 = Example.bar_match.doc.name :=
  (member_parent_is_class_item Example.host_foo Example.selector_bar
    Example.bar_start (by with_unfolding_all rfl) (by with_unfolding_all decide) 6
    Example.bar_members (by with_unfolding_all rfl) (by with_unfolding_all decide)).2.2
    (lit "Foo", Example.bar_match) (by with_unfolding_all decide)
    (Or.inl (by with_unfolding_all decide))

end SearchRunner
